import Mathlib

/-!
# Skeletal animation playback (NOU framework, `Animations/Animation.cpp`)

A shallow embedding of `nou::SkeletalAnimClip` (the per-instance animation
player) together with the data it reads (`JointAnim`, `SkeletalAnim`,
`Skeleton`).

Modelling conventions.

* `float` is idealised as `ℚ`: sums, differences, quotients and comparisons
  are exact.  `fmod` is the C truncated remainder.  The range of `float` is
  made explicit for the timer block of `Update` only: `FloatVal` has the
  infinities and a NaN, `advanceTimerF` is the block on it, and it agrees with
  `advanceTimer` as long as the sum stays within `FLT_MAX`
  (`advanceTimerF_exact`, `timerRunF_eq_updates`).
* `glm::vec3` and `glm::quat` are abstract types `V` and `Q`; `glm::mix` on
  quaternions is a parameter `mix : Q → Q → ℚ → Q`.
* `std::vector` is `List`; `operator[]` outside the bounds is undefined
  behaviour in C++ and is `none` here, so `Update` and `Apply` return an
  `Option`.
* The `while` loop of `Update` is given a fuel argument equal to the number of
  rotation frames of the track, which it can never exhaust
  (`scanRot_fuel_mono`, `scanRot_isSome`).
* `MovementComponent::Update` (`Gameplay/Components/MovementComponent.cpp`) is
  embedded as well: the four values read from `glfwGetKey` are arguments, and
  the rigid body is recorded as the list of its `SetLinearVelocity` calls.
-/

namespace nou

/-- The C function `fmod` on exact numbers: `x - trunc (x / y) * y`, the
quotient truncated towards zero.  (`fmod x 0` is a NaN in C; every statement
below that goes through `fmod` assumes a positive modulus.) -/
def fmod (x y : ℚ) : ℚ :=
  x - (if 0 ≤ x / y then (⌊x / y⌋ : ℤ) else ⌈x / y⌉) * y

/-- A joint of a skeleton: bind (base) pose and current local pose. -/
structure Joint (V Q : Type) where
  m_basePos : V
  m_baseRotation : Q
  m_pos : V
  m_rotation : Q

/-- The skeleton: an index-addressed collection of joints. -/
structure Skeleton (V Q : Type) where
  m_joints : List (Joint V Q)

/-- Key data of one joint (`JointAnim`): target joint, declared frame counts
and the key arrays. -/
structure JointAnim (V Q : Type) where
  jointInd : Nat
  rotFrames : Nat
  posFrames : Nat
  posKeys : List V
  posTimes : List ℚ
  rotKeys : List Q
  rotTimes : List ℚ

/-- The shared clip data (`SkeletalAnim`): loop duration and one track per
animated joint. -/
structure SkeletalAnim (V Q : Type) where
  duration : ℚ
  data : List (JointAnim V Q)

/-- One entry of the output pose buffer (`SkeletalAnimClip::JointPose`). -/
structure JointPose (V Q : Type) where
  pos : V
  rotation : Q

/-- The player (`SkeletalAnimClip`): clip, elapsed time, per-track cursors and
the output pose buffer. -/
structure SkeletalAnimClip (V Q : Type) where
  m_anim : SkeletalAnim V Q
  m_timer : ℚ
  m_rotFrame : List Nat
  m_posFrame : List Nat
  m_result : List (JointPose V Q)

variable {V Q : Type}

/-- The constructor `SkeletalAnimClip::SkeletalAnimClip(anim, skeleton)`:
timer 0, one buffer entry per joint seeded with the base pose, one zero cursor
per track. -/
def SkeletalAnimClip.create (anim : SkeletalAnim V Q) (skeleton : Skeleton V Q) :
    SkeletalAnimClip V Q :=
  { m_anim := anim
    m_timer := 0
    m_result := skeleton.m_joints.map (fun j => ⟨j.m_basePos, j.m_baseRotation⟩)
    m_rotFrame := List.replicate anim.data.length 0
    m_posFrame := List.replicate anim.data.length 0 }

/-- Lines 55-62 of `Update`: add `deltaTime`; past the duration, wrap with
`fmod` and reset every rotation cursor. -/
def advanceTimer (c : SkeletalAnimClip V Q) (deltaTime : ℚ) : SkeletalAnimClip V Q :=
  let t := c.m_timer + deltaTime
  if t > c.m_anim.duration then
    { c with m_timer := fmod t c.m_anim.duration
             m_rotFrame := List.replicate c.m_rotFrame.length 0 }
  else
    { c with m_timer := t }

/-- The `while` loop at line 85, started at `curFrame`: each test reads
`rotTimes[nextFrame]` first, then compares `nextFrame` with `rotFrames - 1`.
Returns the final `curFrame`.  The first argument is fuel: `none` on fuel 0
stands for a loop that wants one more iteration. -/
def scanRot (timer : ℚ) (anim : JointAnim V Q) : Nat → Nat → Option Nat
  | 0, curFrame =>
    match anim.rotTimes[curFrame + 1]? with
    | none => none
    | some tn =>
      if timer > tn ∧ curFrame + 1 < anim.rotFrames - 1 then none else some curFrame
  | fuel + 1, curFrame =>
    match anim.rotTimes[curFrame + 1]? with
    | none => none
    | some tn =>
      if timer > tn ∧ curFrame + 1 < anim.rotFrames - 1 then
        scanRot timer anim fuel (curFrame + 1)
      else some curFrame

/-- Lines 92-94: the interpolation fraction and the blended rotation for the
segment `(curFrame, curFrame + 1)`. -/
def rotBlend (mix : Q → Q → ℚ → Q) (timer : ℚ) (anim : JointAnim V Q) (curFrame : Nat) :
    Option Q :=
  match anim.rotTimes[curFrame]?, anim.rotTimes[curFrame + 1]?,
        anim.rotKeys[curFrame]?, anim.rotKeys[curFrame + 1]? with
  | some tc, some tn, some kc, some kn => some (mix kc kn ((timer - tc) / (tn - tc)))
  | _, _, _, _ => none

/-- Lines 70-73: the position part of one track, acting on the referenced
pose. -/
def trackPos (anim : JointAnim V Q) (pose : JointPose V Q) : Option (JointPose V Q) :=
  if anim.posFrames > 0 then
    match anim.posKeys[0]? with
    | none => none
    | some k => some { pose with pos := k }
  else some pose

/-- Lines 75-95: the rotation part of one track.  Returns the new cursor list
and the pose with its rotation written (or untouched for zero frames). -/
def trackRot (mix : Q → Q → ℚ → Q) (timer : ℚ) (anim : JointAnim V Q) (i : Nat)
    (rotFrame : List Nat) (pose : JointPose V Q) : Option (List Nat × JointPose V Q) :=
  if anim.rotFrames = 1 then
    match anim.rotKeys[0]? with
    | none => none
    | some k => some (rotFrame, { pose with rotation := k })
  else if anim.rotFrames > 1 then
    match rotFrame[i]? with
    | none => none
    | some cur0 =>
      match scanRot timer anim anim.rotFrames cur0 with
      | none => none
      | some cur =>
        match rotBlend mix timer anim cur with
        | none => none
        | some r => some (rotFrame.set i cur, { pose with rotation := r })
  else some (rotFrame, pose)

/-- The body of the `for` loop of `Update` (lines 66-95) for track `i`. -/
def trackStep (mix : Q → Q → ℚ → Q) (c : SkeletalAnimClip V Q) (i : Nat) :
    Option (SkeletalAnimClip V Q) :=
  match c.m_anim.data[i]? with
  | none => none
  | some anim =>
    match c.m_result[anim.jointInd]? with
    | none => none
    | some pose =>
      match trackPos anim pose with
      | none => none
      | some pose1 =>
        match trackRot mix c.m_timer anim i c.m_rotFrame pose1 with
        | none => none
        | some (rf, pose2) =>
          some { c with m_rotFrame := rf, m_result := c.m_result.set anim.jointInd pose2 }

/-- The `for` loop of `Update` over the first `n` tracks. -/
def tracksLoop (mix : Q → Q → ℚ → Q) (n : Nat) (c : SkeletalAnimClip V Q) :
    Option (SkeletalAnimClip V Q) :=
  (List.range n).foldlM (trackStep mix) c

/-- The method `SkeletalAnimClip::Update(deltaTime, skeleton)`; the skeleton
argument is not used by the body. -/
def Update (mix : Q → Q → ℚ → Q) (c : SkeletalAnimClip V Q) (deltaTime : ℚ) :
    Option (SkeletalAnimClip V Q) :=
  tracksLoop mix c.m_anim.data.length (advanceTimer c deltaTime)

/-- A run of `Update` calls, one per element of `dts`, stopping at the first
undefined one. -/
def updates (mix : Q → Q → ℚ → Q) (c : SkeletalAnimClip V Q) (dts : List ℚ) :
    Option (SkeletalAnimClip V Q) :=
  dts.foldlM (Update mix) c

/-- Lines 105-106: the two assignments to the referenced joint. -/
def copyPose (joint : Joint V Q) (r : JointPose V Q) : Joint V Q :=
  { joint with m_pos := r.pos, m_rotation := r.rotation }

/-- The body of the loop of `Apply` for index `i`. -/
def applyStep (c : SkeletalAnimClip V Q) (skeleton : Skeleton V Q) (i : Nat) :
    Option (Skeleton V Q) :=
  match skeleton.m_joints[i]?, c.m_result[i]? with
  | some joint, some r => some { m_joints := skeleton.m_joints.set i (copyPose joint r) }
  | _, _ => none

/-- The method `SkeletalAnimClip::Apply(skeleton)`: copy buffer entry `i`
onto joint `i` for every index of the buffer. -/
def Apply (c : SkeletalAnimClip V Q) (skeleton : Skeleton V Q) : Option (Skeleton V Q) :=
  (List.range c.m_result.length).foldlM (applyStep c) skeleton

/-! ## The constructor as written, `Apply` on both objects, sessions

`SkeletalAnimClip.create` above is the closed form of the constructor; here the
constructor is followed statement by statement (`construct_eq_create` relates
the two).  `ApplyOn` follows `Apply` on the pair of the player and the skeleton,
so that what the method leaves alone can be stated.  A session is a
construction followed by arbitrary calls. -/

/-- The call `v.resize(n)` of `std::vector`, with `d` the value-initialised
element: keep the first `n` elements, pad with `d`. -/
def resize {α : Type} (v : List α) (n : Nat) (d : α) : List α :=
  v.take n ++ List.replicate (n - v.length) d

/-- Lines 42-43: the two assignments to `m_result[i]` from joint `i`. -/
def seedStep (skeleton : Skeleton V Q) (res : List (JointPose V Q)) (i : Nat) :
    Option (List (JointPose V Q)) :=
  match res[i]?, skeleton.m_joints[i]? with
  | some p, some j =>
    some (res.set i { { p with pos := j.m_basePos } with rotation := j.m_baseRotation })
  | _, _ => none

/-- The constructor as written (lines 31-51): the three vectors start empty;
`m_result` is resized to the joint count (`d` is the default `JointPose`) and
seeded by the index loop; `m_rotFrame` and `m_posFrame` are resized to the
track count and filled with 0. -/
def SkeletalAnimClip.construct (d : JointPose V Q) (anim : SkeletalAnim V Q)
    (skeleton : Skeleton V Q) : Option (SkeletalAnimClip V Q) :=
  match (List.range skeleton.m_joints.length).foldlM (seedStep skeleton)
      (resize [] skeleton.m_joints.length d) with
  | none => none
  | some res =>
    some { m_anim := anim
           m_timer := 0
           m_result := res
           m_rotFrame := (resize [] anim.data.length 0).map (fun _ => 0)
           m_posFrame := (resize [] anim.data.length 0).map (fun _ => 0) }

/-- The body of the loop of `Apply` on the pair of both objects the method can
reach, the player (`this`) and the skeleton argument: the two assignments go to
the joint, nothing is assigned to a member of the player. -/
def applyStepOn (st : SkeletalAnimClip V Q × Skeleton V Q) (i : Nat) :
    Option (SkeletalAnimClip V Q × Skeleton V Q) :=
  match st.2.m_joints[i]?, st.1.m_result[i]? with
  | some joint, some r => some (st.1, { m_joints := st.2.m_joints.set i (copyPose joint r) })
  | _, _ => none

/-- The `for` loop of `Apply` from index `i` on the pair state; the bound
`m_result.size()` is read again at every test.  The first argument is fuel. -/
def applyFrom : Nat → Nat → SkeletalAnimClip V Q × Skeleton V Q →
    Option (SkeletalAnimClip V Q × Skeleton V Q)
  | 0, i, st => if i < st.1.m_result.length then none else some st
  | fuel + 1, i, st =>
    if i < st.1.m_result.length then
      match applyStepOn st i with
      | none => none
      | some st1 => applyFrom fuel (i + 1) st1
    else some st

/-- The method `Apply` as a transformer of the player and the skeleton. -/
def ApplyOn (c : SkeletalAnimClip V Q) (skeleton : Skeleton V Q) :
    Option (SkeletalAnimClip V Q × Skeleton V Q) :=
  applyFrom c.m_result.length 0 (c, skeleton)

/-- The calls a client can make on one player and its skeleton. -/
inductive PlayerOp (V Q : Type) where
  | construct (anim : SkeletalAnim V Q)
  | update (deltaTime : ℚ)
  | apply

/-- One call on the pair (player, skeleton): the constructor and `Update` take
the skeleton by `const` reference, `Apply` by reference. -/
def runOp (mix : Q → Q → ℚ → Q) (d : JointPose V Q)
    (st : SkeletalAnimClip V Q × Skeleton V Q) :
    PlayerOp V Q → Option (SkeletalAnimClip V Q × Skeleton V Q)
  | .construct anim => (SkeletalAnimClip.construct d anim st.2).map (fun c => (c, st.2))
  | .update deltaTime => (Update mix st.1 deltaTime).map (fun c => (c, st.2))
  | .apply => ApplyOn st.1 st.2

/-- A session: construct a player on the skeleton, then make the calls `ops`
in order. -/
def session (mix : Q → Q → ℚ → Q) (d : JointPose V Q) (anim : SkeletalAnim V Q)
    (skeleton : Skeleton V Q) (ops : List (PlayerOp V Q)) :
    Option (SkeletalAnimClip V Q × Skeleton V Q) :=
  match SkeletalAnimClip.construct d anim skeleton with
  | none => none
  | some c => ops.foldlM (runOp mix d) (c, skeleton)

/-! ## Recorded writes

The writes of the track loop do not depend on the contents of the pose buffer;
they are recorded here as partial maps from joint indices, to be laid over any
buffer of the right length. -/

/-- What the position part of a track writes (`some none`: nothing written;
`none`: the read of `posKeys[0]` is out of bounds). -/
def posW (a : JointAnim V Q) : Option (Option V) :=
  if a.posFrames > 0 then (a.posKeys[0]?).map some else some none

/-- What the rotation part of a track writes, with the new cursor list. -/
def rotW (mix : Q → Q → ℚ → Q) (timer : ℚ) (a : JointAnim V Q) (i : Nat) (rf : List Nat) :
    Option (List Nat × Option Q) :=
  if a.rotFrames = 1 then (a.rotKeys[0]?).map (fun k => (rf, some k))
  else if a.rotFrames > 1 then
    match rf[i]? with
    | none => none
    | some cur0 =>
      match scanRot timer a a.rotFrames cur0 with
      | none => none
      | some cur => (rotBlend mix timer a cur).map (fun r => (rf.set i cur, some r))
  else some (rf, none)

/-- The pose buffer `b` with the recorded writes laid over it. -/
def overlay (wp : Nat → Option V) (wr : Nat → Option Q) (b : List (JointPose V Q)) :
    List (JointPose V Q) :=
  b.mapIdx (fun j p => ⟨(wp j).getD p.pos, (wr j).getD p.rotation⟩)

/-- The writes of one loop iteration, recorded instead of performed: `L` is
the length of the pose buffer. -/
def stepW (mix : Q → Q → ℚ → Q) (anim : SkeletalAnim V Q) (timer : ℚ) (L : Nat)
    (s : List Nat × (Nat → Option V) × (Nat → Option Q)) (i : Nat) :
    Option (List Nat × (Nat → Option V) × (Nat → Option Q)) :=
  match anim.data[i]? with
  | none => none
  | some a =>
    if a.jointInd < L then
      match posW a with
      | none => none
      | some pw =>
        match rotW mix timer a i s.1 with
        | none => none
        | some (rf, rw) =>
          some (rf, (fun j => if j = a.jointInd then pw <|> s.2.1 j else s.2.1 j),
                    (fun j => if j = a.jointInd then rw <|> s.2.2 j else s.2.2 j))
    else none

/-- The recorded writes of the first `n` iterations of the track loop. -/
def loopW (mix : Q → Q → ℚ → Q) (anim : SkeletalAnim V Q) (timer : ℚ) (L n : Nat)
    (rf : List Nat) : Option (List Nat × (Nat → Option V) × (Nat → Option Q)) :=
  (List.range n).foldlM (stepW mix anim timer L) (rf, fun _ => none, fun _ => none)

/-- Some track among the first `n` targets joint `j` and has a position key. -/
def posTargets (anim : SkeletalAnim V Q) (n j : Nat) : Prop :=
  ∃ i a, i < n ∧ anim.data[i]? = some a ∧ a.jointInd = j ∧ 0 < a.posFrames

/-- Some track among the first `n` targets joint `j` and has a rotation key. -/
def rotTargets (anim : SkeletalAnim V Q) (n j : Nat) : Prop :=
  ∃ i a, i < n ∧ anim.data[i]? = some a ∧ a.jointInd = j ∧ 0 < a.rotFrames

/-- The rotation a track writes when its cursor reads `cur0` (`none`: nothing
written or an out-of-bounds read). -/
def rotValue (mix : Q → Q → ℚ → Q) (timer : ℚ) (a : JointAnim V Q) (cur0 : Option Nat) :
    Option Q :=
  if a.rotFrames = 1 then a.rotKeys[0]?
  else if a.rotFrames > 1 then
    cur0.bind (fun c0 => (scanRot timer a a.rotFrames c0).bind (rotBlend mix timer a))
  else none

/-- The cursor a track leaves when it found `cur0`. -/
def curValue (timer : ℚ) (a : JointAnim V Q) (cur0 : Option Nat) : Option Nat :=
  if a.rotFrames > 1 then cur0.bind (scanRot timer a a.rotFrames) else cur0

/-! ## Position data the code never reads -/

/-- A track with its position data cut down to what the code can read: the
first position key; no position key times. -/
def stripPos (a : JointAnim V Q) : JointAnim V Q :=
  { a with posKeys := a.posKeys.take 1, posTimes := [] }

/-- A clip with every track stripped of its unread position data. -/
def stripPosAnim (anim : SkeletalAnim V Q) : SkeletalAnim V Q :=
  { anim with data := anim.data.map stripPos }

/-! ## Invariants of the reachable states -/

/-- The pose buffer a freshly constructed player starts from. -/
def basePoses (skeleton : Skeleton V Q) : List (JointPose V Q) :=
  skeleton.m_joints.map (fun j => ⟨j.m_basePos, j.m_baseRotation⟩)

/-- The invariant of the states reached from construction on `anim` and
`skeleton`: the clip and the position cursors are untouched, there is one
rotation cursor per track, and the pose buffer is the base pose overlaid with
writes to joints that some track of the clip targets. -/
def Inv (anim : SkeletalAnim V Q) (skeleton : Skeleton V Q) (c : SkeletalAnimClip V Q) : Prop :=
  c.m_anim = anim ∧ c.m_posFrame = List.replicate anim.data.length 0 ∧
    c.m_rotFrame.length = anim.data.length ∧
    ∃ wp wr, c.m_result = overlay wp wr (basePoses skeleton) ∧
      (∀ j, (wp j).isSome = true → posTargets anim anim.data.length j) ∧
      (∀ j, (wr j).isSome = true → rotTargets anim anim.data.length j)

/-- The cursor of track `i` is 0 or points at a key time already passed. -/
def CurInv (i : Nat) (a : JointAnim V Q) (c : SkeletalAnimClip V Q) : Prop :=
  ∃ c0, c.m_rotFrame[i]? = some c0 ∧
    (c0 = 0 ∨ ∃ tc, a.rotTimes[c0]? = some tc ∧ tc < c.m_timer)

/-- The cursor of track `i` leaves room for a next key. -/
def CurValid (i : Nat) (a : JointAnim V Q) (c : SkeletalAnimClip V Q) : Prop :=
  ∃ c0, c.m_rotFrame[i]? = some c0 ∧ c0 + 1 < a.rotFrames

/-- Every index below the cursor of track `i` would be passed again by a scan
from 0 at the current timer. -/
def PassedInv (i : Nat) (a : JointAnim V Q) (c : SkeletalAnimClip V Q) : Prop :=
  ∃ c0, c.m_rotFrame[i]? = some c0 ∧
    ∀ k, k < c0 → ∃ tk, a.rotTimes[k + 1]? = some tk ∧ tk < c.m_timer ∧ k + 1 < a.rotFrames - 1

/-- Two skeletons with the same joint count and the same base poses. -/
def SameBase (s s1 : Skeleton V Q) : Prop :=
  s1.m_joints.length = s.m_joints.length ∧
    ∀ i : Nat, (s1.m_joints[i]?).map (fun j => j.m_basePos) =
        (s.m_joints[i]?).map (fun j => j.m_basePos) ∧
      (s1.m_joints[i]?).map (fun j => j.m_baseRotation) =
        (s.m_joints[i]?).map (fun j => j.m_baseRotation)

/-! ## Worked examples -/

/-- The track of the concrete scenario: joint 0, rotation keys `k0 k1 k2` at
times 0, 1, 2, no position keys. -/
def scenarioTrack (k0 k1 k2 : Q) : JointAnim V Q :=
  { jointInd := 0, rotFrames := 3, posFrames := 0, posKeys := [], posTimes := [],
    rotKeys := [k0, k1, k2], rotTimes := [0, 1, 2] }

/-- The clip of the concrete scenario: duration 2, the single track above. -/
def scenarioAnim (k0 k1 k2 : Q) : SkeletalAnim V Q :=
  { duration := 2, data := [scenarioTrack k0 k1 k2] }

/-- A linear blend on `ℚ`, used as the `mix` of the worked examples. -/
def lerp (a b t : ℚ) : ℚ := a + (b - a) * t

/-- A two-joint skeleton for the worked examples. -/
def exampleSkeleton : Skeleton ℚ ℚ :=
  ⟨[⟨10, 20, 30, 40⟩, ⟨11, 21, 31, 41⟩]⟩

/-- The scenario clip with numeric keys. -/
def exampleAnim : SkeletalAnim ℚ ℚ := scenarioAnim 0 1 0

/-- The example player after the first `Update (1/2)`. -/
def examplePlayerHalf : SkeletalAnimClip ℚ ℚ :=
  ⟨exampleAnim, 1/2, [0], [0], [⟨10, lerp 0 1 (1/2)⟩, ⟨11, 21⟩]⟩

/-- The example player after `Update (1/2)` and `Update (6/10)`. -/
def examplePlayer : SkeletalAnimClip ℚ ℚ :=
  ⟨exampleAnim, 11/10, [1], [0], [⟨10, lerp 1 0 (1/10)⟩, ⟨11, 21⟩]⟩

/-- A clip whose single track holds one static rotation key for joint 1. -/
def staticAnim : SkeletalAnim ℚ ℚ :=
  { duration := 2
    data := [{ jointInd := 1, rotFrames := 1, posFrames := 0, posKeys := [], posTimes := [],
               rotKeys := [7], rotTimes := [0] }] }

/-- A two-key clip: joint 0 goes from rotation 3 at time 0 to rotation 5 at
time 2, the duration. -/
def twoKeyAnim : SkeletalAnim ℚ ℚ :=
  { duration := 2
    data := [{ jointInd := 0, rotFrames := 2, posFrames := 0, posKeys := [], posTimes := [],
               rotKeys := [3, 5], rotTimes := [0, 2] }] }

/-- A clip whose single track has two position keys for joint 0 and no
rotation keys. -/
def posAnim : SkeletalAnim ℚ ℚ :=
  { duration := 2
    data := [{ jointInd := 0, rotFrames := 0, posFrames := 2, posKeys := [5, 6],
               posTimes := [0, 1], rotKeys := [], rotTimes := [] }] }

/-- The track of `holdAnim`: joint 0, rotation keys 3 and 5 at times 0 and 1. -/
def holdTrack : JointAnim ℚ ℚ :=
  { jointInd := 0, rotFrames := 2, posFrames := 0, posKeys := [], posTimes := [],
    rotKeys := [3, 5], rotTimes := [0, 1] }

/-- A clip of duration 2 whose last rotation key is at time 1. -/
def holdAnim : SkeletalAnim ℚ ℚ :=
  { duration := 2, data := [holdTrack] }

/-- The calls of the example session: one `Update`, one `Apply`. -/
def exampleOps : List (PlayerOp ℚ ℚ) := [.update (1/2), .apply]

/-- The player and the skeleton at the end of the example session. -/
def exampleSessionEnd : SkeletalAnimClip ℚ ℚ × Skeleton ℚ ℚ :=
  (⟨exampleAnim, 1/2, [0], [0], [⟨10, lerp 0 1 (1/2)⟩, ⟨11, 21⟩]⟩,
   ⟨[⟨10, 20, 10, lerp 0 1 (1/2)⟩, ⟨11, 21, 11, 21⟩]⟩)

/-- The class `MovementComponent` (global in the source): the impulse, the key
latch `_isPressed`, the member `rotation`, and the rigid body `_body`, recorded
as the list of the arguments of its `SetLinearVelocity` calls, oldest first. -/
structure MovementComponent where
  _impulse : ℚ
  _isPressed : Bool
  rotation : Int
  bodyCalls : List (ℚ × ℚ × ℚ)

/-- Lines 45-58: the block of the W key; `pressed` is the value read from
`glfwGetKey`. -/
def MovementComponent.blockW (pressed : Bool) (m : MovementComponent) : MovementComponent :=
  if pressed then
    let m1 := if m._isPressed = false then
      { m with bodyCalls := m.bodyCalls ++ [(0, m._impulse, 0)], rotation := 1 } else m
    { m1 with _isPressed := pressed }
  else { m with _isPressed := false }

/-- Lines 60-73: the block of the S key. -/
def MovementComponent.blockS (pressed1 : Bool) (m : MovementComponent) : MovementComponent :=
  if pressed1 then
    let m1 := if m._isPressed = false then
      { m with bodyCalls := m.bodyCalls ++ [(0, m._impulse * -1, 0)], rotation := 2 } else m
    { m1 with _isPressed := pressed1 }
  else { m with _isPressed := false }

/-- Lines 75-88: the block of the A key. -/
def MovementComponent.blockA (pressed2 : Bool) (m : MovementComponent) : MovementComponent :=
  if pressed2 then
    let m1 := if m._isPressed = false then
      { m with bodyCalls := m.bodyCalls ++ [(m._impulse * -1, 0, 0)], rotation := 3 } else m
    { m1 with _isPressed := pressed2 }
  else { m with _isPressed := false }

/-- Lines 90-103: the block of the D key. -/
def MovementComponent.blockD (pressed3 : Bool) (m : MovementComponent) : MovementComponent :=
  if pressed3 then
    let m1 := if m._isPressed = false then
      { m with bodyCalls := m.bodyCalls ++ [(m._impulse, 0, 0)], rotation := 4 } else m
    { m1 with _isPressed := pressed3 }
  else { m with _isPressed := false }

set_option linter.unusedVariables false in
/-- The method `MovementComponent::Update(deltaTime)`: the four key blocks in
the order W, S, A, D; `pressed … pressed3` are the four values read from
`glfwGetKey`, `deltaTime` is not used by the body. -/
def MovementComponent.Update (m : MovementComponent) (deltaTime : ℚ)
    (pressed pressed1 pressed2 pressed3 : Bool) : MovementComponent :=
  MovementComponent.blockD pressed3 (MovementComponent.blockA pressed2
    (MovementComponent.blockS pressed1 (MovementComponent.blockW pressed m)))

/-- A component with impulse 10, the latch released and no call made yet. -/
def exampleMover : MovementComponent := ⟨10, false, 0, []⟩

/-- Well-formedness of a clip for a skeleton: every track has `rotFrames`
rotation keys and key times, a position key when `posFrames > 0`, and a joint
index below the joint count. -/
def WellFormed (anim : SkeletalAnim V Q) (skeleton : Skeleton V Q) : Prop :=
  ∀ a ∈ anim.data, a.rotKeys.length = a.rotFrames ∧ a.rotTimes.length = a.rotFrames ∧
    (0 < a.posFrames → 0 < a.posKeys.length) ∧ a.jointInd < skeleton.m_joints.length

/-- The track of `flatAnim`: joint 0, rotation keys 3 and 5, both at time 0. -/
def flatTrack : JointAnim ℚ ℚ :=
  { jointInd := 0, rotFrames := 2, posFrames := 0, posKeys := [], posTimes := [],
    rotKeys := [3, 5], rotTimes := [0, 0] }

/-- A clip of duration 2 whose two rotation key times are equal. -/
def flatAnim : SkeletalAnim ℚ ℚ :=
  { duration := 2, data := [flatTrack] }

/-- The first track of `dupAnim`: joint 0, one position key 5, one rotation
key 7. -/
def dupTrackA : JointAnim ℚ ℚ :=
  { jointInd := 0, rotFrames := 1, posFrames := 1, posKeys := [5], posTimes := [0],
    rotKeys := [7], rotTimes := [0] }

/-- The second track of `dupAnim`: joint 0 again, no position key, one
rotation key 9. -/
def dupTrackB : JointAnim ℚ ℚ :=
  { jointInd := 0, rotFrames := 1, posFrames := 0, posKeys := [], posTimes := [],
    rotKeys := [9], rotTimes := [0] }

/-- A clip of duration 2 with two tracks that target the same joint. -/
def dupAnim : SkeletalAnim ℚ ℚ :=
  { duration := 2, data := [dupTrackA, dupTrackB] }

/-! ## The timer block in the range of `float` -/

/-- The largest finite `float` (`FLT_MAX`), `(2 - 2^(-23)) * 2^127`. -/
def FLT_MAX : ℚ := 2 ^ 128 - 2 ^ 104

/-- A `float` as far as its range matters: a finite number, an infinity or a
NaN. -/
inductive FloatVal where
  | num (q : ℚ)
  | posInf
  | negInf
  | nan

/-- The result of a finite operation whose value, rounded as if the exponent
range were unbounded, is `s`: it overflows to an infinity when `s` is beyond
`FLT_MAX`. -/
def FloatVal.ofRounded (s : ℚ) : FloatVal :=
  if s > FLT_MAX then .posInf else if s < -FLT_MAX then .negInf else .num s

/-- The `float` addition; `rnd` rounds an exact finite sum to a `float` as if
the exponent range were unbounded. -/
def FloatVal.add (rnd : ℚ → ℚ) : FloatVal → FloatVal → FloatVal
  | .num a, .num b => FloatVal.ofRounded (rnd (a + b))
  | .num _, .posInf => .posInf
  | .num _, .negInf => .negInf
  | .posInf, .num _ => .posInf
  | .posInf, .posInf => .posInf
  | .negInf, .num _ => .negInf
  | .negInf, .negInf => .negInf
  | _, _ => .nan

/-- The comparison `x < y` on `float`: false as soon as one side is a NaN. -/
def FloatVal.lt : FloatVal → FloatVal → Bool
  | .num a, .num b => decide (a < b)
  | .num _, .posInf => true
  | .negInf, .num _ => true
  | .negInf, .posInf => true
  | _, _ => false

/-- The comparison `x <= y` on `float`: false as soon as one side is a NaN. -/
def FloatVal.le : FloatVal → FloatVal → Bool
  | .num a, .num b => decide (a ≤ b)
  | .num _, .posInf => true
  | .negInf, .num _ => true
  | .negInf, .posInf => true
  | .posInf, .posInf => true
  | .negInf, .negInf => true
  | _, _ => false

/-- The C function `fmod` on `float`: exact for a finite `x` and a finite
non-zero `y`, `x` itself for an infinite `y`, a NaN for an infinite `x`, for
`y = 0` and for a NaN argument. -/
def FloatVal.fmod : FloatVal → FloatVal → FloatVal
  | .num x, .num y => if y = 0 then .nan else .num (nou.fmod x y)
  | .num x, .posInf => .num x
  | .num x, .negInf => .num x
  | _, _ => .nan

/-- Lines 55-59 of `Update` with the range of `float` made explicit, as far as
the timer goes: `m_timer += deltaTime`, then on `m_timer > m_anim.duration`
the `fmod`.  The flag tells whether the branch was taken, that is whether the
`fmod` and the reset of the rotation cursors (lines 59-61) ran. -/
def advanceTimerF (rnd : ℚ → ℚ) (duration m_timer deltaTime : FloatVal) : FloatVal × Bool :=
  let t := FloatVal.add rnd m_timer deltaTime
  if FloatVal.lt duration t then (FloatVal.fmod t duration, true) else (t, false)

/-- The timer after a run of `Update` calls on a fresh player (timer 0, line
34 of the constructor); the track loop of `Update` does not assign the
timer. -/
def timerRunF (rnd : ℚ → ℚ) (duration : FloatVal) (dts : List FloatVal) : FloatVal :=
  dts.foldl (fun t dt => (advanceTimerF rnd duration t dt).1) (.num 0)

/-- No sum `m_timer + deltaTime` formed along the run from timer `t` is an
infinity or a NaN. -/
def sumsFinite (rnd : ℚ → ℚ) (duration : FloatVal) : FloatVal → List FloatVal → Prop
  | _, [] => True
  | t, dt :: dts => (∃ q, FloatVal.add rnd t dt = .num q) ∧
      sumsFinite rnd duration (advanceTimerF rnd duration t dt).1 dts

/-- The timer is a number `e ≥ 0` not above the duration. -/
def TimerOK (duration t : FloatVal) : Prop :=
  ∃ e, t = .num e ∧ 0 ≤ e ∧ FloatVal.le (.num e) duration = true

/-! ## Lemmas on `Apply` -/

theorem foldlM_range_succ {α : Type} (f : α → Nat → Option α) (n : Nat) (a : α) :
    (List.range (n + 1)).foldlM f a = ((List.range n).foldlM f a).bind (fun b => f b n) := by
  rw [List.range_succ, List.foldlM_append]
  simp

theorem applyLoop_spec (c : SkeletalAnimClip V Q) (s : Skeleton V Q) (n : Nat)
    (h1 : n ≤ c.m_result.length) (h2 : n ≤ s.m_joints.length) :
    ∃ s', (List.range n).foldlM (applyStep c) s = some s' ∧
      s'.m_joints.length = s.m_joints.length ∧
      ∀ i, s'.m_joints[i]? =
        if i < n then
          (match s.m_joints[i]?, c.m_result[i]? with
           | some j, some r => some (copyPose j r)
           | _, _ => none)
        else s.m_joints[i]? := by
  induction n with
  | zero => exact ⟨s, by simp⟩
  | succ n ih =>
    obtain ⟨s1, hs1, hlen, hget⟩ := ih (by omega) (by omega)
    have hn1 : n < c.m_result.length := by omega
    have hn2 : n < s.m_joints.length := by omega
    have hsn : s1.m_joints[n]? = some s.m_joints[n] := by
      rw [hget n]; simp [hn2]
    rw [foldlM_range_succ, hs1]
    simp only [Option.some_bind, applyStep, hsn, List.getElem?_eq_getElem hn1]
    refine ⟨_, rfl, by simp [hlen], ?_⟩
    intro i
    simp only [List.getElem?_set]
    by_cases hin : n = i
    · subst hin
      simp [hlen, hn1, hn2]
    · simp only [hin, if_false, hget i]
      by_cases h : i < n
      · simp [h, show i < n + 1 by omega]
      · simp [h, show ¬ i < n + 1 by omega]

theorem Apply_spec (c : SkeletalAnimClip V Q) (s : Skeleton V Q)
    (h : c.m_result.length ≤ s.m_joints.length) :
    ∃ s', Apply c s = some s' ∧ s'.m_joints.length = s.m_joints.length ∧
      ∀ i, s'.m_joints[i]? =
        if i < c.m_result.length then
          (match s.m_joints[i]?, c.m_result[i]? with
           | some j, some r => some (copyPose j r)
           | _, _ => none)
        else s.m_joints[i]? :=
  applyLoop_spec c s c.m_result.length (Nat.le_refl _) h

/-! ## The keyframe scan -/

theorem scanRot_stop {timer : ℚ} {a : JointAnim V Q} {cur : Nat} (fuel : Nat) (tn : ℚ)
    (ht : a.rotTimes[cur + 1]? = some tn)
    (hc : ¬ (timer > tn ∧ cur + 1 < a.rotFrames - 1)) :
    scanRot timer a fuel cur = some cur := by
  cases fuel <;> simp only [scanRot, ht, if_neg hc]

theorem scanRot_step {timer : ℚ} {a : JointAnim V Q} {cur : Nat} (fuel : Nat) (tn : ℚ)
    (ht : a.rotTimes[cur + 1]? = some tn)
    (hc : timer > tn ∧ cur + 1 < a.rotFrames - 1) :
    scanRot timer a (fuel + 1) cur = scanRot timer a fuel (cur + 1) := by
  simp only [scanRot, ht, if_pos hc]

theorem scanRot_none {timer : ℚ} {a : JointAnim V Q} {cur : Nat} (fuel : Nat)
    (ht : a.rotTimes[cur + 1]? = none) :
    scanRot timer a fuel cur = none := by
  cases fuel <;> simp only [scanRot, ht]

theorem scanRot_fuel_succ {timer : ℚ} {a : JointAnim V Q} (fuel : Nat) {c0 : Nat}
    (h : a.rotFrames - 2 - c0 ≤ fuel) :
    scanRot timer a (fuel + 1) c0 = scanRot timer a fuel c0 := by
  induction fuel generalizing c0 with
  | zero =>
    cases ht : a.rotTimes[c0 + 1]? with
    | none => simp [scanRot, ht]
    | some tn =>
      have hc : ¬ (timer > tn ∧ c0 + 1 < a.rotFrames - 1) := by
        intro hcon
        omega
      simp only [scanRot, ht, if_neg hc]
  | succ f ih =>
    cases ht : a.rotTimes[c0 + 1]? with
    | none => simp [scanRot, ht]
    | some tn =>
      by_cases hc : timer > tn ∧ c0 + 1 < a.rotFrames - 1
      · rw [scanRot_step (f + 1) tn ht hc, scanRot_step f tn ht hc]
        exact ih (by omega)
      · rw [scanRot_stop _ tn ht hc, scanRot_stop _ tn ht hc]

/-- The fuel `rotFrames` handed to the scan is never exhausted: more fuel gives
the same result. -/
theorem scanRot_fuel_mono {timer : ℚ} {a : JointAnim V Q} (extra : Nat) (c0 : Nat) :
    scanRot timer a (a.rotFrames + extra) c0 = scanRot timer a a.rotFrames c0 := by
  induction extra with
  | zero => rfl
  | succ e ih =>
    rw [← Nat.add_assoc, scanRot_fuel_succ (a.rotFrames + e) (by omega), ih]

/-- The scan is defined whenever the key times cover the declared frames and
the cursor is in range. -/
theorem scanRot_isSome {timer : ℚ} {a : JointAnim V Q} (hlen : a.rotFrames ≤ a.rotTimes.length)
    (fuel : Nat) {c0 : Nat} (hc0 : c0 + 1 < a.rotFrames) (hfuel : a.rotFrames - 2 - c0 ≤ fuel) :
    ∃ cur, scanRot timer a fuel c0 = some cur ∧ c0 ≤ cur ∧ cur + 1 < a.rotFrames := by
  induction fuel generalizing c0 with
  | zero =>
    have hlt : c0 + 1 < a.rotTimes.length := by omega
    refine ⟨c0, scanRot_stop 0 _ (List.getElem?_eq_getElem hlt) ?_, Nat.le_refl _, hc0⟩
    intro hcon
    omega
  | succ f ih =>
    have hlt : c0 + 1 < a.rotTimes.length := by omega
    by_cases hc : timer > a.rotTimes[c0 + 1] ∧ c0 + 1 < a.rotFrames - 1
    · rw [scanRot_step f _ (List.getElem?_eq_getElem hlt) hc]
      obtain ⟨cur, h1, h2, h3⟩ := @ih (c0 + 1) (by omega) (by omega)
      exact ⟨cur, h1, by omega, h3⟩
    · exact ⟨c0, scanRot_stop _ _ (List.getElem?_eq_getElem hlt) hc, Nat.le_refl _, hc0⟩

theorem scanRot_inv {timer : ℚ} {a : JointAnim V Q} (fuel : Nat) {c0 cur : Nat}
    (h : scanRot timer a fuel c0 = some cur) :
    c0 ≤ cur ∧ (cur = c0 ∨ ∃ tc, a.rotTimes[cur]? = some tc ∧ tc < timer) := by
  induction fuel generalizing c0 with
  | zero =>
    cases ht : a.rotTimes[c0 + 1]? with
    | none => simp [scanRot, ht] at h
    | some tn =>
      simp only [scanRot, ht] at h
      split at h
      · cases h
      · cases h
        exact ⟨Nat.le_refl _, Or.inl rfl⟩
  | succ f ih =>
    cases ht : a.rotTimes[c0 + 1]? with
    | none => simp [scanRot, ht] at h
    | some tn =>
      simp only [scanRot, ht] at h
      split at h
      · rename_i hc
        obtain ⟨h1, h2⟩ := ih h
        refine ⟨by omega, ?_⟩
        rcases h2 with h2 | h2
        · right
          subst h2
          exact ⟨tn, ht, hc.1⟩
        · exact Or.inr h2
      · cases h
        exact ⟨Nat.le_refl _, Or.inl rfl⟩

theorem pairwise_getElem?_lt {l : List ℚ} (h : l.Pairwise (· < ·)) {i j : Nat} {ti tj : ℚ}
    (hij : i < j) (hi : l[i]? = some ti) (hj : l[j]? = some tj) : ti < tj := by
  rw [List.getElem?_eq_some] at hi hj
  obtain ⟨hi1, hi2⟩ := hi
  obtain ⟨hj1, hj2⟩ := hj
  rw [← hi2, ← hj2]
  exact List.pairwise_iff_getElem.mp h i j hi1 hj1 hij

theorem scanRot_lands {a : JointAnim V Q} {k : Nat} {tk : ℚ}
    (hlen : a.rotTimes.length = a.rotFrames) (hmono : a.rotTimes.Pairwise (· < ·))
    (hk : k < a.rotFrames - 1) (htk : a.rotTimes[k]? = some tk) (fuel : Nat) {c0 : Nat}
    (hc0 : c0 < k) (hfuel : k - 1 - c0 ≤ fuel) :
    scanRot tk a fuel c0 = some (k - 1) := by
  induction fuel generalizing c0 with
  | zero =>
    have hck : c0 + 1 = k := by omega
    have : a.rotTimes[c0 + 1]? = some tk := by rw [hck]; exact htk
    rw [scanRot_stop 0 tk this (by intro h; exact lt_irrefl _ h.1)]
    congr 1
    omega
  | succ f ih =>
    by_cases hck : c0 + 1 = k
    · have : a.rotTimes[c0 + 1]? = some tk := by rw [hck]; exact htk
      rw [scanRot_stop _ tk this (by intro h; exact lt_irrefl _ h.1)]
      congr 1
      omega
    · have hlt : c0 + 1 < a.rotTimes.length := by omega
      have ht : a.rotTimes[c0 + 1]? = some a.rotTimes[c0 + 1] := List.getElem?_eq_getElem hlt
      have hless : a.rotTimes[c0 + 1] < tk :=
        pairwise_getElem?_lt hmono (show c0 + 1 < k by omega) ht htk
      rw [scanRot_step f _ ht ⟨hless, by omega⟩]
      exact ih (by omega) (by omega)

/-! ## The track loop through its recorded writes -/

theorem trackPos_eq (a : JointAnim V Q) (pose : JointPose V Q) :
    trackPos a pose = (posW a).map (fun w => { pose with pos := w.getD pose.pos }) := by
  unfold trackPos posW
  split
  · cases a.posKeys[0]? <;> rfl
  · rfl

theorem trackRot_eq (mix : Q → Q → ℚ → Q) (timer : ℚ) (a : JointAnim V Q) (i : Nat)
    (rf : List Nat) (pose : JointPose V Q) :
    trackRot mix timer a i rf pose =
      (rotW mix timer a i rf).map
        (fun w => (w.1, { pose with rotation := w.2.getD pose.rotation })) := by
  unfold trackRot rotW
  split
  · cases a.rotKeys[0]? <;> rfl
  · split
    · cases rf[i]? with
      | none => rfl
      | some cur0 =>
        simp only
        cases scanRot timer a a.rotFrames cur0 with
        | none => rfl
        | some cur =>
          simp only
          cases rotBlend mix timer a cur <;> rfl
    · rfl

theorem trackPos_defined (a : JointAnim V Q) (pose : JointPose V Q)
    (hp : a.posFrames ≤ a.posKeys.length) :
    ∃ pose1, trackPos a pose = some pose1 ∧ pose1.rotation = pose.rotation := by
  unfold trackPos
  split
  · rename_i h
    have h0 : 0 < a.posKeys.length := by omega
    rw [List.getElem?_eq_getElem h0]
    exact ⟨_, rfl, rfl⟩
  · exact ⟨pose, rfl, rfl⟩

theorem getD_orElse {α : Type} (x y : Option α) (d : α) :
    (x <|> y).getD d = x.getD (y.getD d) := by
  cases x <;> simp

theorem orElse_isSome {α : Type} (x y : Option α) :
    (x <|> y).isSome = true ↔ x.isSome = true ∨ y.isSome = true := by
  cases x <;> simp

theorem overlay_length (wp : Nat → Option V) (wr : Nat → Option Q) (b : List (JointPose V Q)) :
    (overlay wp wr b).length = b.length := by
  simp [overlay]

theorem overlay_getElem? (wp : Nat → Option V) (wr : Nat → Option Q) (b : List (JointPose V Q))
    (j : Nat) :
    (overlay wp wr b)[j]? =
      (b[j]?).map (fun p => ⟨(wp j).getD p.pos, (wr j).getD p.rotation⟩) := by
  simp [overlay]

theorem overlay_none (b : List (JointPose V Q)) :
    overlay (fun _ => none) (fun _ => none) b = b := by
  apply List.ext_getElem?
  intro j
  rw [overlay_getElem?]
  cases b[j]? <;> rfl

theorem overlay_overlay (wp wp2 : Nat → Option V) (wr wr2 : Nat → Option Q)
    (b : List (JointPose V Q)) :
    overlay wp2 wr2 (overlay wp wr b) =
      overlay (fun j => wp2 j <|> wp j) (fun j => wr2 j <|> wr j) b := by
  apply List.ext_getElem?
  intro j
  simp only [overlay_getElem?]
  cases b[j]? with
  | none => rfl
  | some p => simp [getD_orElse]

theorem overlay_absorb (wp wp2 : Nat → Option V) (wr wr2 : Nat → Option Q)
    (b : List (JointPose V Q))
    (hp : ∀ j, (wp j).isSome = true → (wp2 j).isSome = true)
    (hr : ∀ j, (wr j).isSome = true → (wr2 j).isSome = true) :
    overlay wp2 wr2 (overlay wp wr b) = overlay wp2 wr2 b := by
  apply List.ext_getElem?
  intro j
  simp only [overlay_getElem?]
  cases b[j]? with
  | none => rfl
  | some p =>
    simp only [Option.map_some', Option.some.injEq, JointPose.mk.injEq]
    constructor
    · cases h : wp j with
      | none => rfl
      | some v =>
        have := hp j (by simp [h])
        cases h2 : wp2 j with
        | none => simp [h2] at this
        | some v2 => rfl
    · cases h : wr j with
      | none => rfl
      | some v =>
        have := hr j (by simp [h])
        cases h2 : wr2 j with
        | none => simp [h2] at this
        | some v2 => rfl

theorem trackStep_overlay (mix : Q → Q → ℚ → Q) (anim : SkeletalAnim V Q) (timer : ℚ)
    (rf pf : List Nat) (wp : Nat → Option V) (wr : Nat → Option Q) (b : List (JointPose V Q))
    (i : Nat) :
    trackStep mix ⟨anim, timer, rf, pf, overlay wp wr b⟩ i =
      (stepW mix anim timer b.length (rf, wp, wr) i).map
        (fun s => ⟨anim, timer, s.1, pf, overlay s.2.1 s.2.2 b⟩) := by
  unfold trackStep stepW
  simp only
  cases anim.data[i]? with
  | none => rfl
  | some a =>
    simp only
    by_cases hj : a.jointInd < b.length
    · rw [if_pos hj, overlay_getElem?, List.getElem?_eq_getElem hj]
      simp only [Option.map_some', trackPos_eq]
      cases posW a with
      | none => rfl
      | some pw =>
        simp only [Option.map_some', trackRot_eq]
        cases rotW mix timer a i rf with
        | none => rfl
        | some w =>
          obtain ⟨rf2, rw⟩ := w
          simp only [Option.map_some', SkeletalAnimClip.mk.injEq, Option.some.injEq, true_and]
          apply List.ext_getElem?
          intro j
          rw [List.getElem?_set, overlay_getElem?, overlay_getElem?, overlay_length]
          by_cases hjj : a.jointInd = j
          · subst hjj
            simp [hj, getD_orElse]
          · have : ¬ j = a.jointInd := fun h => hjj h.symm
            simp [hjj, this]
    · rw [if_neg hj, overlay_getElem?, List.getElem?_eq_none (by omega)]
      rfl

theorem loopW_succ (mix : Q → Q → ℚ → Q) (anim : SkeletalAnim V Q) (timer : ℚ) (L n : Nat)
    (rf : List Nat) :
    loopW mix anim timer L (n + 1) rf =
      (loopW mix anim timer L n rf).bind (fun s => stepW mix anim timer L s n) := by
  unfold loopW
  exact foldlM_range_succ _ _ _

theorem tracksLoop_eq (mix : Q → Q → ℚ → Q) (anim : SkeletalAnim V Q) (timer : ℚ)
    (rf pf : List Nat) (b : List (JointPose V Q)) (n : Nat) :
    tracksLoop mix n ⟨anim, timer, rf, pf, b⟩ =
      (loopW mix anim timer b.length n rf).map
        (fun s => ⟨anim, timer, s.1, pf, overlay s.2.1 s.2.2 b⟩) := by
  induction n with
  | zero => simp [tracksLoop, loopW, overlay_none]
  | succ n ih =>
    unfold tracksLoop loopW at *
    rw [foldlM_range_succ, foldlM_range_succ, ih]
    cases (List.range n).foldlM (stepW mix anim timer b.length)
        (rf, fun _ => none, fun _ => none) with
    | none => rfl
    | some s =>
      obtain ⟨rf1, wp, wr⟩ := s
      simp only [Option.map_some', Option.some_bind]
      exact trackStep_overlay mix anim timer rf1 pf wp wr b n

theorem tracksLoop_one (mix : Q → Q → ℚ → Q) (c : SkeletalAnimClip V Q) :
    tracksLoop mix 1 c = trackStep mix c 0 := by
  unfold tracksLoop
  rw [foldlM_range_succ]
  simp

theorem posW_isSome {a : JointAnim V Q} {pw : Option V} (h : posW a = some pw) :
    pw.isSome = true ↔ 0 < a.posFrames := by
  unfold posW at h
  split at h
  · cases hk : a.posKeys[0]? with
    | none => simp [hk] at h
    | some k =>
      simp [hk] at h
      subst h
      simpa using ‹a.posFrames > 0›
  · simp at h
    subst h
    simp
    omega

theorem rotW_spec {mix : Q → Q → ℚ → Q} {timer : ℚ} {a : JointAnim V Q} {i : Nat}
    {rf rf2 : List Nat} {rw : Option Q} (h : rotW mix timer a i rf = some (rf2, rw)) :
    (rw.isSome = true ↔ 0 < a.rotFrames) ∧ rf2.length = rf.length ∧
      (∀ k, k ≠ i → rf2[k]? = rf[k]?) := by
  unfold rotW at h
  split at h
  · cases hk : a.rotKeys[0]? with
    | none => simp [hk] at h
    | some k =>
      simp [hk] at h
      obtain ⟨h1, h2⟩ := h
      subst h1 h2
      simp
      omega
  · split at h
    · cases hc : rf[i]? with
      | none => simp [hc] at h
      | some cur0 =>
        simp only [hc] at h
        cases hs : scanRot timer a a.rotFrames cur0 with
        | none => simp [hs] at h
        | some cur =>
          simp only [hs] at h
          cases hb : rotBlend mix timer a cur with
          | none => simp [hb] at h
          | some r =>
            simp [hb] at h
            obtain ⟨h1, h2⟩ := h
            subst h1 h2
            refine ⟨by simp; omega, by simp, ?_⟩
            intro k hk
            rw [List.getElem?_set]
            simp [Ne.symm hk]
    · simp at h
      obtain ⟨h1, h2⟩ := h
      subst h1 h2
      simp
      omega

theorem rotW_value {mix : Q → Q → ℚ → Q} {timer : ℚ} {a : JointAnim V Q} {i : Nat}
    {rf rf2 : List Nat} {rw : Option Q} (h : rotW mix timer a i rf = some (rf2, rw)) :
    rw = rotValue mix timer a rf[i]? ∧ rf2[i]? = curValue timer a rf[i]? := by
  unfold rotW at h
  unfold rotValue curValue
  split at h
  · rename_i h1
    cases hk : a.rotKeys[0]? with
    | none => simp [hk] at h
    | some k =>
      simp [hk] at h
      obtain ⟨e1, e2⟩ := h
      subst e1 e2
      simp [h1]
  · rename_i h1
    split at h
    · rename_i h2
      cases hc : rf[i]? with
      | none => simp [hc] at h
      | some cur0 =>
        simp only [hc] at h
        cases hs : scanRot timer a a.rotFrames cur0 with
        | none => simp [hs] at h
        | some cur =>
          simp only [hs] at h
          cases hb : rotBlend mix timer a cur with
          | none => simp [hb] at h
          | some r =>
            simp [hb] at h
            obtain ⟨e1, e2⟩ := h
            subst e1 e2
            have hi : i < rf.length := by
              by_contra hcon
              rw [List.getElem?_eq_none (by omega)] at hc
              cases hc
            simp [h1, h2, hs, hb, hi]
    · rename_i h2
      simp at h
      obtain ⟨e1, e2⟩ := h
      subst e1 e2
      simp [h1, h2]

theorem stepW_spec {mix : Q → Q → ℚ → Q} {anim : SkeletalAnim V Q} {timer : ℚ} {L i : Nat}
    {s s2 : List Nat × (Nat → Option V) × (Nat → Option Q)}
    (h : stepW mix anim timer L s i = some s2) :
    ∃ a pw rw, anim.data[i]? = some a ∧ a.jointInd < L ∧ posW a = some pw ∧
      rotW mix timer a i s.1 = some (s2.1, rw) ∧
      s2.2.1 = (fun j => if j = a.jointInd then pw <|> s.2.1 j else s.2.1 j) ∧
      s2.2.2 = (fun j => if j = a.jointInd then rw <|> s.2.2 j else s.2.2 j) := by
  unfold stepW at h
  cases ha : anim.data[i]? with
  | none => simp [ha] at h
  | some a =>
    simp only [ha] at h
    split at h
    · cases hp : posW a with
      | none => simp [hp] at h
      | some pw =>
        simp only [hp] at h
        cases hr : rotW mix timer a i s.1 with
        | none => simp [hr] at h
        | some w =>
          obtain ⟨rf2, rw⟩ := w
          simp only [hr, Option.some.injEq] at h
          subst h
          exact ⟨a, pw, rw, rfl, ‹_›, hp, hr, rfl, rfl⟩
    · simp at h

theorem loopW_spec {mix : Q → Q → ℚ → Q} {anim : SkeletalAnim V Q} {timer : ℚ} {L : Nat}
    {rf : List Nat} (n : Nat) {s : List Nat × (Nat → Option V) × (Nat → Option Q)}
    (h : loopW mix anim timer L n rf = some s) :
    s.1.length = rf.length ∧ (∀ k, n ≤ k → s.1[k]? = rf[k]?) ∧
      (∀ j, (s.2.1 j).isSome = true ↔ posTargets anim n j) ∧
      (∀ j, (s.2.2 j).isSome = true ↔ rotTargets anim n j) := by
  induction n generalizing s with
  | zero =>
    simp [loopW] at h
    subst h
    simp [posTargets, rotTargets]
  | succ n ih =>
    rw [loopW_succ] at h
    cases h1 : loopW mix anim timer L n rf with
    | none => simp [h1] at h
    | some s1 =>
      simp only [h1, Option.some_bind] at h
      obtain ⟨hlen, hk, hp, hr⟩ := ih h1
      obtain ⟨a, pw, rw, ha, -, hpw, hrw, hwp, hwr⟩ := stepW_spec h
      obtain ⟨hrs, hrl, hrk⟩ := rotW_spec hrw
      have hps := posW_isSome hpw
      refine ⟨by omega, ?_, ?_, ?_⟩
      · intro k hkn
        rw [hrk k (by omega), hk k (by omega)]
      · intro j
        rw [hwp]
        simp only
        constructor
        · intro hj
          split at hj
          · rw [orElse_isSome] at hj
            rcases hj with hj | hj
            · exact ⟨n, a, by omega, ha, by simp [*], hps.1 hj⟩
            · obtain ⟨i, a', hi, ha', hja, hf⟩ := (hp j).1 hj
              exact ⟨i, a', by omega, ha', hja, hf⟩
          · obtain ⟨i, a', hi, ha', hja, hf⟩ := (hp j).1 hj
            exact ⟨i, a', by omega, ha', hja, hf⟩
        · rintro ⟨i, a', hi, ha', hja, hf⟩
          by_cases hin : i = n
          · subst hin
            rw [ha] at ha'
            cases ha'
            rw [if_pos hja.symm, orElse_isSome]
            exact Or.inl (hps.2 hf)
          · have : (s1.2.1 j).isSome = true := (hp j).2 ⟨i, a', by omega, ha', hja, hf⟩
            split
            · rw [orElse_isSome]; exact Or.inr this
            · exact this
      · intro j
        rw [hwr]
        simp only
        constructor
        · intro hj
          split at hj
          · rw [orElse_isSome] at hj
            rcases hj with hj | hj
            · exact ⟨n, a, by omega, ha, by simp [*], hrs.1 hj⟩
            · obtain ⟨i, a', hi, ha', hja, hf⟩ := (hr j).1 hj
              exact ⟨i, a', by omega, ha', hja, hf⟩
          · obtain ⟨i, a', hi, ha', hja, hf⟩ := (hr j).1 hj
            exact ⟨i, a', by omega, ha', hja, hf⟩
        · rintro ⟨i, a', hi, ha', hja, hf⟩
          by_cases hin : i = n
          · subst hin
            rw [ha] at ha'
            cases ha'
            rw [if_pos hja.symm, orElse_isSome]
            exact Or.inl (hrs.2 hf)
          · have : (s1.2.2 j).isSome = true := (hr j).2 ⟨i, a', by omega, ha', hja, hf⟩
            split
            · rw [orElse_isSome]; exact Or.inr this
            · exact this

theorem loopW_lastRot {mix : Q → Q → ℚ → Q} {anim : SkeletalAnim V Q} {timer : ℚ} {L : Nat}
    {rf : List Nat} (n : Nat) {s : List Nat × (Nat → Option V) × (Nat → Option Q)}
    (h : loopW mix anim timer L n rf = some s) {i : Nat} {a : JointAnim V Q} (hi : i < n)
    (ha : anim.data[i]? = some a) (hrot : 0 < a.rotFrames)
    (hlast : ∀ i' b, i < i' → i' < n → anim.data[i']? = some b → b.jointInd = a.jointInd →
      b.rotFrames = 0) :
    s.2.2 a.jointInd = rotValue mix timer a rf[i]? ∧ (s.2.2 a.jointInd).isSome = true := by
  induction n generalizing s with
  | zero => omega
  | succ n ih =>
    rw [loopW_succ] at h
    cases h1 : loopW mix anim timer L n rf with
    | none => simp [h1] at h
    | some s1 =>
      simp only [h1, Option.some_bind] at h
      obtain ⟨b, pw, rw, hb, -, -, hrw, -, hwr⟩ := stepW_spec h
      obtain ⟨hrs, -, -⟩ := rotW_spec hrw
      obtain ⟨hv, -⟩ := rotW_value hrw
      rw [hwr]
      simp only
      by_cases hin : i = n
      · subst hin
        rw [ha] at hb
        cases hb
        have hsome : rw.isSome = true := hrs.2 hrot
        rw [if_pos rfl]
        obtain ⟨-, hk, -, -⟩ := loopW_spec _ h1
        rw [hk i (Nat.le_refl _)] at hv
        cases hrw' : rw with
        | none => simp [hrw'] at hsome
        | some r =>
          rw [← hv, hrw']
          simp
      · have ih' := ih h1 (by omega) (fun i' b' h1' h2' => hlast i' b' h1' (by omega))
        by_cases hj : a.jointInd = b.jointInd
        · have hb0 : b.rotFrames = 0 := hlast n b (by omega) (by omega) hb hj.symm
          have hnone : rw = none := by
            cases hrw' : rw with
            | none => rfl
            | some r =>
              have := hrs.1 (by simp [hrw'])
              omega
          rw [if_pos hj, hnone]
          simpa using ih'
        · rw [if_neg hj]
          exact ih'

theorem loopW_cursor {mix : Q → Q → ℚ → Q} {anim : SkeletalAnim V Q} {timer : ℚ} {L : Nat}
    {rf : List Nat} (n : Nat) {s : List Nat × (Nat → Option V) × (Nat → Option Q)}
    (h : loopW mix anim timer L n rf = some s) {i : Nat} {a : JointAnim V Q} (hi : i < n)
    (ha : anim.data[i]? = some a) :
    s.1[i]? = curValue timer a rf[i]? := by
  induction n generalizing s with
  | zero => omega
  | succ n ih =>
    rw [loopW_succ] at h
    cases h1 : loopW mix anim timer L n rf with
    | none => simp [h1] at h
    | some s1 =>
      simp only [h1, Option.some_bind] at h
      obtain ⟨b, pw, rw, hb, -, -, hrw, -, -⟩ := stepW_spec h
      obtain ⟨-, -, hrk⟩ := rotW_spec hrw
      obtain ⟨-, hc⟩ := rotW_value hrw
      by_cases hin : i = n
      · subst hin
        rw [ha] at hb
        cases hb
        obtain ⟨-, hk, -, -⟩ := loopW_spec _ h1
        rw [hc, hk i (Nat.le_refl _)]
      · rw [hrk i hin]
        exact ih h1 (by omega)

theorem loopW_joint_lt {mix : Q → Q → ℚ → Q} {anim : SkeletalAnim V Q} {timer : ℚ} {L : Nat}
    {rf : List Nat} (n : Nat) {s : List Nat × (Nat → Option V) × (Nat → Option Q)}
    (h : loopW mix anim timer L n rf = some s) {i : Nat} {a : JointAnim V Q} (hi : i < n)
    (ha : anim.data[i]? = some a) : a.jointInd < L := by
  induction n generalizing s with
  | zero => omega
  | succ n ih =>
    rw [loopW_succ] at h
    cases h1 : loopW mix anim timer L n rf with
    | none => simp [h1] at h
    | some s1 =>
      simp only [h1, Option.some_bind] at h
      obtain ⟨b, pw, rw, hb, hL, -, -, -, -⟩ := stepW_spec h
      by_cases hin : i = n
      · subst hin
        rw [ha] at hb
        cases hb
        exact hL
      · exact ih h1 (by omega)

/-! ## `Update` as a whole -/

theorem fmod_nonneg_lt {x d : ℚ} (hd : 0 < d) (hx : 0 ≤ x) :
    0 ≤ fmod x d ∧ fmod x d < d ∧ ∃ k : ℕ, x = k * d + fmod x d := by
  have hq : 0 ≤ x / d := div_nonneg hx hd.le
  have h1 : (⌊x / d⌋ : ℚ) ≤ x / d := Int.floor_le _
  have h2 : x / d < ⌊x / d⌋ + 1 := Int.lt_floor_add_one _
  have h3 : 0 ≤ ⌊x / d⌋ := Int.floor_nonneg.mpr hq
  rw [div_lt_iff₀ hd] at h2
  rw [le_div_iff₀ hd] at h1
  unfold fmod
  rw [if_pos hq]
  refine ⟨by linarith, by linarith, ⟨⌊x / d⌋.toNat, ?_⟩⟩
  have : ((⌊x / d⌋.toNat : ℕ) : ℚ) = (⌊x / d⌋ : ℚ) := by
    exact_mod_cast congrArg (Int.cast : ℤ → ℚ) (Int.toNat_of_nonneg h3)
  rw [this]
  ring

theorem advanceTimer_noWrap {c : SkeletalAnimClip V Q} {dt : ℚ}
    (h : c.m_timer + dt ≤ c.m_anim.duration) :
    advanceTimer c dt = { c with m_timer := c.m_timer + dt } := by
  unfold advanceTimer
  simp only [gt_iff_lt, if_neg (not_lt.mpr h)]

theorem advanceTimer_wrap {c : SkeletalAnimClip V Q} {dt : ℚ}
    (h : c.m_timer + dt > c.m_anim.duration) :
    advanceTimer c dt =
      { c with m_timer := fmod (c.m_timer + dt) c.m_anim.duration
               m_rotFrame := List.replicate c.m_rotFrame.length 0 } := by
  unfold advanceTimer
  simp only [if_pos h]

theorem advanceTimer_anim (c : SkeletalAnimClip V Q) (dt : ℚ) :
    (advanceTimer c dt).m_anim = c.m_anim := by
  unfold advanceTimer
  simp only
  split <;> rfl

theorem advanceTimer_result (c : SkeletalAnimClip V Q) (dt : ℚ) :
    (advanceTimer c dt).m_result = c.m_result := by
  unfold advanceTimer
  simp only
  split <;> rfl

theorem advanceTimer_rotFrame_length (c : SkeletalAnimClip V Q) (dt : ℚ) :
    (advanceTimer c dt).m_rotFrame.length = c.m_rotFrame.length := by
  unfold advanceTimer
  simp only
  split <;> simp

theorem Update_eq (mix : Q → Q → ℚ → Q) (c : SkeletalAnimClip V Q) (dt : ℚ) :
    Update mix c dt =
      (loopW mix c.m_anim (advanceTimer c dt).m_timer c.m_result.length c.m_anim.data.length
          (advanceTimer c dt).m_rotFrame).map
        (fun s => ⟨c.m_anim, (advanceTimer c dt).m_timer, s.1, c.m_posFrame,
          overlay s.2.1 s.2.2 c.m_result⟩) := by
  unfold Update
  have h : advanceTimer c dt = ⟨c.m_anim, (advanceTimer c dt).m_timer,
      (advanceTimer c dt).m_rotFrame, c.m_posFrame, c.m_result⟩ := by
    unfold advanceTimer
    simp only
    split <;> rfl
  rw [h, tracksLoop_eq]

theorem Update_some {mix : Q → Q → ℚ → Q} {c c' : SkeletalAnimClip V Q} {dt : ℚ}
    (h : Update mix c dt = some c') :
    ∃ s, loopW mix c.m_anim (advanceTimer c dt).m_timer c.m_result.length c.m_anim.data.length
        (advanceTimer c dt).m_rotFrame = some s ∧
      c' = ⟨c.m_anim, (advanceTimer c dt).m_timer, s.1, c.m_posFrame,
        overlay s.2.1 s.2.2 c.m_result⟩ := by
  rw [Update_eq] at h
  cases hl : loopW mix c.m_anim (advanceTimer c dt).m_timer c.m_result.length
      c.m_anim.data.length (advanceTimer c dt).m_rotFrame with
  | none => simp [hl] at h
  | some s =>
    simp only [hl, Option.map_some', Option.some.injEq] at h
    exact ⟨s, rfl, h.symm⟩

theorem Update_frame {mix : Q → Q → ℚ → Q} {c c' : SkeletalAnimClip V Q} {dt : ℚ}
    (h : Update mix c dt = some c') :
    c'.m_anim = c.m_anim ∧ c'.m_timer = (advanceTimer c dt).m_timer ∧
      c'.m_posFrame = c.m_posFrame ∧ c'.m_result.length = c.m_result.length ∧
      c'.m_rotFrame.length = c.m_rotFrame.length := by
  rw [Update_eq] at h
  cases hl : loopW mix c.m_anim (advanceTimer c dt).m_timer c.m_result.length
      c.m_anim.data.length (advanceTimer c dt).m_rotFrame with
  | none => simp [hl] at h
  | some s =>
    simp only [hl, Option.map_some', Option.some.injEq] at h
    obtain ⟨hlen, -, -, -⟩ := loopW_spec _ hl
    subst h
    exact ⟨rfl, rfl, rfl, overlay_length _ _ _, by
      simp only
      rw [hlen, advanceTimer_rotFrame_length]⟩

/-- After a defined `Update`, the rotation of the joint of track `i` is the
value that track wrote, if no later track writes a rotation to the same joint;
its cursor is the one its scan left. -/
theorem Update_lastRot {mix : Q → Q → ℚ → Q} {c c' : SkeletalAnimClip V Q} {dt : ℚ}
    (h : Update mix c dt = some c') {i : Nat} {a : JointAnim V Q}
    (ha : c.m_anim.data[i]? = some a) (hrot : 0 < a.rotFrames)
    (hlast : ∀ i' b, i < i' → c.m_anim.data[i']? = some b → b.jointInd = a.jointInd →
      b.rotFrames = 0) :
    (c'.m_result[a.jointInd]?).map (fun p => p.rotation) =
        rotValue mix (advanceTimer c dt).m_timer a (advanceTimer c dt).m_rotFrame[i]? ∧
      ((c'.m_result[a.jointInd]?).map (fun p => p.rotation)).isSome = true ∧
      c'.m_rotFrame[i]? = curValue (advanceTimer c dt).m_timer a
        (advanceTimer c dt).m_rotFrame[i]? := by
  obtain ⟨s, hl, hc'⟩ := Update_some h
  have hi : i < c.m_anim.data.length := by
    by_contra hcon
    rw [List.getElem?_eq_none (by omega)] at ha
    cases ha
  obtain ⟨hv, hsome⟩ := loopW_lastRot _ hl hi ha hrot (fun i' b h1 _ => hlast i' b h1)
  have hcur := loopW_cursor _ hl hi ha
  have hj := loopW_joint_lt _ hl hi ha
  subst hc'
  simp only [overlay_getElem?, List.getElem?_eq_getElem hj, Option.map_some']
  rw [← hv]
  cases hr : s.2.2 a.jointInd with
  | none => simp [hr] at hsome
  | some r => simp [hcur]

theorem Update_cursor {mix : Q → Q → ℚ → Q} {c c' : SkeletalAnimClip V Q} {dt : ℚ}
    (h : Update mix c dt = some c') {i : Nat} {a : JointAnim V Q}
    (ha : c.m_anim.data[i]? = some a) :
    c'.m_rotFrame[i]? = curValue (advanceTimer c dt).m_timer a
      (advanceTimer c dt).m_rotFrame[i]? := by
  obtain ⟨s, hl, hc'⟩ := Update_some h
  have hi : i < c.m_anim.data.length := by
    by_contra hcon
    rw [List.getElem?_eq_none (by omega)] at ha
    cases ha
  subst hc'
  exact loopW_cursor _ hl hi ha

theorem trackStep_rotMany (mix : Q → Q → ℚ → Q) (c : SkeletalAnimClip V Q) (i : Nat)
    (a : JointAnim V Q) (pose pose1 : JointPose V Q) (cur0 cur : Nat) (r : Q)
    (ha : c.m_anim.data[i]? = some a) (hp : c.m_result[a.jointInd]? = some pose)
    (hpos : trackPos a pose = some pose1) (hn : 1 < a.rotFrames)
    (hc : c.m_rotFrame[i]? = some cur0)
    (hs : scanRot c.m_timer a a.rotFrames cur0 = some cur)
    (hb : rotBlend mix c.m_timer a cur = some r) :
    trackStep mix c i =
      some { c with m_rotFrame := c.m_rotFrame.set i cur
                    m_result := c.m_result.set a.jointInd { pose1 with rotation := r } } := by
  unfold trackStep
  simp only [ha, hp, hpos]
  unfold trackRot
  simp only [if_neg (show ¬ a.rotFrames = 1 by omega), gt_iff_lt, if_pos hn, hc, hs, hb]

theorem Update_single_rotMany (mix : Q → Q → ℚ → Q) (c : SkeletalAnimClip V Q) (dt : ℚ)
    (a : JointAnim V Q) (pose pose1 : JointPose V Q) (cur0 cur : Nat) (r : Q)
    (hdata : c.m_anim.data = [a]) (hp : c.m_result[a.jointInd]? = some pose)
    (hpos : trackPos a pose = some pose1) (hn : 1 < a.rotFrames)
    (hc : (advanceTimer c dt).m_rotFrame[0]? = some cur0)
    (hs : scanRot (advanceTimer c dt).m_timer a a.rotFrames cur0 = some cur)
    (hb : rotBlend mix (advanceTimer c dt).m_timer a cur = some r) :
    Update mix c dt =
      some { advanceTimer c dt with
             m_rotFrame := (advanceTimer c dt).m_rotFrame.set 0 cur
             m_result := (advanceTimer c dt).m_result.set a.jointInd
               { pose1 with rotation := r } } := by
  unfold Update
  rw [hdata]
  show tracksLoop mix 1 _ = _
  rw [tracksLoop_one]
  exact trackStep_rotMany mix (advanceTimer c dt) 0 a pose pose1 cur0 cur r
    (by rw [advanceTimer_anim, hdata]; rfl) (by rw [advanceTimer_result]; exact hp)
    hpos hn hc hs hb

/-! ## Runs of `Update` and their invariants -/

theorem updates_cons (mix : Q → Q → ℚ → Q) (c : SkeletalAnimClip V Q) (dt : ℚ) (dts : List ℚ) :
    updates mix c (dt :: dts) = (Update mix c dt).bind (fun c1 => updates mix c1 dts) := by
  simp [updates, List.foldlM]

theorem updates_append_one (mix : Q → Q → ℚ → Q) (c : SkeletalAnimClip V Q) (dts : List ℚ)
    (dt : ℚ) :
    updates mix c (dts ++ [dt]) = (updates mix c dts).bind (fun c1 => Update mix c1 dt) := by
  simp [updates, List.foldlM_append]

theorem updates_last {mix : Q → Q → ℚ → Q} {c0 c : SkeletalAnimClip V Q} {dts : List ℚ}
    (hne : dts ≠ []) (h : updates mix c0 dts = some c) :
    ∃ dts' dt c1, dts = dts' ++ [dt] ∧ updates mix c0 dts' = some c1 ∧
      Update mix c1 dt = some c := by
  rcases List.eq_nil_or_concat dts with h0 | ⟨dts', dt, h1⟩
  · exact absurd h0 hne
  · rw [List.concat_eq_append] at h1
    subst h1
    rw [updates_append_one] at h
    cases h2 : updates mix c0 dts' with
    | none => simp [h2] at h
    | some c1 =>
      simp only [h2, Option.some_bind] at h
      exact ⟨dts', dt, c1, rfl, h2, h⟩

theorem updates_induction {mix : Q → Q → ℚ → Q} (P : SkeletalAnimClip V Q → Prop)
    (D : ℚ → Prop)
    (hstep : ∀ c dt c', P c → D dt → Update mix c dt = some c' → P c')
    (dts : List ℚ) {c c' : SkeletalAnimClip V Q} (hc : P c) (hD : ∀ dt ∈ dts, D dt)
    (h : updates mix c dts = some c') : P c' := by
  induction dts generalizing c with
  | nil =>
    simp [updates] at h
    subst h
    exact hc
  | cons dt dts ih =>
    rw [updates_cons] at h
    cases h1 : Update mix c dt with
    | none => simp [h1] at h
    | some c1 =>
      simp only [h1, Option.some_bind] at h
      exact ih (hstep c dt c1 hc (hD dt (List.mem_cons_self _ _)) h1)
        (fun d hd => hD d (List.mem_cons_of_mem _ hd)) h

theorem Inv_create (anim : SkeletalAnim V Q) (skeleton : Skeleton V Q) :
    Inv anim skeleton (SkeletalAnimClip.create anim skeleton) := by
  refine ⟨rfl, rfl, by simp [SkeletalAnimClip.create], fun _ => none, fun _ => none, ?_, ?_, ?_⟩
  · rw [overlay_none]; rfl
  · intro j h; simp at h
  · intro j h; simp at h

theorem Inv_Update {mix : Q → Q → ℚ → Q} {anim : SkeletalAnim V Q} {skeleton : Skeleton V Q}
    {c c' : SkeletalAnimClip V Q} {dt : ℚ} (hc : Inv anim skeleton c)
    (h : Update mix c dt = some c') : Inv anim skeleton c' := by
  obtain ⟨ha, hpf, hrf, wp, wr, hres, hwp, hwr⟩ := hc
  rw [Update_eq] at h
  cases hl : loopW mix c.m_anim (advanceTimer c dt).m_timer c.m_result.length
      c.m_anim.data.length (advanceTimer c dt).m_rotFrame with
  | none => simp [hl] at h
  | some s =>
    simp only [hl, Option.map_some', Option.some.injEq] at h
    obtain ⟨hlen, -, hp, hr⟩ := loopW_spec _ hl
    subst h
    refine ⟨ha, hpf, ?_, fun j => s.2.1 j <|> wp j, fun j => s.2.2 j <|> wr j, ?_, ?_, ?_⟩
    · simp only
      rw [hlen, advanceTimer_rotFrame_length, hrf]
    · simp only
      rw [hres, overlay_overlay]
    · intro j hj
      rw [orElse_isSome] at hj
      rcases hj with hj | hj
      · have := (hp j).1 hj
        rwa [ha] at this
      · exact hwp j hj
    · intro j hj
      rw [orElse_isSome] at hj
      rcases hj with hj | hj
      · have := (hr j).1 hj
        rwa [ha] at this
      · exact hwr j hj

theorem Inv_updates {mix : Q → Q → ℚ → Q} {anim : SkeletalAnim V Q} {skeleton : Skeleton V Q}
    (dts : List ℚ) {c c' : SkeletalAnimClip V Q} (hc : Inv anim skeleton c)
    (h : updates mix c dts = some c') : Inv anim skeleton c' := by
  induction dts generalizing c with
  | nil =>
    simp [updates] at h
    subst h
    exact hc
  | cons dt dts ih =>
    rw [updates_cons] at h
    cases h1 : Update mix c dt with
    | none => simp [h1] at h
    | some c1 =>
      simp only [h1, Option.some_bind] at h
      exact ih (Inv_Update hc h1) h

theorem Inv_pos_untargeted {anim : SkeletalAnim V Q} {skeleton : Skeleton V Q}
    {c : SkeletalAnimClip V Q} (hc : Inv anim skeleton c) {j : Nat}
    (hj : ¬ posTargets anim anim.data.length j) :
    (c.m_result[j]?).map (fun p => p.pos) =
      (skeleton.m_joints[j]?).map (fun x => x.m_basePos) := by
  obtain ⟨-, -, -, wp, wr, hres, hwp, -⟩ := hc
  have hnone : wp j = none := by
    cases h : wp j with
    | none => rfl
    | some v => exact absurd (hwp j (by simp [h])) hj
  rw [hres, overlay_getElem?, hnone]
  simp only [basePoses, List.getElem?_map, Option.map_map]
  rfl

theorem Inv_rot_untargeted {anim : SkeletalAnim V Q} {skeleton : Skeleton V Q}
    {c : SkeletalAnimClip V Q} (hc : Inv anim skeleton c) {j : Nat}
    (hj : ¬ rotTargets anim anim.data.length j) :
    (c.m_result[j]?).map (fun p => p.rotation) =
      (skeleton.m_joints[j]?).map (fun x => x.m_baseRotation) := by
  obtain ⟨-, -, -, wp, wr, hres, -, hwr⟩ := hc
  have hnone : wr j = none := by
    cases h : wr j with
    | none => rfl
    | some v => exact absurd (hwr j (by simp [h])) hj
  rw [hres, overlay_getElem?, hnone]
  simp only [basePoses, List.getElem?_map, Option.map_map]
  rfl

theorem timer_step {mix : Q → Q → ℚ → Q} {c c' : SkeletalAnimClip V Q} {dt : ℚ}
    (hd : 0 < c.m_anim.duration) (h0 : 0 ≤ c.m_timer) (hdt : 0 ≤ dt)
    (h : Update mix c dt = some c') :
    0 ≤ c'.m_timer ∧ c'.m_timer ≤ c.m_anim.duration ∧ c'.m_anim = c.m_anim := by
  obtain ⟨ha, ht, -⟩ := Update_frame h
  rw [ht]
  by_cases hw : c.m_timer + dt > c.m_anim.duration
  · rw [advanceTimer_wrap hw]
    obtain ⟨h1, h2, -⟩ := fmod_nonneg_lt hd (show 0 ≤ c.m_timer + dt by linarith)
    exact ⟨h1, le_of_lt h2, ha⟩
  · rw [advanceTimer_noWrap (not_lt.mp hw)]
    exact ⟨by simp only; linarith, not_lt.mp hw, ha⟩

theorem timer_bounds {mix : Q → Q → ℚ → Q} {anim : SkeletalAnim V Q} {skeleton : Skeleton V Q}
    (hd : 0 < anim.duration) (dts : List ℚ) (hdts : ∀ dt ∈ dts, 0 ≤ dt)
    {c : SkeletalAnimClip V Q}
    (h : updates mix (SkeletalAnimClip.create anim skeleton) dts = some c) :
    c.m_anim = anim ∧ 0 ≤ c.m_timer ∧ c.m_timer ≤ anim.duration := by
  refine updates_induction (fun c => c.m_anim = anim ∧ 0 ≤ c.m_timer ∧ c.m_timer ≤ anim.duration)
    (fun dt => 0 ≤ dt) ?_ dts ⟨rfl, le_refl _, le_of_lt hd⟩ hdts h
  rintro c dt c' ⟨ha, h0, -⟩ hdt hU
  obtain ⟨h1, h2, h3⟩ := timer_step (by rw [ha]; exact hd) h0 hdt hU
  rw [ha] at h2 h3
  exact ⟨h3, h1, h2⟩

theorem advanceTimer_CurInv {i : Nat} {a : JointAnim V Q} {c : SkeletalAnimClip V Q} {dt : ℚ}
    (hdt : 0 ≤ dt) (h : CurInv i a c) : CurInv i a (advanceTimer c dt) := by
  obtain ⟨c0, hc0, hor⟩ := h
  by_cases hw : c.m_timer + dt > c.m_anim.duration
  · rw [advanceTimer_wrap hw]
    have hi : i < c.m_rotFrame.length := by
      by_contra hcon
      rw [List.getElem?_eq_none (by omega)] at hc0
      cases hc0
    exact ⟨0, by simp [hi], Or.inl rfl⟩
  · rw [advanceTimer_noWrap (not_lt.mp hw)]
    refine ⟨c0, hc0, ?_⟩
    rcases hor with h0 | ⟨tc, h1, h2⟩
    · exact Or.inl h0
    · exact Or.inr ⟨tc, h1, by simp only; linarith⟩

theorem Update_CurInv {mix : Q → Q → ℚ → Q} {c c' : SkeletalAnimClip V Q} {dt : ℚ}
    (h : Update mix c dt = some c') {i : Nat} {a : JointAnim V Q}
    (ha : c.m_anim.data[i]? = some a) (hdt : 0 ≤ dt) (hc : CurInv i a c) : CurInv i a c' := by
  obtain ⟨c0, hc0, hor⟩ := advanceTimer_CurInv hdt hc
  have hcur := Update_cursor h ha
  obtain ⟨-, ht, -, -, -⟩ := Update_frame h
  rw [hc0] at hcur
  unfold curValue at hcur
  unfold CurInv
  rw [ht]
  split at hcur
  · simp only [Option.some_bind] at hcur
    cases hs : scanRot (advanceTimer c dt).m_timer a a.rotFrames c0 with
    | none =>
      rw [hs] at hcur
      have hlen : i < c'.m_rotFrame.length := by
        rw [(Update_frame h).2.2.2.2, ← advanceTimer_rotFrame_length c dt]
        by_contra hcon
        rw [List.getElem?_eq_none (by omega)] at hc0
        cases hc0
      rw [List.getElem?_eq_getElem hlen] at hcur
      cases hcur
    | some cur =>
      rw [hs] at hcur
      obtain ⟨-, h2⟩ := scanRot_inv _ hs
      refine ⟨cur, hcur, ?_⟩
      rcases h2 with h2 | h2
      · subst h2
        exact hor
      · exact Or.inr h2
  · exact ⟨c0, hcur, hor⟩

/-! ## Evaluation of the worked examples -/

theorem fmod_scn : fmod (21/10) 2 = 1/10 := by
  unfold fmod
  have h : ⌊(21/10 : ℚ) / 2⌋ = 1 := by
    rw [Int.floor_eq_iff]; norm_num
  rw [if_pos (by norm_num), h]; norm_num

theorem fmod_three_two : fmod (0 + 3) 2 = 1 := by
  unfold fmod
  have h : ⌊((0 : ℚ) + 3) / 2⌋ = 1 := by
    rw [Int.floor_eq_iff]; norm_num
  rw [if_pos (by norm_num), h]; norm_num

theorem scn_step (mix : Q → Q → ℚ → Q) (k0 k1 k2 : Q) (t : ℚ) (c0 cur : Nat) (r : Q)
    (p0 : JointPose V Q) (ps : List (JointPose V Q))
    (hs : scanRot t (scenarioTrack k0 k1 k2 : JointAnim V Q) 3 c0 = some cur)
    (hb : rotBlend mix t (scenarioTrack k0 k1 k2 : JointAnim V Q) cur = some r) :
    tracksLoop mix 1 ⟨scenarioAnim k0 k1 k2, t, [c0], [0], p0 :: ps⟩ =
      some ⟨scenarioAnim k0 k1 k2, t, [cur], [0], ⟨p0.pos, r⟩ :: ps⟩ := by
  rw [tracksLoop_one, trackStep_rotMany mix ⟨scenarioAnim k0 k1 k2, t, [c0], [0], p0 :: ps⟩ 0
    (scenarioTrack k0 k1 k2) p0 p0 c0 cur r
    (by simp [scenarioAnim]) (by simp [scenarioTrack]) (by simp [trackPos, scenarioTrack])
    (by simp [scenarioTrack]) (by simp) hs hb]
  rfl

theorem scn1 (mix : Q → Q → ℚ → Q) (k0 k1 k2 : Q) (j0 : Joint V Q) (js : List (Joint V Q)) :
    Update mix (SkeletalAnimClip.create (scenarioAnim k0 k1 k2) ⟨j0 :: js⟩) (1/2) =
      some ⟨scenarioAnim k0 k1 k2, 1/2, [0], [0],
        ⟨j0.m_basePos, mix k0 k1 (1/2)⟩ :: js.map (fun j => ⟨j.m_basePos, j.m_baseRotation⟩)⟩ := by
  have hs : scanRot (1/2) (scenarioTrack k0 k1 k2 : JointAnim V Q) 3 0 = some 0 :=
    scanRot_stop 3 1 rfl (by norm_num)
  have hb : rotBlend mix (1/2) (scenarioTrack k0 k1 k2 : JointAnim V Q) 0
      = some (mix k0 k1 (1/2)) := by
    simp [rotBlend, scenarioTrack]
  have h : (0 : ℚ) + 1/2 = 1/2 := by norm_num
  unfold Update
  rw [advanceTimer_noWrap (by norm_num [SkeletalAnimClip.create, scenarioAnim])]
  show tracksLoop mix 1 ⟨scenarioAnim k0 k1 k2, 0 + 1/2, [0], [0],
    ⟨j0.m_basePos, j0.m_baseRotation⟩ :: js.map (fun j => ⟨j.m_basePos, j.m_baseRotation⟩)⟩ = _
  rw [h]
  exact scn_step mix k0 k1 k2 (1/2) 0 0 _ _ _ hs hb

theorem scn2 (mix : Q → Q → ℚ → Q) (k0 k1 k2 : Q) (p0 : JointPose V Q) (ps : List (JointPose V Q)) :
    Update mix ⟨scenarioAnim k0 k1 k2, 1/2, [0], [0], p0 :: ps⟩ (6/10) =
      some ⟨scenarioAnim k0 k1 k2, 11/10, [1], [0], ⟨p0.pos, mix k1 k2 (1/10)⟩ :: ps⟩ := by
  have hs : scanRot (11/10) (scenarioTrack k0 k1 k2 : JointAnim V Q) 3 0 = some 1 := by
    rw [show (3 : Nat) = 2 + 1 from rfl, scanRot_step 2 1 rfl (by norm_num [scenarioTrack])]
    exact scanRot_stop 2 2 rfl (by norm_num)
  have hb : rotBlend mix (11/10) (scenarioTrack k0 k1 k2 : JointAnim V Q) 1
      = some (mix k1 k2 (1/10)) := by
    simp [rotBlend, scenarioTrack]; norm_num
  have h : (1/2 : ℚ) + 6/10 = 11/10 := by norm_num
  unfold Update
  rw [advanceTimer_noWrap (by norm_num [scenarioAnim])]
  show tracksLoop mix 1 ⟨scenarioAnim k0 k1 k2, 1/2 + 6/10, [0], [0], p0 :: ps⟩ = _
  rw [h]
  exact scn_step mix k0 k1 k2 (11/10) 0 1 _ p0 ps hs hb

theorem scn3 (mix : Q → Q → ℚ → Q) (k0 k1 k2 : Q) (p0 : JointPose V Q) (ps : List (JointPose V Q)) :
    Update mix ⟨scenarioAnim k0 k1 k2, 11/10, [1], [0], p0 :: ps⟩ 1 =
      some ⟨scenarioAnim k0 k1 k2, 1/10, [0], [0], ⟨p0.pos, mix k0 k1 (1/10)⟩ :: ps⟩ := by
  have hs : scanRot (1/10) (scenarioTrack k0 k1 k2 : JointAnim V Q) 3 0 = some 0 :=
    scanRot_stop 3 1 rfl (by norm_num)
  have hb : rotBlend mix (1/10) (scenarioTrack k0 k1 k2 : JointAnim V Q) 0
      = some (mix k0 k1 (1/10)) := by
    simp [rotBlend, scenarioTrack]
  have h : fmod ((11/10 : ℚ) + 1) 2 = 1/10 := by
    rw [show (11/10 : ℚ) + 1 = 21/10 by norm_num]; exact fmod_scn
  unfold Update
  rw [advanceTimer_wrap (by norm_num [scenarioAnim])]
  show tracksLoop mix 1 ⟨scenarioAnim k0 k1 k2, fmod (11/10 + 1) 2, [0], [0], p0 :: ps⟩ = _
  rw [h]
  exact scn_step mix k0 k1 k2 (1/10) 0 0 _ p0 ps hs hb

theorem scenario_run1 (mix : Q → Q → ℚ → Q) (k0 k1 k2 : Q) (j0 : Joint V Q)
    (js : List (Joint V Q)) :
    updates mix (SkeletalAnimClip.create (scenarioAnim k0 k1 k2) ⟨j0 :: js⟩) [1/2] =
      some ⟨scenarioAnim k0 k1 k2, 1/2, [0], [0],
        ⟨j0.m_basePos, mix k0 k1 (1/2)⟩ :: js.map (fun j => ⟨j.m_basePos, j.m_baseRotation⟩)⟩ := by
  rw [updates_cons, scn1]
  rfl

theorem scenario_run2 (mix : Q → Q → ℚ → Q) (k0 k1 k2 : Q) (j0 : Joint V Q)
    (js : List (Joint V Q)) :
    updates mix (SkeletalAnimClip.create (scenarioAnim k0 k1 k2) ⟨j0 :: js⟩) [1/2, 6/10] =
      some ⟨scenarioAnim k0 k1 k2, 11/10, [1], [0],
        ⟨j0.m_basePos, mix k1 k2 (1/10)⟩ ::
          js.map (fun j => ⟨j.m_basePos, j.m_baseRotation⟩)⟩ := by
  rw [updates_cons, scn1, Option.some_bind, updates_cons, scn2]
  rfl

theorem scenario_run3 (mix : Q → Q → ℚ → Q) (k0 k1 k2 : Q) (j0 : Joint V Q)
    (js : List (Joint V Q)) :
    updates mix (SkeletalAnimClip.create (scenarioAnim k0 k1 k2) ⟨j0 :: js⟩) [1/2, 6/10, 1] =
      some ⟨scenarioAnim k0 k1 k2, 1/10, [0], [0],
        ⟨j0.m_basePos, mix k0 k1 (1/10)⟩ ::
          js.map (fun j => ⟨j.m_basePos, j.m_baseRotation⟩)⟩ := by
  rw [updates_cons, scn1, Option.some_bind, updates_cons, scn2, Option.some_bind, updates_cons,
    scn3]
  rfl

theorem scn_boundary (mix : Q → Q → ℚ → Q) (k0 k1 k2 : Q) (j0 : Joint V Q)
    (js : List (Joint V Q)) :
    updates mix (SkeletalAnimClip.create (scenarioAnim k0 k1 k2) ⟨j0 :: js⟩) [1] =
      some ⟨scenarioAnim k0 k1 k2, 1, [0], [0],
        ⟨j0.m_basePos, mix k0 k1 1⟩ :: js.map (fun j => ⟨j.m_basePos, j.m_baseRotation⟩)⟩ := by
  have hs : scanRot 1 (scenarioTrack k0 k1 k2 : JointAnim V Q) 3 0 = some 0 :=
    scanRot_stop 3 1 rfl (by norm_num)
  have hb : rotBlend mix 1 (scenarioTrack k0 k1 k2 : JointAnim V Q) 0
      = some (mix k0 k1 1) := by
    simp [rotBlend, scenarioTrack]
  rw [updates_cons]
  unfold Update
  rw [advanceTimer_noWrap (by norm_num [SkeletalAnimClip.create, scenarioAnim])]
  show (tracksLoop mix 1 ⟨scenarioAnim k0 k1 k2, 0 + 1, [0], [0],
    ⟨j0.m_basePos, j0.m_baseRotation⟩ :: js.map (fun j => ⟨j.m_basePos, j.m_baseRotation⟩)⟩).bind
      _ = _
  rw [zero_add, scn_step mix k0 k1 k2 1 0 0 _ _ _ hs hb]
  rfl

theorem examplePlayer_reached :
    updates lerp (SkeletalAnimClip.create exampleAnim exampleSkeleton) [1/2, 6/10] =
      some examplePlayer :=
  scenario_run2 lerp 0 1 0 ⟨10, 20, 30, 40⟩ [⟨11, 21, 31, 41⟩]

theorem staticAnim_run :
    updates lerp (SkeletalAnimClip.create staticAnim exampleSkeleton) [3] =
      some ⟨staticAnim, 1, [0], [0], [⟨10, 20⟩, ⟨11, 7⟩]⟩ := by
  rw [updates_cons]
  unfold Update
  rw [advanceTimer_wrap (by norm_num [SkeletalAnimClip.create, staticAnim])]
  show (tracksLoop lerp 1 ⟨staticAnim, fmod (0 + 3) 2, [0], [0], [⟨10, 20⟩, ⟨11, 21⟩]⟩).bind _ = _
  rw [fmod_three_two, tracksLoop_one]
  simp [trackStep, trackPos, trackRot, staticAnim, updates]

/-! ## Wraparound (C1) -/

/-- C1. Wraparound equals a fresh start: for a clip of positive duration, a
player `p` reached from construction by any run of `Update` calls, and a
`deltaTime` that takes the timer past the duration, `Update` on `p` and
`Update` on a freshly constructed player by the wrapped remainder
`fmod (p.m_timer + dt) duration` have the same outcome: the same pose buffer
(and the same timer and cursors), or both undefined. -/
theorem wraparound_equals_fresh_start (mix : Q → Q → ℚ → Q) (anim : SkeletalAnim V Q)
    (skeleton : Skeleton V Q) (dts : List ℚ) (p : SkeletalAnimClip V Q) (dt : ℚ)
    (hd : 0 < anim.duration)
    (hp : updates mix (SkeletalAnimClip.create anim skeleton) dts = some p)
    (hw : p.m_timer + dt > anim.duration) :
    Update mix p dt =
      Update mix (SkeletalAnimClip.create anim skeleton) (fmod (p.m_timer + dt) anim.duration) := by
  obtain ⟨ha, hpf, hrf, wp, wr, hres, hwp, hwr⟩ := Inv_updates dts (Inv_create anim skeleton) hp
  obtain ⟨hr0, hr1, -⟩ := fmod_nonneg_lt hd (le_of_lt (lt_trans hd hw))
  have hA : advanceTimer p dt = { p with m_timer := fmod (p.m_timer + dt) anim.duration
                                         m_rotFrame := List.replicate anim.data.length 0 } := by
    rw [advanceTimer_wrap (by rw [ha]; exact hw), ha, hrf]
  have hB : advanceTimer (SkeletalAnimClip.create anim skeleton)
      (fmod (p.m_timer + dt) anim.duration) =
      { SkeletalAnimClip.create anim skeleton with
        m_timer := fmod (p.m_timer + dt) anim.duration } := by
    rw [advanceTimer_noWrap]
    · simp [SkeletalAnimClip.create]
    · simp only [SkeletalAnimClip.create, zero_add]
      exact le_of_lt hr1
  rw [Update_eq, Update_eq, hA, hB]
  have hL : p.m_result.length = (SkeletalAnimClip.create anim skeleton).m_result.length := by
    rw [hres, overlay_length]; rfl
  rw [hL, ha]
  simp only [SkeletalAnimClip.create]
  cases hl : loopW mix anim (fmod (p.m_timer + dt) anim.duration)
      (List.map (fun j => (⟨j.m_basePos, j.m_baseRotation⟩ : JointPose V Q))
        skeleton.m_joints).length anim.data.length (List.replicate anim.data.length 0) with
  | none => rfl
  | some s =>
    obtain ⟨-, -, hsp, hsr⟩ := loopW_spec _ hl
    simp only [Option.map_some', Option.some.injEq, SkeletalAnimClip.mk.injEq, true_and]
    refine ⟨hpf, ?_⟩
    rw [hres]
    exact overlay_absorb wp s.2.1 wr s.2.2 _ (fun j hj => (hsp j).2 (hwp j hj))
      (fun j hj => (hsr j).2 (hwr j hj))

theorem wraparound_equals_fresh_start_witness :
    0 < exampleAnim.duration ∧
    updates lerp (SkeletalAnimClip.create exampleAnim exampleSkeleton) [1/2, 6/10] =
      some examplePlayer ∧
    examplePlayer.m_timer + 1 > exampleAnim.duration ∧
    Update lerp examplePlayer 1 =
      Update lerp (SkeletalAnimClip.create exampleAnim exampleSkeleton)
        (fmod (examplePlayer.m_timer + 1) exampleAnim.duration) ∧
    Update lerp examplePlayer 1 =
      some ⟨exampleAnim, 1/10, [0], [0], [⟨10, lerp 0 1 (1/10)⟩, ⟨11, 21⟩]⟩ :=
  ⟨by norm_num [exampleAnim, scenarioAnim], examplePlayer_reached,
    by norm_num [exampleAnim, scenarioAnim, examplePlayer],
    wraparound_equals_fresh_start lerp exampleAnim exampleSkeleton [1/2, 6/10] examplePlayer 1
      (by norm_num [exampleAnim, scenarioAnim]) examplePlayer_reached
      (by norm_num [exampleAnim, scenarioAnim, examplePlayer]),
    scn3 lerp 0 1 0 ⟨10, lerp 1 0 (1/10)⟩ [⟨11, 21⟩]⟩

/-! ## Bind pose (C2) -/

/-- C2. Bind-pose fidelity: for every clip and skeleton, `Apply` on a freshly
constructed player (no `Update`) is defined, keeps the joint count, and sets
every joint's current position and rotation to that joint's base position and
base rotation. -/
theorem bind_pose_fidelity (anim : SkeletalAnim V Q) (skeleton : Skeleton V Q) :
    ∃ s', Apply (SkeletalAnimClip.create anim skeleton) skeleton = some s' ∧
      s'.m_joints.length = skeleton.m_joints.length ∧
      ∀ i : Nat,
        (s'.m_joints[i]?).map (fun j => j.m_pos) =
          (skeleton.m_joints[i]?).map (fun j => j.m_basePos) ∧
        (s'.m_joints[i]?).map (fun j => j.m_rotation) =
          (skeleton.m_joints[i]?).map (fun j => j.m_baseRotation) := by
  have hlen : (SkeletalAnimClip.create anim skeleton).m_result.length
      = skeleton.m_joints.length := by
    simp [SkeletalAnimClip.create]
  obtain ⟨s', hs', hl, hget⟩ := Apply_spec (SkeletalAnimClip.create anim skeleton) skeleton
    (by omega)
  refine ⟨s', hs', hl, ?_⟩
  intro i
  rw [hget i, hlen]
  by_cases hi : i < skeleton.m_joints.length
  · simp [hi, SkeletalAnimClip.create, copyPose]
  · simp [hi, List.getElem?_eq_none (Nat.le_of_not_lt hi)]

/-! ## Interpolation endpoints and segment boundaries (C3, C4) -/

/-- C3. Endpoint exactness: for a clip with duration `≥ T > 0` whose only
track has exactly two rotation keys `(0, R0)` and `(T, R1)` (joint index valid,
declared position count within the position keys), and a blend with
`mix a b 0 = a` and `mix a b 1 = b`: `Update 0` on a fresh player is defined,
leaves the timer at 0 and writes rotation `R0` to the track's joint;
`Update T` on a fresh player is defined, leaves the timer at `T` (no wrap) and
writes rotation `R1`. -/
theorem endpoint_exactness (mix : Q → Q → ℚ → Q) (anim : SkeletalAnim V Q)
    (skeleton : Skeleton V Q) (a : JointAnim V Q) (T : ℚ) (R0 R1 : Q)
    (hT : 0 < T) (hTd : T ≤ anim.duration) (hdata : anim.data = [a])
    (hn : a.rotFrames = 2) (htimes : a.rotTimes = [0, T]) (hkeys : a.rotKeys = [R0, R1])
    (hj : a.jointInd < skeleton.m_joints.length) (hp : a.posFrames ≤ a.posKeys.length)
    (hmix0 : ∀ x y, mix x y 0 = x) (hmix1 : ∀ x y, mix x y 1 = y) :
    (∃ c, Update mix (SkeletalAnimClip.create anim skeleton) 0 = some c ∧ c.m_timer = 0 ∧
      (c.m_result[a.jointInd]?).map (fun p => p.rotation) = some R0) ∧
    (∃ c, Update mix (SkeletalAnimClip.create anim skeleton) T = some c ∧ c.m_timer = T ∧
      (c.m_result[a.jointInd]?).map (fun p => p.rotation) = some R1) := by
  have hlen : a.jointInd < (SkeletalAnimClip.create anim skeleton).m_result.length := by
    simp [SkeletalAnimClip.create, hj]
  obtain ⟨pose1, hpose1, -⟩ := trackPos_defined a
    ((SkeletalAnimClip.create anim skeleton).m_result[a.jointInd]) hp
  have hrf : ∀ dt, (advanceTimer (SkeletalAnimClip.create anim skeleton) dt).m_rotFrame[0]?
      = some 0 := by
    intro dt
    unfold advanceTimer
    simp only
    split <;> simp [SkeletalAnimClip.create, hdata]
  have ht1 : a.rotTimes[0 + 1]? = some T := by rw [htimes]; rfl
  constructor
  · have hadv : (advanceTimer (SkeletalAnimClip.create anim skeleton) 0).m_timer = 0 := by
      rw [advanceTimer_noWrap (by simp only [SkeletalAnimClip.create]; linarith)]
      simp [SkeletalAnimClip.create]
    have hU := Update_single_rotMany mix (SkeletalAnimClip.create anim skeleton) 0 a _ pose1 0 0 R0
      hdata (List.getElem?_eq_getElem hlen) hpose1 (by omega) (hrf 0)
      (by rw [hadv]; exact scanRot_stop _ T ht1 (by intro h; linarith [h.1]))
      (by rw [hadv]; simp [rotBlend, htimes, hkeys, hmix0])
    refine ⟨_, hU, hadv, ?_⟩
    simp only [advanceTimer_result]
    rw [List.getElem?_set_self hlen]
    rfl
  · have hadv : (advanceTimer (SkeletalAnimClip.create anim skeleton) T).m_timer = T := by
      rw [advanceTimer_noWrap (by simp only [SkeletalAnimClip.create]; linarith)]
      simp [SkeletalAnimClip.create]
    have hU := Update_single_rotMany mix (SkeletalAnimClip.create anim skeleton) T a _ pose1 0 0 R1
      hdata (List.getElem?_eq_getElem hlen) hpose1 (by omega) (hrf T)
      (by rw [hadv]; exact scanRot_stop _ T ht1 (by intro h; linarith [h.1]))
      (by rw [hadv]; simp [rotBlend, htimes, hkeys, div_self (ne_of_gt hT), hmix1])
    refine ⟨_, hU, hadv, ?_⟩
    simp only [advanceTimer_result]
    rw [List.getElem?_set_self hlen]
    rfl

theorem endpoint_exactness_witness :
    (0 : ℚ) < 2 ∧ (2 : ℚ) ≤ twoKeyAnim.duration ∧
    twoKeyAnim.data = [⟨0, 2, 0, [], [], [3, 5], [0, 2]⟩] ∧
    (∀ x y : ℚ, lerp x y 0 = x) ∧ (∀ x y : ℚ, lerp x y 1 = y) ∧
    (∃ c, Update lerp (SkeletalAnimClip.create twoKeyAnim exampleSkeleton) 0 = some c ∧
      c.m_timer = 0 ∧
      (c.m_result[(⟨0, 2, 0, [], [], [3, 5], [0, 2]⟩ : JointAnim ℚ ℚ).jointInd]?).map
        (fun p => p.rotation) = some 3) ∧
    (∃ c, Update lerp (SkeletalAnimClip.create twoKeyAnim exampleSkeleton) 2 = some c ∧
      c.m_timer = 2 ∧
      (c.m_result[(⟨0, 2, 0, [], [], [3, 5], [0, 2]⟩ : JointAnim ℚ ℚ).jointInd]?).map
        (fun p => p.rotation) = some 5) :=
  ⟨by norm_num, by norm_num [twoKeyAnim], rfl, by intro x y; simp [lerp],
    by intro x y; simp [lerp],
    endpoint_exactness lerp twoKeyAnim exampleSkeleton ⟨0, 2, 0, [], [], [3, 5], [0, 2]⟩ 2 3 5
      (by norm_num) (by norm_num [twoKeyAnim]) rfl rfl rfl rfl (by decide) (by decide)
      (by intro x y; simp [lerp]) (by intro x y; simp [lerp])⟩

/-- C4. Continuity at segment boundaries: for a track with `n ≥ 3` rotation
keys (key arrays of the declared length) whose times are strictly increasing
from 0 and do not exceed the duration, an interior key index `k` with time `tk`
and key `Kk`, and a blend with
`mix a b 0 = a`, `mix a b 1 = b`: segment `(k-1, k)` evaluated at `tk` and
segment `(k, k+1)` evaluated at `tk` both give `Kk`; and whenever a run of
defined `Update` calls with non-negative `deltaTime`s from a fresh player ends
with the timer exactly `tk`, the buffer entry of the track's joint holds
rotation `Kk`, provided no later track writes a rotation to the same joint. -/
theorem segment_boundary_continuity (mix : Q → Q → ℚ → Q) (anim : SkeletalAnim V Q)
    (skeleton : Skeleton V Q) (i0 : Nat) (a : JointAnim V Q) (k : Nat) (tk : ℚ) (Kk : Q)
    (ha : anim.data[i0]? = some a) (hn : 3 ≤ a.rotFrames)
    (hlt : a.rotTimes.length = a.rotFrames) (hlk : a.rotKeys.length = a.rotFrames)
    (hmono : a.rotTimes.Pairwise (· < ·)) (h0 : a.rotTimes[0]? = some 0)
    (_hdur : ∀ t ∈ a.rotTimes, t ≤ anim.duration)
    (hk0 : 0 < k) (hk1 : k < a.rotFrames - 1)
    (htk : a.rotTimes[k]? = some tk) (hKk : a.rotKeys[k]? = some Kk)
    (hmix0 : ∀ x y, mix x y 0 = x) (hmix1 : ∀ x y, mix x y 1 = y) :
    rotBlend mix tk a (k - 1) = some Kk ∧ rotBlend mix tk a k = some Kk ∧
    ∀ (dts : List ℚ) (c : SkeletalAnimClip V Q),
      (∀ i b, i0 < i → anim.data[i]? = some b → b.jointInd = a.jointInd → b.rotFrames = 0) →
      (∀ dt ∈ dts, 0 ≤ dt) →
      updates mix (SkeletalAnimClip.create anim skeleton) dts = some c →
      c.m_timer = tk →
      (c.m_result[a.jointInd]?).map (fun p => p.rotation) = some Kk := by
  have hkm : k - 1 + 1 = k := by omega
  have hprev : (k - 1) < a.rotTimes.length := by omega
  have hnext : (k + 1) < a.rotTimes.length := by omega
  have htp : a.rotTimes[k - 1]? = some a.rotTimes[k - 1] := List.getElem?_eq_getElem hprev
  have htn : a.rotTimes[k + 1]? = some a.rotTimes[k + 1] := List.getElem?_eq_getElem hnext
  have hprevK : (k - 1) < a.rotKeys.length := by omega
  have hnextK : (k + 1) < a.rotKeys.length := by omega
  have hkp : a.rotKeys[k - 1]? = some a.rotKeys[k - 1] := List.getElem?_eq_getElem hprevK
  have hkn : a.rotKeys[k + 1]? = some a.rotKeys[k + 1] := List.getElem?_eq_getElem hnextK
  have hlt1 : a.rotTimes[k - 1] < tk := pairwise_getElem?_lt hmono (by omega) htp htk
  have hpos : 0 < tk := pairwise_getElem?_lt hmono hk0 h0 htk
  have hB1 : rotBlend mix tk a (k - 1) = some Kk := by
    unfold rotBlend
    rw [hkm, htp, htk, hkp, hKk]
    simp only
    rw [div_self (ne_of_gt (sub_pos.mpr hlt1)), hmix1]
  have hB2 : rotBlend mix tk a k = some Kk := by
    unfold rotBlend
    rw [htk, htn, hKk, hkn]
    simp only
    rw [sub_self, zero_div, hmix0]
  refine ⟨hB1, hB2, ?_⟩
  intro dts c hlast hdts hrun htimer
  have hne : dts ≠ [] := by
    intro hnil
    subst hnil
    simp [updates, SkeletalAnimClip.create] at hrun
    subst hrun
    simp only at htimer
    linarith
  obtain ⟨dts', dt, c1, hsplit, h1, hU⟩ := updates_last hne hrun
  have hdts' : ∀ d ∈ dts', 0 ≤ d := fun d hd => hdts d (by rw [hsplit]; simp [hd])
  have hdt : 0 ≤ dt := hdts dt (by rw [hsplit]; simp)
  have hinv : c1.m_anim = anim ∧ CurInv i0 a c1 := by
    refine updates_induction (fun c => c.m_anim = anim ∧ CurInv i0 a c) (fun d => 0 ≤ d) ?_
      dts' ⟨rfl, ?_⟩ hdts' h1
    · rintro c2 d c3 ⟨hA, hC⟩ hd hU2
      exact ⟨by rw [(Update_frame hU2).1, hA], Update_CurInv hU2 (by rw [hA]; exact ha) hd hC⟩
    · have hi : i0 < anim.data.length := by
        by_contra hcon
        rw [List.getElem?_eq_none (by omega)] at ha
        cases ha
      exact ⟨0, by simp [SkeletalAnimClip.create, hi], Or.inl rfl⟩
  obtain ⟨hA, hC⟩ := hinv
  obtain ⟨c0, hc0, hor⟩ : CurInv i0 a (advanceTimer c1 dt) := advanceTimer_CurInv hdt hC
  have hT : (advanceTimer c1 dt).m_timer = tk := by
    rw [← (Update_frame hU).2.1]; exact htimer
  rw [hT] at hor
  have hc0k : c0 < k := by
    rcases hor with hz | ⟨tc, h2, h3⟩
    · omega
    · by_contra hcon
      rcases Nat.lt_or_ge k c0 with hlt' | hge
      · have := pairwise_getElem?_lt hmono hlt' htk h2
        linarith
      · have : c0 = k := by omega
        subst this
        rw [htk] at h2
        cases h2
        exact lt_irrefl _ h3
  obtain ⟨hv, -, -⟩ := Update_lastRot hU (i := i0) (a := a) (by rw [hA]; exact ha) (by omega)
    (by intro i b hi hb hj; rw [hA] at hb; exact hlast i b hi hb hj)
  rw [hv, hT, hc0]
  unfold rotValue
  rw [if_neg (by omega), if_pos (by omega)]
  simp only [Option.some_bind]
  rw [scanRot_lands hlt hmono hk1 htk a.rotFrames hc0k (by omega)]
  exact hB1

theorem segment_boundary_continuity_witness :
    exampleAnim.data[0]? = some (scenarioTrack 0 1 0) ∧
    3 ≤ (scenarioTrack 0 1 0 : JointAnim ℚ ℚ).rotFrames ∧
    (scenarioTrack 0 1 0 : JointAnim ℚ ℚ).rotTimes.Pairwise (· < ·) ∧
    (∀ t ∈ (scenarioTrack 0 1 0 : JointAnim ℚ ℚ).rotTimes, t ≤ exampleAnim.duration) ∧
    (scenarioTrack 0 1 0 : JointAnim ℚ ℚ).rotTimes[1]? = some 1 ∧
    (scenarioTrack 0 1 0 : JointAnim ℚ ℚ).rotKeys[1]? = some 1 ∧
    (∀ dt ∈ [(1 : ℚ)], 0 ≤ dt) ∧
    updates lerp (SkeletalAnimClip.create exampleAnim exampleSkeleton) [1] =
      some ⟨exampleAnim, 1, [0], [0], [⟨10, lerp 0 1 1⟩, ⟨11, 21⟩]⟩ ∧
    rotBlend lerp 1 (scenarioTrack 0 1 0 : JointAnim ℚ ℚ) (1 - 1) = some 1 ∧
    rotBlend lerp 1 (scenarioTrack 0 1 0 : JointAnim ℚ ℚ) 1 = some 1 ∧
    (([⟨10, lerp 0 1 1⟩, ⟨11, 21⟩] : List (JointPose ℚ ℚ))[0]?).map (fun p => p.rotation)
      = some 1 := by
  have hrun : updates lerp (SkeletalAnimClip.create exampleAnim exampleSkeleton) [1] =
      some ⟨exampleAnim, 1, [0], [0], [⟨10, lerp 0 1 1⟩, ⟨11, 21⟩]⟩ :=
    scn_boundary lerp 0 1 0 ⟨10, 20, 30, 40⟩ [⟨11, 21, 31, 41⟩]
  have hmono : (scenarioTrack 0 1 0 : JointAnim ℚ ℚ).rotTimes.Pairwise (· < ·) := by
    simp [scenarioTrack]
  have hlast : ∀ i b, 0 < i → exampleAnim.data[i]? = some b →
      b.jointInd = (scenarioTrack 0 1 0 : JointAnim ℚ ℚ).jointInd → b.rotFrames = 0 := by
    intro i b hi hb _
    have : i < exampleAnim.data.length := by
      by_contra hcon
      rw [List.getElem?_eq_none (by omega)] at hb
      cases hb
    simp [exampleAnim, scenarioAnim] at this
    omega
  have hdts : ∀ dt ∈ [(1 : ℚ)], 0 ≤ dt := by simp
  have hdur : ∀ t ∈ (scenarioTrack 0 1 0 : JointAnim ℚ ℚ).rotTimes, t ≤ exampleAnim.duration := by
    simp [scenarioTrack, exampleAnim, scenarioAnim]
  have key := segment_boundary_continuity lerp exampleAnim exampleSkeleton 0 (scenarioTrack 0 1 0)
    1 1 1 rfl (by decide) rfl rfl hmono rfl hdur (by decide) (by decide) rfl rfl
    (by intro x y; simp [lerp]) (by intro x y; simp [lerp])
  exact ⟨rfl, by decide, hmono, hdur, rfl, rfl, hdts, hrun, key.1, key.2.1,
    key.2.2 [1] _ hlast hdts hrun rfl⟩

/-! ## Static tracks (C5) -/

/-- C5. Single-key staticity: on a clip of positive duration, if the only
track targeting joint `j` has exactly one rotation key `K` and no position
keys, then after every non-empty run of defined `Update` calls (any
`deltaTime`, with or without wraparound) buffer entry `j` has rotation `K` and
the base position of joint `j`. -/
theorem single_key_static (mix : Q → Q → ℚ → Q) (anim : SkeletalAnim V Q)
    (skeleton : Skeleton V Q) (i0 : Nat) (a : JointAnim V Q) (K : Q) (dts : List ℚ)
    (c : SkeletalAnimClip V Q) (_hd : 0 < anim.duration)
    (ha : anim.data[i0]? = some a) (hrot : a.rotFrames = 1) (hkeys : a.rotKeys = [K])
    (hpos : a.posFrames = 0)
    (honly : ∀ i b, anim.data[i]? = some b → b.jointInd = a.jointInd → i = i0)
    (hne : dts ≠ [])
    (h : updates mix (SkeletalAnimClip.create anim skeleton) dts = some c) :
    (c.m_result[a.jointInd]?).map (fun p => p.rotation) = some K ∧
    (c.m_result[a.jointInd]?).map (fun p => p.pos) =
      (skeleton.m_joints[a.jointInd]?).map (fun x => x.m_basePos) := by
  constructor
  · obtain ⟨dts', dt, c1, -, h1, hU⟩ := updates_last hne h
    obtain ⟨hanim, -⟩ := Inv_updates dts' (Inv_create anim skeleton) h1
    obtain ⟨hv, -, -⟩ := Update_lastRot hU (i := i0) (a := a) (by rw [hanim]; exact ha)
      (by omega) (by
        intro i' b hlt hb hj
        rw [hanim] at hb
        have := honly i' b hb hj
        omega)
    rw [hv]
    simp [rotValue, hrot, hkeys]
  · apply Inv_pos_untargeted (Inv_updates dts (Inv_create anim skeleton) h)
    rintro ⟨i, b, -, hb, hj, hp⟩
    have hi := honly i b hb hj
    subst hi
    rw [ha] at hb
    cases hb
    omega

theorem single_key_static_witness :
    0 < staticAnim.duration ∧
    staticAnim.data[0]? = some ⟨1, 1, 0, [], [], [7], [0]⟩ ∧
    (⟨1, 1, 0, [], [], [7], [0]⟩ : JointAnim ℚ ℚ).rotFrames = 1 ∧
    (⟨1, 1, 0, [], [], [7], [0]⟩ : JointAnim ℚ ℚ).rotKeys = [7] ∧
    (⟨1, 1, 0, [], [], [7], [0]⟩ : JointAnim ℚ ℚ).posFrames = 0 ∧
    (∀ i b, staticAnim.data[i]? = some b →
      b.jointInd = (⟨1, 1, 0, [], [], [7], [0]⟩ : JointAnim ℚ ℚ).jointInd → i = 0) ∧
    [(3 : ℚ)] ≠ [] ∧
    updates lerp (SkeletalAnimClip.create staticAnim exampleSkeleton) [3] =
      some ⟨staticAnim, 1, [0], [0], [⟨10, 20⟩, ⟨11, 7⟩]⟩ ∧
    (([⟨10, 20⟩, ⟨11, 7⟩] : List (JointPose ℚ ℚ))[1]?).map (fun p => p.rotation) = some 7 ∧
    (([⟨10, 20⟩, ⟨11, 7⟩] : List (JointPose ℚ ℚ))[1]?).map (fun p => p.pos) =
      (exampleSkeleton.m_joints[1]?).map (fun x => x.m_basePos) := by
  have honly : ∀ i b, staticAnim.data[i]? = some b →
      b.jointInd = (⟨1, 1, 0, [], [], [7], [0]⟩ : JointAnim ℚ ℚ).jointInd → i = 0 := by
    intro i b hb _
    have hi : i < staticAnim.data.length := by
      by_contra hcon
      rw [List.getElem?_eq_none (by omega)] at hb
      cases hb
    simp [staticAnim] at hi
    exact hi
  exact ⟨by norm_num [staticAnim], rfl, rfl, rfl, rfl, honly, by simp, staticAnim_run,
    single_key_static lerp staticAnim exampleSkeleton 0 ⟨1, 1, 0, [], [], [7], [0]⟩ 7 [3] _
      (by norm_num [staticAnim]) rfl rfl rfl rfl honly (by simp) staticAnim_run⟩

/-! ## The concrete scenario (C6) -/

/-- C6. The concrete scenario: on the clip of duration 2 with one track on
joint 0 and rotation keys `k0 k1 k2` at times 0, 1, 2, a fresh player driven by
`Update (1/2)`, `Update (6/10)`, `Update 1` has, after each call: timer `1/2`,
cursor 0 and rotation `mix k0 k1 (1/2)`; timer `11/10`, cursor 1 and rotation
`mix k1 k2 (1/10)`; timer `1/10` (wrapped from `21/10`), cursor reset to 0 and
rotation `mix k0 k1 (1/10)`.  The blend and the keys are arbitrary, so the
arguments of `mix` are the segment and the fraction the code used. -/
theorem concrete_scenario (mix : Q → Q → ℚ → Q) (k0 k1 k2 : Q) (j0 : Joint V Q)
    (js : List (Joint V Q)) :
    updates mix (SkeletalAnimClip.create (scenarioAnim k0 k1 k2) ⟨j0 :: js⟩) [1/2] =
      some ⟨scenarioAnim k0 k1 k2, 1/2, [0], [0],
        ⟨j0.m_basePos, mix k0 k1 (1/2)⟩ ::
          js.map (fun j => ⟨j.m_basePos, j.m_baseRotation⟩)⟩ ∧
    updates mix (SkeletalAnimClip.create (scenarioAnim k0 k1 k2) ⟨j0 :: js⟩) [1/2, 6/10] =
      some ⟨scenarioAnim k0 k1 k2, 11/10, [1], [0],
        ⟨j0.m_basePos, mix k1 k2 (1/10)⟩ ::
          js.map (fun j => ⟨j.m_basePos, j.m_baseRotation⟩)⟩ ∧
    updates mix (SkeletalAnimClip.create (scenarioAnim k0 k1 k2) ⟨j0 :: js⟩) [1/2, 6/10, 1] =
      some ⟨scenarioAnim k0 k1 k2, 1/10, [0], [0],
        ⟨j0.m_basePos, mix k0 k1 (1/10)⟩ ::
          js.map (fun j => ⟨j.m_basePos, j.m_baseRotation⟩)⟩ ∧
    (1/2 : ℚ) + 6/10 + 1 = 21/10 ∧ fmod (21/10) 2 = 1/10 :=
  ⟨scenario_run1 mix k0 k1 k2 j0 js, scenario_run2 mix k0 k1 k2 j0 js,
    scenario_run3 mix k0 k1 k2 j0 js, by norm_num, fmod_scn⟩

/-! ## The timer (C7, C8) -/

/-- C8 (as stated, refuted). On the scenario clip (duration 2) a fresh player
after the single call `Update 2` has timer 2: the timer equals the duration, so
the half-open bound `0 ≤ e < duration` fails in a state reached by a
non-negative `deltaTime`. -/
theorem timer_reaches_duration :
    0 < exampleAnim.duration ∧ (∀ dt ∈ [(2 : ℚ)], 0 ≤ dt) ∧
    updates lerp (SkeletalAnimClip.create exampleAnim exampleSkeleton) [2] =
      some ⟨exampleAnim, 2, [1], [0], [⟨10, lerp 1 0 1⟩, ⟨11, 21⟩]⟩ ∧
    ¬ (∀ c, updates lerp (SkeletalAnimClip.create exampleAnim exampleSkeleton) [2] = some c →
        0 ≤ c.m_timer ∧ c.m_timer < exampleAnim.duration) := by
  have hs : scanRot 2 (scenarioTrack 0 1 0 : JointAnim ℚ ℚ) 3 0 = some 1 := by
    rw [show (3 : Nat) = 2 + 1 from rfl, scanRot_step 2 1 rfl (by norm_num [scenarioTrack])]
    exact scanRot_stop 2 2 rfl (by norm_num)
  have hb : rotBlend lerp 2 (scenarioTrack 0 1 0 : JointAnim ℚ ℚ) 1
      = some (lerp 1 0 1) := by
    simp [rotBlend, scenarioTrack]; norm_num
  have hU : Update lerp (SkeletalAnimClip.create exampleAnim exampleSkeleton) 2 =
      some ⟨exampleAnim, 2, [1], [0], [⟨10, lerp 1 0 1⟩, ⟨11, 21⟩]⟩ := by
    unfold Update
    rw [advanceTimer_noWrap (by norm_num [SkeletalAnimClip.create, exampleAnim, scenarioAnim])]
    show tracksLoop lerp 1 ⟨scenarioAnim 0 1 0, 0 + 2, [0], [0], [⟨10, 20⟩, ⟨11, 21⟩]⟩ = _
    rw [zero_add]
    exact scn_step lerp 0 1 0 2 0 1 _ _ _ hs hb
  have hR : updates lerp (SkeletalAnimClip.create exampleAnim exampleSkeleton) [2] =
      some ⟨exampleAnim, 2, [1], [0], [⟨10, lerp 1 0 1⟩, ⟨11, 21⟩]⟩ := by
    rw [updates_cons, hU]; rfl
  refine ⟨by norm_num [exampleAnim, scenarioAnim], by simp, hR, ?_⟩
  intro hall
  have := (hall _ hR).2
  simp [exampleAnim, scenarioAnim] at this

/-! ## `Apply` (C9, C10) -/

/-- C9. `Apply` is an exact copy: on a skeleton with as many joints as the
pose buffer has entries, `Apply` is defined, keeps the joint count, and joint
`i` ends with the position and the rotation of buffer entry `i`, for every
index `i`. -/
theorem Apply_exact_copy (c : SkeletalAnimClip V Q) (s : Skeleton V Q)
    (h : s.m_joints.length = c.m_result.length) :
    ∃ s', Apply c s = some s' ∧ s'.m_joints.length = c.m_result.length ∧
      ∀ i : Nat, (s'.m_joints[i]?).map (fun j => j.m_pos) = (c.m_result[i]?).map (fun r => r.pos) ∧
        (s'.m_joints[i]?).map (fun j => j.m_rotation) =
          (c.m_result[i]?).map (fun r => r.rotation) := by
  obtain ⟨s', hs', hlen, hget⟩ := Apply_spec c s (by omega)
  refine ⟨s', hs', by omega, ?_⟩
  intro i
  rw [hget i]
  by_cases hi : i < c.m_result.length
  · have hi2 : i < s.m_joints.length := by omega
    simp [hi, hi2, copyPose]
  · have hi2 : ¬ i < s.m_joints.length := by omega
    simp [hi, List.getElem?_eq_none (Nat.le_of_not_lt hi),
      List.getElem?_eq_none (Nat.le_of_not_lt hi2)]

theorem Apply_exact_copy_witness :
    exampleSkeleton.m_joints.length = examplePlayer.m_result.length ∧
    ∃ s', Apply examplePlayer exampleSkeleton = some s' ∧
      s'.m_joints.length = examplePlayer.m_result.length ∧
      ∀ i : Nat,
        (s'.m_joints[i]?).map (fun j => j.m_pos) =
          (examplePlayer.m_result[i]?).map (fun r => r.pos) ∧
        (s'.m_joints[i]?).map (fun j => j.m_rotation) =
          (examplePlayer.m_result[i]?).map (fun r => r.rotation) :=
  ⟨rfl, Apply_exact_copy examplePlayer exampleSkeleton rfl⟩

/-- C10. Idempotent `Apply`: on a skeleton with as many joints as the pose
buffer has entries, `Apply` is defined and a second `Apply` right after it
returns the same skeleton state. -/
theorem Apply_idempotent (c : SkeletalAnimClip V Q) (s : Skeleton V Q)
    (h : s.m_joints.length = c.m_result.length) :
    ∃ s', Apply c s = some s' ∧ Apply c s' = some s' := by
  obtain ⟨s1, hs1, hl1, hg1⟩ := Apply_spec c s (by omega)
  obtain ⟨s2, hs2, hl2, hg2⟩ := Apply_spec c s1 (by omega)
  refine ⟨s1, hs1, ?_⟩
  rw [hs2]
  have : s2.m_joints = s1.m_joints := by
    apply List.ext_getElem?
    intro i
    rw [hg2 i, hg1 i]
    by_cases hi : i < c.m_result.length
    · have hi2 : i < s.m_joints.length := by omega
      simp [hi, hi2, copyPose]
    · simp [hi]
  cases s1
  cases s2
  simp only at this
  rw [this]

theorem Apply_idempotent_witness :
    exampleSkeleton.m_joints.length = examplePlayer.m_result.length ∧
    ∃ s', Apply examplePlayer exampleSkeleton = some s' ∧ Apply examplePlayer s' = some s' :=
  ⟨rfl, Apply_idempotent examplePlayer exampleSkeleton rfl⟩

/-! ## Construction (C17) -/

theorem resize_nil {α : Type} (n : Nat) (d : α) : resize [] n d = List.replicate n d := by
  simp [resize]

theorem seedLoop_spec (skeleton : Skeleton V Q) (res : List (JointPose V Q)) (n : Nat)
    (h1 : n ≤ res.length) (h2 : n ≤ skeleton.m_joints.length) :
    ∃ res', (List.range n).foldlM (seedStep skeleton) res = some res' ∧
      res'.length = res.length ∧
      ∀ i : Nat, res'[i]? =
        if i < n then (skeleton.m_joints[i]?).map (fun j => ⟨j.m_basePos, j.m_baseRotation⟩)
        else res[i]? := by
  induction n with
  | zero => exact ⟨res, by simp⟩
  | succ n ih =>
    obtain ⟨r1, hr1, hlen, hget⟩ := ih (by omega) (by omega)
    have hn1 : n < r1.length := by omega
    have hn2 : n < skeleton.m_joints.length := by omega
    rw [foldlM_range_succ, hr1]
    simp only [Option.some_bind, seedStep, List.getElem?_eq_getElem hn1,
      List.getElem?_eq_getElem hn2]
    refine ⟨_, rfl, by simp [hlen], ?_⟩
    intro i
    rw [List.getElem?_set]
    by_cases hin : n = i
    · subst hin
      simp [hn1, hn2]
    · simp only [hin, if_false, hget i]
      by_cases h : i < n
      · simp [h, show i < n + 1 by omega]
      · simp [h, show ¬ i < n + 1 by omega]

theorem construct_eq_create (d : JointPose V Q) (anim : SkeletalAnim V Q)
    (skeleton : Skeleton V Q) :
    SkeletalAnimClip.construct d anim skeleton =
      some (SkeletalAnimClip.create anim skeleton) := by
  obtain ⟨res, hres, hlen, hget⟩ := seedLoop_spec skeleton
    (resize [] skeleton.m_joints.length d) skeleton.m_joints.length
    (by simp [resize_nil]) (Nat.le_refl _)
  unfold SkeletalAnimClip.construct
  rw [hres]
  simp only [SkeletalAnimClip.create, resize_nil, Option.some.injEq, SkeletalAnimClip.mk.injEq,
    true_and]
  refine ⟨?_, ?_, ?_⟩
  · apply List.ext_getElem?
    intro i
    simp [List.getElem?_replicate]
  · apply List.ext_getElem?
    intro i
    simp [List.getElem?_replicate]
  · apply List.ext_getElem?
    intro i
    rw [hget i, resize_nil]
    by_cases hi : i < skeleton.m_joints.length
    · simp [hi]
    · simp [hi, List.getElem?_eq_none (Nat.le_of_not_lt hi)]
      omega

/-- C17. Initial player state: the constructor, run as written on clip `anim`
and skeleton `skeleton`, is defined; the timer is 0, the rotation cursors are
one 0 per track of the clip, and the pose buffer has one entry per joint, entry
`i` being the base position and base rotation of joint `i` (whatever the
default `JointPose` the resize padded with). -/
theorem initial_player_state (d : JointPose V Q) (anim : SkeletalAnim V Q)
    (skeleton : Skeleton V Q) :
    ∃ c, SkeletalAnimClip.construct d anim skeleton = some c ∧
      c.m_anim = anim ∧ c.m_timer = 0 ∧
      c.m_rotFrame = List.replicate anim.data.length 0 ∧
      c.m_rotFrame.length = anim.data.length ∧
      c.m_result.length = skeleton.m_joints.length ∧
      ∀ i : Nat, c.m_result[i]? =
        (skeleton.m_joints[i]?).map (fun j => ⟨j.m_basePos, j.m_baseRotation⟩) := by
  refine ⟨_, construct_eq_create d anim skeleton, rfl, rfl, rfl, ?_, ?_, ?_⟩
  · simp [SkeletalAnimClip.create]
  · simp [SkeletalAnimClip.create]
  · intro i
    simp [SkeletalAnimClip.create]

/-! ## `Apply` on the player and the skeleton -/

theorem applyStepOn_eq (c : SkeletalAnimClip V Q) (s : Skeleton V Q) (i : Nat) :
    applyStepOn (c, s) i = (applyStep c s i).map (fun s1 => (c, s1)) := by
  unfold applyStepOn applyStep
  simp only
  cases s.m_joints[i]? <;> cases c.m_result[i]? <;> rfl

theorem foldlM_range'_cons {α : Type} (f : α → Nat → Option α) (i k : Nat) (a : α) :
    (List.range' i (k + 1)).foldlM f a = (f a i).bind (fun b => (List.range' (i + 1) k).foldlM f b) := by
  rw [List.range'_succ]
  simp [List.foldlM]

theorem applyFrom_eq (c : SkeletalAnimClip V Q) (fuel i : Nat) (s : Skeleton V Q)
    (hf : c.m_result.length - i ≤ fuel) :
    applyFrom fuel i (c, s) =
      ((List.range' i (c.m_result.length - i)).foldlM (applyStep c) s).map
        (fun s1 => (c, s1)) := by
  induction fuel generalizing i s with
  | zero =>
    have h0 : c.m_result.length - i = 0 := by omega
    have hi : ¬ i < c.m_result.length := by omega
    simp [applyFrom, hi, h0]
  | succ f ih =>
    by_cases hi : i < c.m_result.length
    · have hk : c.m_result.length - i = (c.m_result.length - (i + 1)) + 1 := by omega
      simp only [applyFrom, if_pos hi]
      rw [hk, foldlM_range'_cons, applyStepOn_eq]
      cases applyStep c s i with
      | none => rfl
      | some s1 =>
        simp only [Option.map_some', Option.some_bind]
        exact ih (i + 1) s1 (by omega)
    · have h0 : c.m_result.length - i = 0 := by omega
      simp [applyFrom, hi, h0]

theorem ApplyOn_eq (c : SkeletalAnimClip V Q) (s : Skeleton V Q) :
    ApplyOn c s = (Apply c s).map (fun s1 => (c, s1)) := by
  unfold ApplyOn Apply
  rw [applyFrom_eq c _ 0 s (by omega), List.range_eq_range']
  rfl

/-! ## Frame properties of `Apply` (C11) -/

theorem SameBase_refl (s : Skeleton V Q) : SameBase s s :=
  ⟨rfl, fun _ => ⟨rfl, rfl⟩⟩

theorem SameBase_trans {s s1 s2 : Skeleton V Q} (h1 : SameBase s s1) (h2 : SameBase s1 s2) :
    SameBase s s2 :=
  ⟨h2.1.trans h1.1, fun i => ⟨(h2.2 i).1.trans (h1.2 i).1, (h2.2 i).2.trans (h1.2 i).2⟩⟩

theorem applyStep_frame {c : SkeletalAnimClip V Q} {s s1 : Skeleton V Q} {i : Nat}
    (h : applyStep c s i = some s1) : SameBase s s1 := by
  unfold applyStep at h
  cases hj : s.m_joints[i]? with
  | none => simp [hj] at h
  | some joint =>
    cases hr : c.m_result[i]? with
    | none => simp [hj, hr] at h
    | some r =>
      simp only [hj, hr, Option.some.injEq] at h
      subst h
      refine ⟨by simp, ?_⟩
      intro k
      simp only [List.getElem?_set]
      by_cases hik : i = k
      · subst hik
        have hi : i < s.m_joints.length := by
          by_contra hcon
          rw [List.getElem?_eq_none (by omega)] at hj
          cases hj
        simp [hi, hj, copyPose]
      · simp [hik]

theorem applyLoop_frame {c : SkeletalAnimClip V Q} (n : Nat) {s s1 : Skeleton V Q}
    (h : (List.range n).foldlM (applyStep c) s = some s1) : SameBase s s1 := by
  induction n generalizing s1 with
  | zero =>
    simp at h
    subst h
    exact SameBase_refl s
  | succ n ih =>
    rw [foldlM_range_succ] at h
    cases h1 : (List.range n).foldlM (applyStep c) s with
    | none => simp [h1] at h
    | some s2 =>
      simp only [h1, Option.some_bind] at h
      exact SameBase_trans (ih h1) (applyStep_frame h)

theorem Apply_frame {c : SkeletalAnimClip V Q} {s s1 : Skeleton V Q}
    (h : Apply c s = some s1) : SameBase s s1 :=
  applyLoop_frame _ h

theorem ApplyOn_some {c c1 : SkeletalAnimClip V Q} {s s1 : Skeleton V Q}
    (h : ApplyOn c s = some (c1, s1)) : c1 = c ∧ Apply c s = some s1 := by
  rw [ApplyOn_eq] at h
  cases ha : Apply c s with
  | none => simp [ha] at h
  | some s2 =>
    simp only [ha, Option.map_some', Option.some.injEq, Prod.mk.injEq] at h
    exact ⟨h.1.symm, by rw [h.2]⟩

/-- C11. `Apply` leaves the player unchanged: run on the pair of the player and
the skeleton, `Apply` returns the player it was given (timer, cursors and pose
buffer included) next to the skeleton computed by `Apply`; in that skeleton the
joint count and every base position and base rotation are as before, so the
current joint poses are the only state written. -/
theorem Apply_leaves_player_unchanged (c : SkeletalAnimClip V Q) (s : Skeleton V Q) :
    ApplyOn c s = (Apply c s).map (fun s1 => (c, s1)) ∧
    ∀ c1 s1, ApplyOn c s = some (c1, s1) →
      c1.m_timer = c.m_timer ∧ c1.m_rotFrame = c.m_rotFrame ∧ c1.m_result = c.m_result ∧
      c1 = c ∧ SameBase s s1 := by
  refine ⟨ApplyOn_eq c s, ?_⟩
  intro c1 s1 h
  obtain ⟨hc, ha⟩ := ApplyOn_some h
  subst hc
  exact ⟨rfl, rfl, rfl, rfl, Apply_frame ha⟩

/-! ## Sessions: base pose and buffer sizes (C12, C14) -/

theorem runOp_invariant {mix : Q → Q → ℚ → Q} {d : JointPose V Q}
    {st st1 : SkeletalAnimClip V Q × Skeleton V Q} {op : PlayerOp V Q}
    (h : runOp mix d st op = some st1)
    (h1 : st.1.m_result.length = st.2.m_joints.length)
    (h2 : st.1.m_rotFrame.length = st.1.m_anim.data.length) :
    SameBase st.2 st1.2 ∧ st1.1.m_result.length = st1.2.m_joints.length ∧
      st1.1.m_rotFrame.length = st1.1.m_anim.data.length := by
  cases op with
  | construct anim =>
    simp only [runOp, construct_eq_create, Option.map_some', Option.some.injEq] at h
    subst h
    exact ⟨SameBase_refl _, by simp [SkeletalAnimClip.create], by simp [SkeletalAnimClip.create]⟩
  | update dt =>
    simp only [runOp] at h
    cases hU : Update mix st.1 dt with
    | none => simp [hU] at h
    | some c1 =>
      simp only [hU, Option.map_some', Option.some.injEq] at h
      subst h
      obtain ⟨ha, -, -, hr, hf⟩ := Update_frame hU
      exact ⟨SameBase_refl _, by simp only; omega, by simp only; rw [hf, ha]; exact h2⟩
  | apply =>
    simp only [runOp] at h
    obtain ⟨c1, s1⟩ := st1
    obtain ⟨hc, ha⟩ := ApplyOn_some h
    subst hc
    have hb := Apply_frame ha
    exact ⟨hb, by simp only; rw [hb.1]; exact h1, h2⟩

theorem runOps_invariant {mix : Q → Q → ℚ → Q} {d : JointPose V Q} (ops : List (PlayerOp V Q))
    {st st1 : SkeletalAnimClip V Q × Skeleton V Q}
    (h : ops.foldlM (runOp mix d) st = some st1)
    (h1 : st.1.m_result.length = st.2.m_joints.length)
    (h2 : st.1.m_rotFrame.length = st.1.m_anim.data.length) :
    SameBase st.2 st1.2 ∧ st1.1.m_result.length = st1.2.m_joints.length ∧
      st1.1.m_rotFrame.length = st1.1.m_anim.data.length := by
  induction ops generalizing st with
  | nil =>
    simp at h
    subst h
    exact ⟨SameBase_refl _, h1, h2⟩
  | cons op ops ih =>
    simp only [List.foldlM] at h
    cases ho : runOp mix d st op with
    | none => simp [ho] at h
    | some st2 =>
      simp only [ho, Option.bind_eq_bind, Option.some_bind] at h
      obtain ⟨hb, h3, h4⟩ := runOp_invariant ho h1 h2
      obtain ⟨hb2, h5, h6⟩ := ih h h3 h4
      exact ⟨SameBase_trans hb hb2, h5, h6⟩

theorem session_invariant {mix : Q → Q → ℚ → Q} {d : JointPose V Q} {anim : SkeletalAnim V Q}
    {skeleton : Skeleton V Q} {ops : List (PlayerOp V Q)}
    {st : SkeletalAnimClip V Q × Skeleton V Q}
    (h : session mix d anim skeleton ops = some st) :
    SameBase skeleton st.2 ∧ st.1.m_result.length = st.2.m_joints.length ∧
      st.1.m_rotFrame.length = st.1.m_anim.data.length := by
  unfold session at h
  rw [construct_eq_create] at h
  exact runOps_invariant ops h (by simp [SkeletalAnimClip.create])
    (by simp [SkeletalAnimClip.create])

theorem exampleSession_run :
    session lerp ⟨0, 1⟩ exampleAnim exampleSkeleton exampleOps = some exampleSessionEnd := by
  unfold session
  rw [construct_eq_create]
  have hU : Update lerp (SkeletalAnimClip.create exampleAnim exampleSkeleton) (1/2) =
      some ⟨exampleAnim, 1/2, [0], [0], [⟨10, lerp 0 1 (1/2)⟩, ⟨11, 21⟩]⟩ :=
    scn1 lerp 0 1 0 ⟨10, 20, 30, 40⟩ [⟨11, 21, 31, 41⟩]
  have hA : Apply (⟨exampleAnim, 1/2, [0], [0], [⟨10, lerp 0 1 (1/2)⟩, ⟨11, 21⟩]⟩ :
      SkeletalAnimClip ℚ ℚ) exampleSkeleton = some exampleSessionEnd.2 := by
    simp [Apply, applyStep, copyPose, exampleSkeleton, exampleSessionEnd, List.range,
      List.range.loop, List.foldlM]
  simp only [exampleOps, List.foldlM, runOp, hU, Option.map_some', Option.bind_eq_bind,
    Option.some_bind, ApplyOn_eq, hA]
  rfl

/-- C12. The base pose is never mutated: after a session (construction of a
player on the skeleton, then any sequence of constructor, `Update` and `Apply`
calls that is defined) the skeleton has the joint count it started with and
every joint has its base position and base rotation unchanged; the only writes
are those of `Apply` to current positions and rotations. -/
theorem base_pose_never_mutated (mix : Q → Q → ℚ → Q) (d : JointPose V Q)
    (anim : SkeletalAnim V Q) (skeleton : Skeleton V Q) (ops : List (PlayerOp V Q))
    (c1 : SkeletalAnimClip V Q) (s1 : Skeleton V Q)
    (h : session mix d anim skeleton ops = some (c1, s1)) :
    s1.m_joints.length = skeleton.m_joints.length ∧
    ∀ i : Nat,
      (s1.m_joints[i]?).map (fun j => j.m_basePos) =
        (skeleton.m_joints[i]?).map (fun j => j.m_basePos) ∧
      (s1.m_joints[i]?).map (fun j => j.m_baseRotation) =
        (skeleton.m_joints[i]?).map (fun j => j.m_baseRotation) :=
  (session_invariant h).1

theorem base_pose_never_mutated_witness :
    session lerp ⟨0, 1⟩ exampleAnim exampleSkeleton exampleOps = some exampleSessionEnd ∧
    exampleSessionEnd.2.m_joints.length = exampleSkeleton.m_joints.length ∧
    ∀ i : Nat,
      (exampleSessionEnd.2.m_joints[i]?).map (fun j => j.m_basePos) =
        (exampleSkeleton.m_joints[i]?).map (fun j => j.m_basePos) ∧
      (exampleSessionEnd.2.m_joints[i]?).map (fun j => j.m_baseRotation) =
        (exampleSkeleton.m_joints[i]?).map (fun j => j.m_baseRotation) :=
  ⟨exampleSession_run,
    base_pose_never_mutated lerp ⟨0, 1⟩ exampleAnim exampleSkeleton exampleOps
      exampleSessionEnd.1 exampleSessionEnd.2 exampleSession_run⟩

/-- C14. Pose buffer size invariant: at the end of every defined session the
pose buffer has as many entries as the skeleton had joints at construction and
the player has one rotation cursor per track of its clip; a further `Update`
or `Apply` leaves both lengths unchanged. -/
theorem pose_buffer_size_invariant (mix : Q → Q → ℚ → Q) (d : JointPose V Q)
    (anim : SkeletalAnim V Q) (skeleton : Skeleton V Q) (ops : List (PlayerOp V Q))
    (c1 : SkeletalAnimClip V Q) (s1 : Skeleton V Q)
    (h : session mix d anim skeleton ops = some (c1, s1)) :
    c1.m_result.length = skeleton.m_joints.length ∧
    c1.m_rotFrame.length = c1.m_anim.data.length ∧
    (∀ dt c2, Update mix c1 dt = some c2 →
      c2.m_result.length = c1.m_result.length ∧ c2.m_rotFrame.length = c1.m_rotFrame.length) ∧
    (∀ c2 s2, ApplyOn c1 s1 = some (c2, s2) →
      c2.m_result.length = c1.m_result.length ∧ c2.m_rotFrame.length = c1.m_rotFrame.length) := by
  obtain ⟨hb, h1, h2⟩ := session_invariant h
  refine ⟨by rw [h1]; exact hb.1, h2, ?_, ?_⟩
  · intro dt c2 hU
    obtain ⟨-, -, -, hr, hf⟩ := Update_frame hU
    exact ⟨hr, hf⟩
  · intro c2 s2 hA
    obtain ⟨hc, -⟩ := ApplyOn_some hA
    subst hc
    exact ⟨rfl, rfl⟩

theorem pose_buffer_size_invariant_witness :
    session lerp ⟨0, 1⟩ exampleAnim exampleSkeleton exampleOps = some exampleSessionEnd ∧
    exampleSessionEnd.1.m_result.length = exampleSkeleton.m_joints.length ∧
    exampleSessionEnd.1.m_rotFrame.length = exampleSessionEnd.1.m_anim.data.length ∧
    (∀ dt c2, Update lerp exampleSessionEnd.1 dt = some c2 →
      c2.m_result.length = exampleSessionEnd.1.m_result.length ∧
      c2.m_rotFrame.length = exampleSessionEnd.1.m_rotFrame.length) ∧
    (∀ c2 s2, ApplyOn exampleSessionEnd.1 exampleSessionEnd.2 = some (c2, s2) →
      c2.m_result.length = exampleSessionEnd.1.m_result.length ∧
      c2.m_rotFrame.length = exampleSessionEnd.1.m_rotFrame.length) :=
  ⟨exampleSession_run,
    pose_buffer_size_invariant lerp ⟨0, 1⟩ exampleAnim exampleSkeleton exampleOps
      exampleSessionEnd.1 exampleSessionEnd.2 exampleSession_run⟩

/-! ## Unanimated joints (C13) and the last position writer -/

/-- C13. Unanimated joints keep the bind pose: if no track of the clip has
joint index `j`, then after any defined run of `Update` calls from a fresh
player, buffer entry `j` is the base position and base rotation of joint `j`. -/
theorem unanimated_joint_keeps_bind_pose (mix : Q → Q → ℚ → Q) (anim : SkeletalAnim V Q)
    (skeleton : Skeleton V Q) (j : Nat) (dts : List ℚ) (c : SkeletalAnimClip V Q)
    (hj : ∀ (i : Nat) (a : JointAnim V Q), anim.data[i]? = some a → a.jointInd ≠ j)
    (h : updates mix (SkeletalAnimClip.create anim skeleton) dts = some c) :
    c.m_result[j]? =
      (skeleton.m_joints[j]?).map (fun x => ⟨x.m_basePos, x.m_baseRotation⟩) := by
  have hinv := Inv_updates dts (Inv_create anim skeleton) h
  have hp := Inv_pos_untargeted hinv (j := j) (by
    rintro ⟨i, a, -, ha, hja, -⟩
    exact hj i a ha hja)
  have hr := Inv_rot_untargeted hinv (j := j) (by
    rintro ⟨i, a, -, ha, hja, -⟩
    exact hj i a ha hja)
  cases hc : c.m_result[j]? with
  | none =>
    rw [hc] at hp
    cases hs : skeleton.m_joints[j]? with
    | none => rfl
    | some x => simp [hs] at hp
  | some p =>
    rw [hc] at hp hr
    cases hs : skeleton.m_joints[j]? with
    | none => simp [hs] at hp
    | some x =>
      simp only [hs, Option.map_some', Option.some.injEq] at hp hr ⊢
      cases p
      simp only at hp hr
      rw [hp, hr]

theorem unanimated_joint_keeps_bind_pose_witness :
    (∀ (i : Nat) (a : JointAnim ℚ ℚ), exampleAnim.data[i]? = some a → a.jointInd ≠ 1) ∧
    updates lerp (SkeletalAnimClip.create exampleAnim exampleSkeleton) [1/2, 6/10] =
      some examplePlayer ∧
    examplePlayer.m_result[1]? =
      (exampleSkeleton.m_joints[1]?).map (fun x => ⟨x.m_basePos, x.m_baseRotation⟩) := by
  have hj : ∀ (i : Nat) (a : JointAnim ℚ ℚ), exampleAnim.data[i]? = some a →
      a.jointInd ≠ 1 := by
    intro i a ha
    have hi : i < exampleAnim.data.length := by
      by_contra hcon
      rw [List.getElem?_eq_none (by omega)] at ha
      cases ha
    have h0 : i = 0 := by
      simp [exampleAnim, scenarioAnim] at hi
      exact hi
    subst h0
    simp [exampleAnim, scenarioAnim, scenarioTrack] at ha
    subst ha
    simp
  exact ⟨hj, examplePlayer_reached,
    unanimated_joint_keeps_bind_pose lerp exampleAnim exampleSkeleton 1 [1/2, 6/10]
      examplePlayer hj examplePlayer_reached⟩

theorem posW_value {a : JointAnim V Q} {pw : Option V} (h : posW a = some pw) :
    pw = if 0 < a.posFrames then a.posKeys[0]? else none := by
  unfold posW at h
  split at h
  · rename_i hp
    cases hk : a.posKeys[0]? with
    | none => simp [hk] at h
    | some k =>
      simp [hk] at h
      subst h
      simp [show 0 < a.posFrames from hp]
  · rename_i hp
    simp at h
    subst h
    simp [show ¬ 0 < a.posFrames from hp]

theorem loopW_lastPos {mix : Q → Q → ℚ → Q} {anim : SkeletalAnim V Q} {timer : ℚ} {L : Nat}
    {rf : List Nat} (n : Nat) {s : List Nat × (Nat → Option V) × (Nat → Option Q)}
    (h : loopW mix anim timer L n rf = some s) {i : Nat} {a : JointAnim V Q} (hi : i < n)
    (ha : anim.data[i]? = some a) (hpos : 0 < a.posFrames)
    (hlast : ∀ i' b, i < i' → i' < n → anim.data[i']? = some b → b.jointInd = a.jointInd →
      b.posFrames = 0) :
    s.2.1 a.jointInd = a.posKeys[0]? ∧ (s.2.1 a.jointInd).isSome = true := by
  induction n generalizing s with
  | zero => omega
  | succ n ih =>
    rw [loopW_succ] at h
    cases h1 : loopW mix anim timer L n rf with
    | none => simp [h1] at h
    | some s1 =>
      simp only [h1, Option.some_bind] at h
      obtain ⟨b, pw, rw, hb, -, hpw, -, hwp, -⟩ := stepW_spec h
      have hps := posW_isSome hpw
      have hv := posW_value hpw
      rw [hwp]
      simp only
      by_cases hin : i = n
      · subst hin
        rw [ha] at hb
        cases hb
        have hsome : pw.isSome = true := hps.2 hpos
        rw [if_pos rfl]
        rw [if_pos hpos] at hv
        cases hpw' : pw with
        | none => simp [hpw'] at hsome
        | some k =>
          rw [← hv, hpw']
          simp
      · have ih' := ih h1 (by omega) (fun i' b' h1' h2' => hlast i' b' h1' (by omega))
        by_cases hj : a.jointInd = b.jointInd
        · have hb0 : b.posFrames = 0 := hlast n b (by omega) (by omega) hb hj.symm
          have hnone : pw = none := by
            rw [hv, if_neg (by omega)]
          rw [if_pos hj, hnone]
          simpa using ih'
        · rw [if_neg hj]
          exact ih'

/-- After a defined `Update`, the position of the joint of track `i` is the
first position key of that track, if no later track writes a position to the
same joint. -/
theorem Update_lastPos {mix : Q → Q → ℚ → Q} {c c' : SkeletalAnimClip V Q} {dt : ℚ}
    (h : Update mix c dt = some c') {i : Nat} {a : JointAnim V Q}
    (ha : c.m_anim.data[i]? = some a) (hpos : 0 < a.posFrames)
    (hlast : ∀ i' b, i < i' → c.m_anim.data[i']? = some b → b.jointInd = a.jointInd →
      b.posFrames = 0) :
    (c'.m_result[a.jointInd]?).map (fun p => p.pos) = a.posKeys[0]? ∧
      (a.posKeys[0]?).isSome = true := by
  obtain ⟨s, hl, hc'⟩ := Update_some h
  have hi : i < c.m_anim.data.length := by
    by_contra hcon
    rw [List.getElem?_eq_none (by omega)] at ha
    cases ha
  obtain ⟨hv, hsome⟩ := loopW_lastPos _ hl hi ha hpos (fun i' b h1 _ => hlast i' b h1)
  have hj := loopW_joint_lt _ hl hi ha
  subst hc'
  simp only [overlay_getElem?, List.getElem?_eq_getElem hj, Option.map_some']
  rw [← hv]
  cases hr : s.2.1 a.jointInd with
  | none => simp [hr] at hsome
  | some r => simp

/-! ## Static position (C15) -/

theorem scanRot_stripPos (timer : ℚ) (a : JointAnim V Q) (fuel cur : Nat) :
    scanRot timer (stripPos a) fuel cur = scanRot timer a fuel cur := by
  induction fuel generalizing cur with
  | zero => rfl
  | succ f ih =>
    simp only [scanRot]
    show (match a.rotTimes[cur + 1]? with
      | none => none
      | some tn =>
        if timer > tn ∧ cur + 1 < a.rotFrames - 1 then scanRot timer (stripPos a) f (cur + 1)
        else some cur) = _
    rw [ih]

theorem posW_stripPos (a : JointAnim V Q) : posW (stripPos a) = posW a := by
  unfold posW stripPos
  simp only
  cases a.posKeys <;> simp

theorem rotW_stripPos (mix : Q → Q → ℚ → Q) (timer : ℚ) (a : JointAnim V Q) (i : Nat)
    (rf : List Nat) : rotW mix timer (stripPos a) i rf = rotW mix timer a i rf := by
  unfold rotW
  simp only [scanRot_stripPos]
  rfl

theorem stepW_stripPos (mix : Q → Q → ℚ → Q) (anim : SkeletalAnim V Q) (timer : ℚ) (L : Nat)
    (s : List Nat × (Nat → Option V) × (Nat → Option Q)) (i : Nat) :
    stepW mix (stripPosAnim anim) timer L s i = stepW mix anim timer L s i := by
  unfold stepW stripPosAnim
  simp only [List.getElem?_map]
  cases anim.data[i]? with
  | none => rfl
  | some a =>
    simp only [Option.map_some', posW_stripPos, rotW_stripPos]
    rfl

theorem loopW_stripPos (mix : Q → Q → ℚ → Q) (anim : SkeletalAnim V Q) (timer : ℚ) (L n : Nat)
    (rf : List Nat) :
    loopW mix (stripPosAnim anim) timer L n rf = loopW mix anim timer L n rf := by
  unfold loopW
  have : stepW mix (stripPosAnim anim) timer L = stepW mix anim timer L := by
    funext s i
    exact stepW_stripPos mix anim timer L s i
  rw [this]

theorem Update_stripPos (mix : Q → Q → ℚ → Q) (c : SkeletalAnimClip V Q) (dt : ℚ) :
    Update mix { c with m_anim := stripPosAnim c.m_anim } dt =
      (Update mix c dt).map (fun c2 => { c2 with m_anim := stripPosAnim c2.m_anim }) := by
  have hadv : advanceTimer { c with m_anim := stripPosAnim c.m_anim } dt =
      { advanceTimer c dt with m_anim := stripPosAnim c.m_anim } := by
    unfold advanceTimer
    simp only [stripPosAnim]
    split <;> rfl
  rw [Update_eq, Update_eq, hadv]
  simp only [loopW_stripPos]
  have hN : (stripPosAnim c.m_anim).data.length = c.m_anim.data.length := by
    simp [stripPosAnim]
  rw [hN]
  cases loopW mix c.m_anim (advanceTimer c dt).m_timer c.m_result.length c.m_anim.data.length
      (advanceTimer c dt).m_rotFrame with
  | none => rfl
  | some s => rfl

theorem posAnim_run :
    Update lerp (SkeletalAnimClip.create posAnim exampleSkeleton) (1/2) =
      some ⟨posAnim, 1/2, [0], [0], [⟨5, 20⟩, ⟨11, 21⟩]⟩ := by
  unfold Update
  rw [advanceTimer_noWrap (by norm_num [SkeletalAnimClip.create, posAnim])]
  show tracksLoop lerp 1 ⟨posAnim, 0 + 1/2, [0], [0], [⟨10, 20⟩, ⟨11, 21⟩]⟩ = _
  rw [zero_add, tracksLoop_one]
  simp [trackStep, trackPos, trackRot, posAnim]

/-- C15. Static position: after a defined `Update` from any state (so at any
elapsed time), for a track with at least one position key and no later track
targeting the same joint `j`, the position in buffer entry `j` is the track's
position key at index 0, however many position keys follow; and `Update` on
the clip stripped of every position key time and of every position key of
index ≥ 1 gives the same timer, cursors and pose buffer. -/
theorem static_position (mix : Q → Q → ℚ → Q) (c c1 : SkeletalAnimClip V Q) (dt : ℚ)
    (i : Nat) (a : JointAnim V Q)
    (hU : Update mix c dt = some c1) (ha : c.m_anim.data[i]? = some a)
    (hpos : 0 < a.posFrames)
    (hlast : ∀ (k : Nat) (b : JointAnim V Q), i < k → c.m_anim.data[k]? = some b →
      b.jointInd ≠ a.jointInd) :
    (c1.m_result[a.jointInd]?).map (fun p => p.pos) = a.posKeys[0]? ∧
    (a.posKeys[0]?).isSome = true ∧
    Update mix { c with m_anim := stripPosAnim c.m_anim } dt =
      (Update mix c dt).map (fun c2 => { c2 with m_anim := stripPosAnim c2.m_anim }) := by
  obtain ⟨h1, h2⟩ := Update_lastPos hU ha hpos
    (fun k b hk hb hj => absurd hj (hlast k b hk hb))
  exact ⟨h1, h2, Update_stripPos mix c dt⟩

theorem static_position_witness :
    Update lerp (SkeletalAnimClip.create posAnim exampleSkeleton) (1/2) =
      some ⟨posAnim, 1/2, [0], [0], [⟨5, 20⟩, ⟨11, 21⟩]⟩ ∧
    posAnim.data[0]? = some ⟨0, 0, 2, [5, 6], [0, 1], [], []⟩ ∧
    0 < (⟨0, 0, 2, [5, 6], [0, 1], [], []⟩ : JointAnim ℚ ℚ).posFrames ∧
    (([⟨5, 20⟩, ⟨11, 21⟩] : List (JointPose ℚ ℚ))[0]?).map (fun p => p.pos) = some 5 ∧
    Update lerp { SkeletalAnimClip.create posAnim exampleSkeleton with
        m_anim := stripPosAnim posAnim } (1/2) =
      (Update lerp (SkeletalAnimClip.create posAnim exampleSkeleton) (1/2)).map
        (fun c2 => { c2 with m_anim := stripPosAnim c2.m_anim }) := by
  have hlast : ∀ (k : Nat) (b : JointAnim ℚ ℚ), 0 < k →
      (SkeletalAnimClip.create posAnim exampleSkeleton).m_anim.data[k]? = some b →
      b.jointInd ≠ (⟨0, 0, 2, [5, 6], [0, 1], [], []⟩ : JointAnim ℚ ℚ).jointInd := by
    intro k b hk hb
    have hlt : k < posAnim.data.length := by
      by_contra hcon
      rw [show (SkeletalAnimClip.create posAnim exampleSkeleton).m_anim = posAnim from rfl,
        List.getElem?_eq_none (by omega)] at hb
      cases hb
    simp [posAnim] at hlt
    omega
  have key := static_position lerp (SkeletalAnimClip.create posAnim exampleSkeleton)
    ⟨posAnim, 1/2, [0], [0], [⟨5, 20⟩, ⟨11, 21⟩]⟩ (1/2) 0 ⟨0, 0, 2, [5, 6], [0, 1], [], []⟩
    posAnim_run rfl (by decide) hlast
  exact ⟨posAnim_run, rfl, by decide, key.1, key.2.2⟩

/-! ## Tracks with two or more rotation keys -/

theorem examplePlayer_step :
    Update lerp examplePlayerHalf (6/10) = some examplePlayer :=
  scn2 lerp 0 1 0 ⟨10, lerp 0 1 (1/2)⟩ [⟨11, 21⟩]

theorem exampleAnim_only_track (k : Nat) (b : JointAnim ℚ ℚ) (hk : 0 < k)
    (hb : exampleAnim.data[k]? = some b) : False := by
  have hlt : k < exampleAnim.data.length := by
    by_contra hcon
    rw [List.getElem?_eq_none (by omega)] at hb
    cases hb
  simp [exampleAnim, scenarioAnim] at hlt
  omega

theorem rotBlend_some {mix : Q → Q → ℚ → Q} {timer : ℚ} {a : JointAnim V Q} {cur : Nat} {r : Q}
    (h : rotBlend mix timer a cur = some r) :
    ∃ tc tn kc kn, a.rotTimes[cur]? = some tc ∧ a.rotTimes[cur + 1]? = some tn ∧
      a.rotKeys[cur]? = some kc ∧ a.rotKeys[cur + 1]? = some kn ∧
      r = mix kc kn ((timer - tc) / (tn - tc)) := by
  unfold rotBlend at h
  cases h1 : a.rotTimes[cur]? with
  | none => simp [h1] at h
  | some tc =>
    cases h2 : a.rotTimes[cur + 1]? with
    | none => simp [h1, h2] at h
    | some tn =>
      cases h3 : a.rotKeys[cur]? with
      | none => simp [h1, h2, h3] at h
      | some kc =>
        cases h4 : a.rotKeys[cur + 1]? with
        | none => simp [h1, h2, h3, h4] at h
        | some kn =>
          simp only [h1, h2, h3, h4, Option.some.injEq] at h
          exact ⟨tc, tn, kc, kn, rfl, rfl, rfl, rfl, h.symm⟩

theorem loopW_prefix {mix : Q → Q → ℚ → Q} {anim : SkeletalAnim V Q} {timer : ℚ} {L : Nat}
    {rf : List Nat} {n : Nat} {s : List Nat × (Nat → Option V) × (Nat → Option Q)}
    (h : loopW mix anim timer L n rf = some s) {m : Nat} (hm : m ≤ n) :
    ∃ s1, loopW mix anim timer L m rf = some s1 := by
  induction n generalizing s with
  | zero =>
    have : m = 0 := by omega
    subst this
    exact ⟨s, h⟩
  | succ n ih =>
    by_cases hmn : m = n + 1
    · subst hmn
      exact ⟨s, h⟩
    · rw [loopW_succ] at h
      cases h1 : loopW mix anim timer L n rf with
      | none => simp [h1] at h
      | some s1 => exact ih h1 (by omega)

/-- A defined `Update` on a track with two or more rotation keys: the cursor
found, the scan result and the blend. -/
theorem Update_rotMany {mix : Q → Q → ℚ → Q} {c c' : SkeletalAnimClip V Q} {dt : ℚ}
    (h : Update mix c dt = some c') {i : Nat} {a : JointAnim V Q}
    (ha : c.m_anim.data[i]? = some a) (hn : 2 ≤ a.rotFrames) :
    ∃ c0 cur r, (advanceTimer c dt).m_rotFrame[i]? = some c0 ∧
      scanRot c'.m_timer a a.rotFrames c0 = some cur ∧
      rotBlend mix c'.m_timer a cur = some r ∧ c'.m_rotFrame[i]? = some cur ∧
      rotValue mix (advanceTimer c dt).m_timer a (advanceTimer c dt).m_rotFrame[i]? = some r := by
  obtain ⟨s, hl, hc'⟩ := Update_some h
  have hi : i < c.m_anim.data.length := by
    by_contra hcon
    rw [List.getElem?_eq_none (by omega)] at ha
    cases ha
  have ht : c'.m_timer = (advanceTimer c dt).m_timer := (Update_frame h).2.1
  have hcur := Update_cursor h ha
  obtain ⟨s1, hl1⟩ := loopW_prefix hl (show i + 1 ≤ c.m_anim.data.length by omega)
  obtain ⟨hv, hsome⟩ := loopW_lastRot (i + 1) hl1 (Nat.lt_succ_self i)
    ha (by omega) (fun i' b h1 h2 => by omega)
  rw [hv] at hsome
  rw [ht]
  unfold curValue at hcur
  rw [if_pos (by omega)] at hcur
  cases hr : rotValue mix (advanceTimer c dt).m_timer a (advanceTimer c dt).m_rotFrame[i]? with
  | none => simp [hr] at hsome
  | some r =>
    have hr2 := hr
    unfold rotValue at hr2
    rw [if_neg (by omega), if_pos (by omega)] at hr2
    cases h0 : (advanceTimer c dt).m_rotFrame[i]? with
    | none => simp [h0] at hr2
    | some c0 =>
      rw [h0] at hr2 hcur
      simp only [Option.some_bind] at hr2 hcur
      cases hs : scanRot (advanceTimer c dt).m_timer a a.rotFrames c0 with
      | none => simp [hs] at hr2
      | some cur =>
        rw [hs] at hr2 hcur
        simp only [Option.some_bind] at hr2
        exact ⟨c0, cur, r, rfl, hs, hr2, hcur, rfl⟩

/-! ## Interpolation formula and segment selection (C19, C20) -/

/-- What the scan returns: it stops at `cur`, and it advanced past every index
from the start up to `cur`. -/
theorem scanRot_spec {timer : ℚ} {a : JointAnim V Q} (fuel : Nat) {c0 cur : Nat}
    (h : scanRot timer a fuel c0 = some cur) :
    c0 ≤ cur ∧
    (∃ tn, a.rotTimes[cur + 1]? = some tn ∧ ¬ (timer > tn ∧ cur + 1 < a.rotFrames - 1)) ∧
    ∀ k, c0 ≤ k → k < cur →
      ∃ tk, a.rotTimes[k + 1]? = some tk ∧ tk < timer ∧ k + 1 < a.rotFrames - 1 := by
  induction fuel generalizing c0 with
  | zero =>
    cases ht : a.rotTimes[c0 + 1]? with
    | none => simp [scanRot, ht] at h
    | some tn =>
      simp only [scanRot, ht] at h
      split at h
      · cases h
      · rename_i hc
        cases h
        exact ⟨Nat.le_refl _, ⟨tn, ht, hc⟩, fun k h1 h2 => by omega⟩
  | succ f ih =>
    cases ht : a.rotTimes[c0 + 1]? with
    | none => simp [scanRot, ht] at h
    | some tn =>
      simp only [scanRot, ht] at h
      split at h
      · rename_i hc
        obtain ⟨h1, h2, h3⟩ := ih h
        refine ⟨by omega, h2, ?_⟩
        intro k hk1 hk2
        by_cases hk : k = c0
        · subst hk
          exact ⟨tn, ht, hc.1, hc.2⟩
        · exact h3 k (by omega) hk2
      · rename_i hc
        cases h
        exact ⟨Nat.le_refl _, ⟨tn, ht, hc⟩, fun k h1 h2 => by omega⟩

theorem scanRot_bound {timer : ℚ} {a : JointAnim V Q} (fuel : Nat) {c0 cur : Nat}
    (h : scanRot timer a fuel c0 = some cur) (hc0 : c0 + 1 < a.rotFrames) :
    cur + 1 < a.rotFrames := by
  obtain ⟨h1, -, h3⟩ := scanRot_spec fuel h
  by_cases hk : cur = c0
  · omega
  · obtain ⟨tk, -, -, hlt⟩ := h3 (cur - 1) (by omega) (by omega)
    omega

/-- C19. Interpolation formula: after a defined `Update`, for a track `i` with
two or more rotation keys and no later track targeting the same joint `j`, the
track's cursor `cur` after the update indexes two key times `tc`, `tn` and two
keys `kc`, `kn`, and the rotation in buffer entry `j` is
`mix kc kn ((e - tc) / (tn - tc))` with `e` the timer after the update. -/
theorem interpolation_formula (mix : Q → Q → ℚ → Q) (c c1 : SkeletalAnimClip V Q) (dt : ℚ)
    (i : Nat) (a : JointAnim V Q)
    (hU : Update mix c dt = some c1) (ha : c.m_anim.data[i]? = some a)
    (hn : 2 ≤ a.rotFrames)
    (hlast : ∀ (k : Nat) (b : JointAnim V Q), i < k → c.m_anim.data[k]? = some b →
      b.jointInd ≠ a.jointInd) :
    ∃ cur tc tn kc kn, c1.m_rotFrame[i]? = some cur ∧
      a.rotTimes[cur]? = some tc ∧ a.rotTimes[cur + 1]? = some tn ∧
      a.rotKeys[cur]? = some kc ∧ a.rotKeys[cur + 1]? = some kn ∧
      (c1.m_result[a.jointInd]?).map (fun p => p.rotation) =
        some (mix kc kn ((c1.m_timer - tc) / (tn - tc))) := by
  obtain ⟨c0, cur, r, -, -, hb, hcur, hval⟩ := Update_rotMany hU ha hn
  obtain ⟨tc, tn, kc, kn, h1, h2, h3, h4, hr⟩ := rotBlend_some hb
  obtain ⟨hv, -, -⟩ := Update_lastRot hU ha (by omega)
    (fun k b hk hb hj => absurd hj (hlast k b hk hb))
  refine ⟨cur, tc, tn, kc, kn, hcur, h1, h2, h3, h4, ?_⟩
  rw [hv, hval, hr]

theorem interpolation_formula_witness :
    Update lerp examplePlayerHalf (6/10) = some examplePlayer ∧
    examplePlayerHalf.m_anim.data[0]? = some (scenarioTrack 0 1 0) ∧
    2 ≤ (scenarioTrack 0 1 0 : JointAnim ℚ ℚ).rotFrames ∧
    ∃ cur tc tn kc kn, examplePlayer.m_rotFrame[0]? = some cur ∧
      (scenarioTrack 0 1 0 : JointAnim ℚ ℚ).rotTimes[cur]? = some tc ∧
      (scenarioTrack 0 1 0 : JointAnim ℚ ℚ).rotTimes[cur + 1]? = some tn ∧
      (scenarioTrack 0 1 0 : JointAnim ℚ ℚ).rotKeys[cur]? = some kc ∧
      (scenarioTrack 0 1 0 : JointAnim ℚ ℚ).rotKeys[cur + 1]? = some kn ∧
      (examplePlayer.m_result[(scenarioTrack 0 1 0 : JointAnim ℚ ℚ).jointInd]?).map
          (fun p => p.rotation) =
        some (lerp kc kn ((examplePlayer.m_timer - tc) / (tn - tc))) :=
  ⟨examplePlayer_step, rfl, by decide,
    interpolation_formula lerp examplePlayerHalf examplePlayer (6/10) 0 (scenarioTrack 0 1 0)
      examplePlayer_step rfl (by decide)
      (fun k b hk hb => (exampleAnim_only_track k b hk hb).elim)⟩

theorem scanRot_past_end {a : JointAnim V Q} {L e : ℚ}
    (hlt : a.rotTimes.length = a.rotFrames) (hmono : a.rotTimes.Pairwise (· < ·))
    (hL : a.rotTimes[a.rotFrames - 1]? = some L) (he : L < e) (fuel : Nat) {c0 : Nat}
    (hc0 : c0 + 1 < a.rotFrames) (hfuel : a.rotFrames - 2 - c0 ≤ fuel) :
    scanRot e a fuel c0 = some (a.rotFrames - 2) := by
  induction fuel generalizing c0 with
  | zero =>
    have hck : c0 + 1 = a.rotFrames - 1 := by omega
    have ht : a.rotTimes[c0 + 1]? = some L := by rw [hck]; exact hL
    rw [scanRot_stop 0 L ht (by intro h; omega)]
    congr 1
    omega
  | succ f ih =>
    by_cases hck : c0 + 1 = a.rotFrames - 1
    · have ht : a.rotTimes[c0 + 1]? = some L := by rw [hck]; exact hL
      rw [scanRot_stop _ L ht (by intro h; omega)]
      congr 1
      omega
    · have hlen : c0 + 1 < a.rotTimes.length := by omega
      have ht : a.rotTimes[c0 + 1]? = some a.rotTimes[c0 + 1] := List.getElem?_eq_getElem hlen
      have hless : a.rotTimes[c0 + 1] < L :=
        pairwise_getElem?_lt hmono (show c0 + 1 < a.rotFrames - 1 by omega) ht hL
      rw [scanRot_step f _ ht ⟨lt_trans hless he, by omega⟩]
      exact ih (by omega) (by omega)

theorem advanceTimer_cursor {c : SkeletalAnimClip V Q} {dt : ℚ} {i c0 : Nat}
    (h : c.m_rotFrame[i]? = some c0) :
    (advanceTimer c dt).m_rotFrame[i]? = some 0 ∨ (advanceTimer c dt).m_rotFrame[i]? = some c0 := by
  have hi : i < c.m_rotFrame.length := by
    by_contra hcon
    rw [List.getElem?_eq_none (by omega)] at h
    cases h
  by_cases hw : c.m_timer + dt > c.m_anim.duration
  · rw [advanceTimer_wrap hw]
    left
    simp [hi]
  · rw [advanceTimer_noWrap (not_lt.mp hw)]
    exact Or.inr h

theorem Update_CurValid {mix : Q → Q → ℚ → Q} {c c' : SkeletalAnimClip V Q} {dt : ℚ}
    (h : Update mix c dt = some c') {i : Nat} {a : JointAnim V Q}
    (ha : c.m_anim.data[i]? = some a) (hn : 2 ≤ a.rotFrames) (hc : CurValid i a c) :
    CurValid i a c' := by
  obtain ⟨c0, hc0, hv⟩ := hc
  obtain ⟨c1, cur, r, h0, hs, -, hcur, -⟩ := Update_rotMany h ha hn
  have hc1 : c1 + 1 < a.rotFrames := by
    have hor : (advanceTimer c dt).m_rotFrame[i]? = some 0 ∨
        (advanceTimer c dt).m_rotFrame[i]? = some c0 := advanceTimer_cursor hc0
    rcases hor with h2 | h2
    · rw [h0] at h2
      cases h2
      omega
    · rw [h0] at h2
      cases h2
      exact hv
  exact ⟨cur, hcur, scanRot_bound _ hs hc1⟩

theorem CurValid_updates {mix : Q → Q → ℚ → Q} {anim : SkeletalAnim V Q}
    {skeleton : Skeleton V Q} {i : Nat} {a : JointAnim V Q}
    (ha : anim.data[i]? = some a) (hn : 2 ≤ a.rotFrames) (dts : List ℚ)
    {c : SkeletalAnimClip V Q}
    (h : updates mix (SkeletalAnimClip.create anim skeleton) dts = some c) :
    c.m_anim = anim ∧ CurValid i a c := by
  refine updates_induction (fun c => c.m_anim = anim ∧ CurValid i a c) (fun _ => True) ?_
    dts ⟨rfl, ?_⟩ (fun _ _ => trivial) h
  · rintro c2 d c3 ⟨hA, hC⟩ - hU2
    exact ⟨by rw [(Update_frame hU2).1, hA], Update_CurValid hU2 (by rw [hA]; exact ha) hn hC⟩
  · have hi : i < anim.data.length := by
      by_contra hcon
      rw [List.getElem?_eq_none (by omega)] at ha
      cases ha
    exact ⟨0, by simp [SkeletalAnimClip.create, hi], by omega⟩

theorem hold_step (t : ℚ) (r : ℚ) (p0 : JointPose ℚ ℚ) (ps : List (JointPose ℚ ℚ))
    (hs : scanRot t holdTrack 2 0 = some 0) (hb : rotBlend lerp t holdTrack 0 = some r) :
    tracksLoop lerp 1 ⟨holdAnim, t, [0], [0], p0 :: ps⟩ =
      some ⟨holdAnim, t, [0], [0], ⟨p0.pos, r⟩ :: ps⟩ := by
  rw [tracksLoop_one, trackStep_rotMany lerp ⟨holdAnim, t, [0], [0], p0 :: ps⟩ 0
    holdTrack p0 p0 0 0 r
    (by simp [holdAnim]) (by simp [holdTrack]) (by simp [trackPos, holdTrack])
    (by simp [holdTrack]) (by simp) hs hb]
  rfl

theorem hold_run (e r : ℚ) (h2 : e ≤ 2) (hr : lerp 3 5 e = r) :
    Update lerp (SkeletalAnimClip.create holdAnim exampleSkeleton) e =
      some ⟨holdAnim, e, [0], [0], [⟨10, r⟩, ⟨11, 21⟩]⟩ := by
  have hs : scanRot e holdTrack 2 0 = some 0 :=
    scanRot_stop 2 1 rfl (by intro h; exact absurd h.2 (by decide))
  have hb : rotBlend lerp e holdTrack 0 = some r := by
    simp [rotBlend, holdTrack, hr]
  unfold Update
  rw [advanceTimer_noWrap (by simp [SkeletalAnimClip.create, holdAnim]; exact h2)]
  show tracksLoop lerp 1 ⟨holdAnim, 0 + e, [0], [0], [⟨10, 20⟩, ⟨11, 21⟩]⟩ = _
  rw [zero_add]
  exact hold_step e r _ _ hs hb

/-- C16 (as stated, refuted). On a clip of duration 2 whose track has rotation
keys 3 and 5 at times 0 and 1 (last key time `L = 1`), with the linear blend
(which has `mix a b 0 = a`, `mix a b 1 = b`), a fresh player after `Update (3/2)`
outputs rotation 6 and after `Update 2` outputs rotation 7: for two elapsed
times in `(L, duration]` the outputs differ, and neither is the final key 5. -/
theorem hold_past_final_key_fails :
    (∀ x y : ℚ, lerp x y 0 = x) ∧ (∀ x y : ℚ, lerp x y 1 = y) ∧
    holdAnim.data = [holdTrack] ∧ holdTrack.rotTimes[holdTrack.rotFrames - 1]? = some 1 ∧
    holdTrack.rotKeys[holdTrack.rotFrames - 1]? = some 5 ∧
    (1 : ℚ) < holdAnim.duration ∧
    ((1 : ℚ) < 3/2 ∧ (3/2 : ℚ) ≤ holdAnim.duration) ∧
    ((1 : ℚ) < 2 ∧ (2 : ℚ) ≤ holdAnim.duration) ∧
    Update lerp (SkeletalAnimClip.create holdAnim exampleSkeleton) (3/2) =
      some ⟨holdAnim, 3/2, [0], [0], [⟨10, 6⟩, ⟨11, 21⟩]⟩ ∧
    Update lerp (SkeletalAnimClip.create holdAnim exampleSkeleton) 2 =
      some ⟨holdAnim, 2, [0], [0], [⟨10, 7⟩, ⟨11, 21⟩]⟩ ∧
    (6 : ℚ) ≠ 7 ∧ (6 : ℚ) ≠ 5 ∧ (7 : ℚ) ≠ 5 := by
  refine ⟨by intro x y; simp [lerp], by intro x y; simp [lerp], rfl, rfl, rfl,
    by norm_num [holdAnim], by norm_num [holdAnim], by norm_num [holdAnim],
    hold_run (3/2) 6 (by norm_num) (by norm_num [lerp]),
    hold_run 2 7 (by norm_num) (by norm_num [lerp]),
    by norm_num, by norm_num, by norm_num⟩

/-- C16 (amended). The final segment is held, the fraction is not clamped: for
a track with `n ≥ 2` rotation keys (key arrays of the declared length, times
strictly increasing) whose last key time `L` is smaller than the duration and
which no later track follows on the same joint, in every state reached from
construction by a non-empty run of defined `Update` calls whose timer `e`
exceeds `L`, the track's cursor is `n - 2` and the rotation in the buffer is
`mix rotKeys[n-2] rotKeys[n-1] t` with `t = (e - rotTimes[n-2]) / (L -
rotTimes[n-2])`, and `t > 1`. -/
theorem final_segment_held_unclamped (mix : Q → Q → ℚ → Q) (anim : SkeletalAnim V Q)
    (skeleton : Skeleton V Q) (i : Nat) (a : JointAnim V Q) (dts : List ℚ)
    (c : SkeletalAnimClip V Q) (L tp : ℚ) (kp kl : Q)
    (_hd : 0 < anim.duration) (ha : anim.data[i]? = some a) (hn : 2 ≤ a.rotFrames)
    (hlt : a.rotTimes.length = a.rotFrames) (hmono : a.rotTimes.Pairwise (· < ·))
    (hL : a.rotTimes[a.rotFrames - 1]? = some L) (htp : a.rotTimes[a.rotFrames - 2]? = some tp)
    (hkp : a.rotKeys[a.rotFrames - 2]? = some kp) (hkl : a.rotKeys[a.rotFrames - 1]? = some kl)
    (_hLd : L < anim.duration)
    (hlast : ∀ (k : Nat) (b : JointAnim V Q), i < k → anim.data[k]? = some b →
      b.jointInd ≠ a.jointInd)
    (hne : dts ≠ [])
    (h : updates mix (SkeletalAnimClip.create anim skeleton) dts = some c)
    (he : L < c.m_timer) :
    c.m_rotFrame[i]? = some (a.rotFrames - 2) ∧
    (c.m_result[a.jointInd]?).map (fun p => p.rotation) =
      some (mix kp kl ((c.m_timer - tp) / (L - tp))) ∧
    1 < (c.m_timer - tp) / (L - tp) := by
  obtain ⟨dts', dt, c1, -, h1, hU⟩ := updates_last hne h
  obtain ⟨hA, hC⟩ := CurValid_updates ha hn dts' h1
  have ha1 : c1.m_anim.data[i]? = some a := by rw [hA]; exact ha
  obtain ⟨c0, hc0, hv0⟩ := hC
  obtain ⟨c0', cur, r, h0, hs, hb, hcur, hval⟩ := Update_rotMany hU ha1 hn
  have hc0' : c0' + 1 < a.rotFrames := by
    have hor : (advanceTimer c1 dt).m_rotFrame[i]? = some 0 ∨
        (advanceTimer c1 dt).m_rotFrame[i]? = some c0 := advanceTimer_cursor hc0
    rcases hor with h2 | h2
    · rw [h0] at h2
      cases h2
      omega
    · rw [h0] at h2
      cases h2
      exact hv0
  rw [scanRot_past_end hlt hmono hL he a.rotFrames hc0' (by omega)] at hs
  cases hs
  have hidx : a.rotFrames - 2 + 1 = a.rotFrames - 1 := by omega
  have hblend : rotBlend mix c.m_timer a (a.rotFrames - 2) =
      some (mix kp kl ((c.m_timer - tp) / (L - tp))) := by
    unfold rotBlend
    rw [hidx, htp, hL, hkp, hkl]
  rw [hblend] at hb
  cases hb
  obtain ⟨hv, -, -⟩ := Update_lastRot hU ha1 (by omega)
    (fun k b hk hb hj => absurd hj (hlast k b hk (by rw [← hA]; exact hb)))
  have htpL : tp < L := pairwise_getElem?_lt hmono (show a.rotFrames - 2 < a.rotFrames - 1 by omega)
    htp hL
  refine ⟨hcur, by rw [hv, hval], ?_⟩
  rw [lt_div_iff₀ (sub_pos.mpr htpL)]
  linarith

theorem final_segment_held_unclamped_witness :
    0 < holdAnim.duration ∧ holdAnim.data[0]? = some holdTrack ∧ 2 ≤ holdTrack.rotFrames ∧
    holdTrack.rotTimes.Pairwise (· < ·) ∧ (1 : ℚ) < holdAnim.duration ∧ [(3/2 : ℚ)] ≠ [] ∧
    updates lerp (SkeletalAnimClip.create holdAnim exampleSkeleton) [3/2] =
      some ⟨holdAnim, 3/2, [0], [0], [⟨10, 6⟩, ⟨11, 21⟩]⟩ ∧
    (1 : ℚ) < 3/2 ∧
    ([0] : List Nat)[0]? = some (holdTrack.rotFrames - 2) ∧
    (([⟨10, 6⟩, ⟨11, 21⟩] : List (JointPose ℚ ℚ))[holdTrack.jointInd]?).map
        (fun p => p.rotation) = some (lerp 3 5 ((3/2 - 0) / (1 - 0))) ∧
    (1 : ℚ) < (3/2 - 0) / (1 - 0) := by
  have hrun : updates lerp (SkeletalAnimClip.create holdAnim exampleSkeleton) [3/2] =
      some ⟨holdAnim, 3/2, [0], [0], [⟨10, 6⟩, ⟨11, 21⟩]⟩ := by
    rw [updates_cons, hold_run (3/2) 6 (by norm_num) (by norm_num [lerp])]
    rfl
  have hmono : holdTrack.rotTimes.Pairwise (· < ·) := by simp [holdTrack]
  have hlast : ∀ (k : Nat) (b : JointAnim ℚ ℚ), 0 < k → holdAnim.data[k]? = some b →
      b.jointInd ≠ holdTrack.jointInd := by
    intro k b hk hb
    have hlt : k < holdAnim.data.length := by
      by_contra hcon
      rw [List.getElem?_eq_none (by omega)] at hb
      cases hb
    simp [holdAnim] at hlt
    omega
  exact ⟨by norm_num [holdAnim], rfl, by decide, hmono, by norm_num [holdAnim], by simp, hrun,
    by norm_num,
    final_segment_held_unclamped lerp holdAnim exampleSkeleton 0 holdTrack [3/2] _ 1 0 3 5
      (by norm_num [holdAnim]) rfl (by decide) rfl hmono rfl rfl rfl rfl
      (by norm_num [holdAnim]) hlast (by simp) hrun (by norm_num)⟩

/-! ## The cached cursor (C18) -/

theorem scanRot_skip {timer : ℚ} {a : JointAnim V Q} (fuel m : Nat) (s : Nat)
    (h : ∀ k, s ≤ k → k < s + m →
      ∃ tk, a.rotTimes[k + 1]? = some tk ∧ tk < timer ∧ k + 1 < a.rotFrames - 1) :
    scanRot timer a (fuel + m) s = scanRot timer a fuel (s + m) := by
  induction m generalizing s with
  | zero => rfl
  | succ m ih =>
    obtain ⟨tk, h1, h2, h3⟩ := h s (Nat.le_refl _) (by omega)
    rw [← Nat.add_assoc, scanRot_step (fuel + m) tk h1 ⟨h2, h3⟩, ih (s + 1)
      (fun k hk1 hk2 => h k (by omega) (by omega))]
    congr 1
    omega

theorem scanRot_from_zero {timer : ℚ} {a : JointAnim V Q} {c0 : Nat}
    (h : ∀ k, k < c0 →
      ∃ tk, a.rotTimes[k + 1]? = some tk ∧ tk < timer ∧ k + 1 < a.rotFrames - 1) :
    scanRot timer a a.rotFrames 0 = scanRot timer a a.rotFrames c0 := by
  have h1 := @scanRot_skip V Q timer a a.rotFrames c0 0
    (fun k _ hk => h k (by omega))
  rw [scanRot_fuel_mono, Nat.zero_add] at h1
  exact h1

theorem advanceTimer_PassedInv {i : Nat} {a : JointAnim V Q} {c : SkeletalAnimClip V Q}
    {dt : ℚ} (hdt : 0 ≤ dt) (h : PassedInv i a c) : PassedInv i a (advanceTimer c dt) := by
  obtain ⟨c0, hc0, hall⟩ := h
  by_cases hw : c.m_timer + dt > c.m_anim.duration
  · rw [advanceTimer_wrap hw]
    have hi : i < c.m_rotFrame.length := by
      by_contra hcon
      rw [List.getElem?_eq_none (by omega)] at hc0
      cases hc0
    exact ⟨0, by simp [hi], fun k hk => by omega⟩
  · rw [advanceTimer_noWrap (not_lt.mp hw)]
    refine ⟨c0, hc0, ?_⟩
    intro k hk
    obtain ⟨tk, h1, h2, h3⟩ := hall k hk
    exact ⟨tk, h1, by simp only; linarith, h3⟩

theorem Update_PassedInv {mix : Q → Q → ℚ → Q} {c c' : SkeletalAnimClip V Q} {dt : ℚ}
    (h : Update mix c dt = some c') {i : Nat} {a : JointAnim V Q}
    (ha : c.m_anim.data[i]? = some a) (hn : 2 ≤ a.rotFrames) (hdt : 0 ≤ dt)
    (hc : PassedInv i a c) : PassedInv i a c' := by
  obtain ⟨c0, hc0, hall⟩ := advanceTimer_PassedInv hdt hc
  obtain ⟨c1, cur, r, h0, hs, -, hcur, -⟩ := Update_rotMany h ha hn
  rw [hc0] at h0
  cases h0
  obtain ⟨-, -, h3⟩ := scanRot_spec _ hs
  refine ⟨cur, hcur, ?_⟩
  intro k hk
  by_cases hk0 : k < c0
  · obtain ⟨tk, h1, h2, h4⟩ := hall k hk0
    exact ⟨tk, h1, by rw [(Update_frame h).2.1]; exact h2, h4⟩
  · exact h3 k (by omega) hk

theorem PassedInv_updates {mix : Q → Q → ℚ → Q} {anim : SkeletalAnim V Q}
    {skeleton : Skeleton V Q} (dts : List ℚ) (hdts : ∀ dt ∈ dts, 0 ≤ dt)
    {c : SkeletalAnimClip V Q}
    (h : updates mix (SkeletalAnimClip.create anim skeleton) dts = some c) :
    c.m_anim = anim ∧
      ∀ (i : Nat) (a : JointAnim V Q), anim.data[i]? = some a → 2 ≤ a.rotFrames →
        PassedInv i a c := by
  refine updates_induction
    (fun c => c.m_anim = anim ∧
      ∀ (i : Nat) (a : JointAnim V Q), anim.data[i]? = some a → 2 ≤ a.rotFrames →
        PassedInv i a c)
    (fun d => 0 ≤ d) ?_ dts ⟨rfl, ?_⟩ hdts h
  · rintro c2 d c3 ⟨hA, hC⟩ hd hU2
    refine ⟨by rw [(Update_frame hU2).1, hA], ?_⟩
    intro i a ha hn
    exact Update_PassedInv hU2 (by rw [hA]; exact ha) hn hd (hC i a ha hn)
  · intro i a ha _
    have hi : i < anim.data.length := by
      by_contra hcon
      rw [List.getElem?_eq_none (by omega)] at ha
      cases ha
    exact ⟨0, by simp [SkeletalAnimClip.create, hi], fun k hk => by omega⟩

theorem rotW_congr (mix : Q → Q → ℚ → Q) (timer : ℚ) (a : JointAnim V Q) (i : Nat)
    {rf1 rf2 : List Nat} (hlen : rf1.length = rf2.length)
    (hscan : 1 < a.rotFrames →
      (rf1[i]?).bind (scanRot timer a a.rotFrames) = (rf2[i]?).bind (scanRot timer a a.rotFrames)) :
    (rotW mix timer a i rf1).map (fun w => w.2) = (rotW mix timer a i rf2).map (fun w => w.2) := by
  unfold rotW
  split
  · cases a.rotKeys[0]? <;> rfl
  · split
    · rename_i h2
      have hs := hscan h2
      by_cases hi : i < rf1.length
      · have hi2 : i < rf2.length := by omega
        rw [List.getElem?_eq_getElem hi, List.getElem?_eq_getElem hi2] at hs ⊢
        simp only [Option.some_bind] at hs
        simp only
        rw [hs]
        cases scanRot timer a a.rotFrames rf2[i] with
        | none => rfl
        | some cur =>
          simp only
          cases rotBlend mix timer a cur <;> rfl
      · rw [List.getElem?_eq_none (by omega), List.getElem?_eq_none (by omega)]
    · rfl

theorem stepW_congr (mix : Q → Q → ℚ → Q) (anim : SkeletalAnim V Q) (timer : ℚ) (L i : Nat)
    {s1 s2 : List Nat × (Nat → Option V) × (Nat → Option Q)} (hw : s1.2 = s2.2)
    (hlen : s1.1.length = s2.1.length)
    (hscan : ∀ a, anim.data[i]? = some a → 1 < a.rotFrames →
      (s1.1[i]?).bind (scanRot timer a a.rotFrames) =
        (s2.1[i]?).bind (scanRot timer a a.rotFrames)) :
    (stepW mix anim timer L s1 i).map (fun s => s.2) =
      (stepW mix anim timer L s2 i).map (fun s => s.2) := by
  unfold stepW
  cases ha : anim.data[i]? with
  | none => rfl
  | some a =>
    simp only
    split
    · cases posW a with
      | none => rfl
      | some pw =>
        simp only
        have hr := rotW_congr mix timer a i hlen (hscan a ha)
        cases h1 : rotW mix timer a i s1.1 with
        | none =>
          rw [h1] at hr
          cases h2 : rotW mix timer a i s2.1 with
          | none => rfl
          | some w2 => rw [h2] at hr; cases hr
        | some w1 =>
          rw [h1] at hr
          cases h2 : rotW mix timer a i s2.1 with
          | none => rw [h2] at hr; cases hr
          | some w2 =>
            rw [h2] at hr
            simp only [Option.map_some', Option.some.injEq] at hr
            obtain ⟨rfa, rwa⟩ := w1
            obtain ⟨rfb, rwb⟩ := w2
            simp only at hr
            subst hr
            simp only [Option.map_some', hw]
    · rfl

theorem loopW_congr (mix : Q → Q → ℚ → Q) (anim : SkeletalAnim V Q) (timer : ℚ) (L n : Nat)
    {rf1 rf2 : List Nat} (hlen : rf1.length = rf2.length)
    (hscan : ∀ i a, i < n → anim.data[i]? = some a → 1 < a.rotFrames →
      (rf1[i]?).bind (scanRot timer a a.rotFrames) =
        (rf2[i]?).bind (scanRot timer a a.rotFrames)) :
    (loopW mix anim timer L n rf1).map (fun s => s.2) =
      (loopW mix anim timer L n rf2).map (fun s => s.2) := by
  induction n with
  | zero => simp [loopW]
  | succ n ih =>
    have ih' := ih (fun i a hi => hscan i a (by omega))
    rw [loopW_succ, loopW_succ]
    cases h1 : loopW mix anim timer L n rf1 with
    | none =>
      rw [h1] at ih'
      cases h2 : loopW mix anim timer L n rf2 with
      | none => rfl
      | some s2 => rw [h2] at ih'; cases ih'
    | some s1 =>
      rw [h1] at ih'
      cases h2 : loopW mix anim timer L n rf2 with
      | none => rw [h2] at ih'; cases ih'
      | some s2 =>
        rw [h2] at ih'
        simp only [Option.map_some', Option.some.injEq] at ih'
        simp only [Option.some_bind]
        obtain ⟨hl1, hk1, -, -⟩ := loopW_spec _ h1
        obtain ⟨hl2, hk2, -, -⟩ := loopW_spec _ h2
        apply stepW_congr mix anim timer L n ih' (by omega)
        intro a ha hn
        rw [hk1 n (Nat.le_refl _), hk2 n (Nat.le_refl _)]
        exact hscan n a (Nat.lt_succ_self n) ha hn

/-- C18. The cached cursor never changes the result: for a clip of positive
duration and a run of `Update` calls (at least one, so that a scan from a
cached cursor took place) with non-negative `deltaTime`s on a fresh player,
ending in state `c` with timer `e`, a single `Update e` on a fresh player is
defined and gives the same timer and the same pose buffer, and the same cursor
for every track with two or more rotation keys. -/
theorem cached_cursor_same_result (mix : Q → Q → ℚ → Q) (anim : SkeletalAnim V Q)
    (skeleton : Skeleton V Q) (dts : List ℚ) (c : SkeletalAnimClip V Q)
    (hd : 0 < anim.duration) (hne : dts ≠ []) (hdts : ∀ dt ∈ dts, 0 ≤ dt)
    (h : updates mix (SkeletalAnimClip.create anim skeleton) dts = some c) :
    ∃ f, Update mix (SkeletalAnimClip.create anim skeleton) c.m_timer = some f ∧
      f.m_timer = c.m_timer ∧ f.m_result = c.m_result ∧
      ∀ (i : Nat) (a : JointAnim V Q), anim.data[i]? = some a → 2 ≤ a.rotFrames →
        f.m_rotFrame[i]? = c.m_rotFrame[i]? := by
  obtain ⟨dts', dt, c1, hsplit, h1, hU⟩ := updates_last hne h
  have hdts' : ∀ d ∈ dts', 0 ≤ d := fun d hd' => hdts d (by rw [hsplit]; simp [hd'])
  have hdt : 0 ≤ dt := hdts dt (by rw [hsplit]; simp)
  obtain ⟨-, he0, hed⟩ := timer_bounds hd dts hdts h
  obtain ⟨hA, hP⟩ := PassedInv_updates dts' hdts' h1
  obtain ⟨-, hpf, hrf, wp, wr, hres, hwp, hwr⟩ := Inv_updates dts' (Inv_create anim skeleton) h1
  obtain ⟨s, hl, hc⟩ := Update_some hU
  have ht : c.m_timer = (advanceTimer c1 dt).m_timer := (Update_frame hU).2.1
  rw [hA, ← ht] at hl
  have hL : c1.m_result.length = (SkeletalAnimClip.create anim skeleton).m_result.length := by
    rw [hres, overlay_length]; rfl
  have hB : advanceTimer (SkeletalAnimClip.create anim skeleton) c.m_timer =
      { SkeletalAnimClip.create anim skeleton with m_timer := c.m_timer } := by
    rw [advanceTimer_noWrap]
    · simp [SkeletalAnimClip.create]
    · simp only [SkeletalAnimClip.create, zero_add]
      exact hed
  have hscan : ∀ i a, i < anim.data.length → anim.data[i]? = some a → 1 < a.rotFrames →
      ((List.replicate anim.data.length 0)[i]?).bind (scanRot c.m_timer a a.rotFrames) =
        ((advanceTimer c1 dt).m_rotFrame[i]?).bind (scanRot c.m_timer a a.rotFrames) := by
    intro i a hi ha hn
    obtain ⟨c0, hc0, hall⟩ := advanceTimer_PassedInv hdt (hP i a ha (by omega))
    rw [← ht] at hall
    rw [hc0, List.getElem?_replicate, if_pos hi]
    simp only [Option.some_bind]
    exact scanRot_from_zero hall
  have hcong := loopW_congr mix anim c.m_timer c1.m_result.length anim.data.length
    (show (List.replicate anim.data.length 0).length = (advanceTimer c1 dt).m_rotFrame.length by
      rw [advanceTimer_rotFrame_length, hrf]; simp) hscan
  rw [hl] at hcong
  cases hf : loopW mix anim c.m_timer c1.m_result.length anim.data.length
      (List.replicate anim.data.length 0) with
  | none => rw [hf] at hcong; cases hcong
  | some s' =>
    rw [hf] at hcong
    simp only [Option.map_some', Option.some.injEq] at hcong
    obtain ⟨-, -, hsp, hsr⟩ := loopW_spec _ hl
    have hUf : Update mix (SkeletalAnimClip.create anim skeleton) c.m_timer =
        some ⟨anim, c.m_timer, s'.1, List.replicate anim.data.length 0,
          overlay s'.2.1 s'.2.2 (basePoses skeleton)⟩ := by
      rw [Update_eq, hB, ← hL]
      simp only [SkeletalAnimClip.create]
      rw [hf]
      rfl
    refine ⟨_, hUf, rfl, ?_, ?_⟩
    · rw [hc]
      simp only
      rw [hcong, hres]
      exact (overlay_absorb wp s.2.1 wr s.2.2 _ (fun j hj => (hsp j).2 (hwp j hj))
        (fun j hj => (hsr j).2 (hwr j hj))).symm
    · intro i a ha hn
      have hi : i < anim.data.length := by
        by_contra hcon
        rw [List.getElem?_eq_none (by omega)] at ha
        cases ha
      have hcur1 := loopW_cursor _ hf hi ha
      have hcur2 := loopW_cursor _ hl hi ha
      rw [hc]
      simp only
      rw [hcur1, hcur2]
      unfold curValue
      rw [if_pos (by omega), if_pos (by omega)]
      exact hscan i a hi ha (by omega)

theorem cached_cursor_same_result_witness :
    0 < exampleAnim.duration ∧ [(1/2 : ℚ), 6/10] ≠ [] ∧
    (∀ dt ∈ [(1/2 : ℚ), 6/10], 0 ≤ dt) ∧
    updates lerp (SkeletalAnimClip.create exampleAnim exampleSkeleton) [1/2, 6/10] =
      some examplePlayer ∧
    ∃ f, Update lerp (SkeletalAnimClip.create exampleAnim exampleSkeleton)
        examplePlayer.m_timer = some f ∧
      f.m_timer = examplePlayer.m_timer ∧ f.m_result = examplePlayer.m_result ∧
      ∀ (i : Nat) (a : JointAnim ℚ ℚ), exampleAnim.data[i]? = some a → 2 ≤ a.rotFrames →
        f.m_rotFrame[i]? = examplePlayer.m_rotFrame[i]? :=
  ⟨by norm_num [exampleAnim, scenarioAnim], by simp, by norm_num, examplePlayer_reached,
    cached_cursor_same_result lerp exampleAnim exampleSkeleton [1/2, 6/10] examplePlayer
      (by norm_num [exampleAnim, scenarioAnim]) (by simp) (by norm_num) examplePlayer_reached⟩

/-! ## The key latch of `MovementComponent` (C30) -/

theorem MovementComponent.latch_after (m : MovementComponent) (dt : ℚ) (w s a d : Bool) :
    (m.Update dt w s a d)._isPressed = d := by
  unfold MovementComponent.Update MovementComponent.blockD
  cases d <;> simp

theorem MovementComponent.onlyW (m : MovementComponent) (dt : ℚ) :
    (m.Update dt true false false false) =
      if m._isPressed = false then
        { m with bodyCalls := m.bodyCalls ++ [(0, m._impulse, 0)], rotation := 1,
                 _isPressed := false }
      else { m with _isPressed := false } := by
  unfold MovementComponent.Update MovementComponent.blockD MovementComponent.blockA
    MovementComponent.blockS MovementComponent.blockW
  cases h : m._isPressed <;> simp [h]

/-- C30 (as stated, refuted). From the released component, one `Update` with
only D held latches `_isPressed`; in the first of two following `Update`s with
only W held no velocity is set (the calls on the body are unchanged) and
`rotation` stays 4; only the second sets `(0, impulse, 0)` and rotation 1. -/
theorem key_latch_first_update_suppressed :
    (exampleMover.Update 0 false false false true)._isPressed = true ∧
    (exampleMover.Update 0 false false false true).bodyCalls = [(10, 0, 0)] ∧
    ((exampleMover.Update 0 false false false true).Update 0 true false false false).bodyCalls
      = [(10, 0, 0)] ∧
    ((exampleMover.Update 0 false false false true).Update 0 true false false false).rotation
      = 4 ∧
    (((exampleMover.Update 0 false false false true).Update 0 true false false false).Update 0
      true false false false).bodyCalls = [(10, 0, 0), (0, 10, 0)] ∧
    (((exampleMover.Update 0 false false false true).Update 0 true false false false).Update 0
      true false false false).rotation = 1 := by
  simp [MovementComponent.Update, MovementComponent.blockD, MovementComponent.blockA,
    MovementComponent.blockS, MovementComponent.blockW, exampleMover]

/-- C30 (amended). After every `Update` the latch `_isPressed` equals the value
read for the D key alone.  So with only W held during two consecutive
`Update`s, the second always calls `SetLinearVelocity (0, impulse, 0)` and sets
`rotation` to 1 again (the latch does not suppress the repeat of a held key);
the first does so when `_isPressed` was false on entry, and makes no call and
leaves `rotation` alone when it was true. -/
theorem key_latch_follows_D (m : MovementComponent) (dt dt1 : ℚ) (w s a d : Bool) :
    (m.Update dt w s a d)._isPressed = d ∧
    ((m.Update dt true false false false).Update dt1 true false false false).bodyCalls =
      (m.Update dt true false false false).bodyCalls ++ [(0, m._impulse, 0)] ∧
    ((m.Update dt true false false false).Update dt1 true false false false).rotation = 1 ∧
    (m._isPressed = false →
      (m.Update dt true false false false).bodyCalls = m.bodyCalls ++ [(0, m._impulse, 0)] ∧
      (m.Update dt true false false false).rotation = 1) ∧
    (m._isPressed = true →
      (m.Update dt true false false false).bodyCalls = m.bodyCalls ∧
      (m.Update dt true false false false).rotation = m.rotation) := by
  refine ⟨MovementComponent.latch_after m dt w s a d, ?_, ?_, ?_, ?_⟩
  · rw [MovementComponent.onlyW (m.Update dt true false false false) dt1,
      MovementComponent.latch_after, MovementComponent.onlyW m dt]
    cases h : m._isPressed <;> simp [h]
  · rw [MovementComponent.onlyW (m.Update dt true false false false) dt1,
      MovementComponent.latch_after]
    simp
  · intro h
    rw [MovementComponent.onlyW m dt]
    simp [h]
  · intro h
    rw [MovementComponent.onlyW m dt]
    simp [h]

/-! ## Tracks without rotation keys (C21) -/

theorem trackStep_rotZero {mix : Q → Q → ℚ → Q} {c c1 : SkeletalAnimClip V Q} {i : Nat}
    {a : JointAnim V Q} (ha : c.m_anim.data[i]? = some a) (h0 : a.rotFrames = 0)
    (h : trackStep mix c i = some c1) :
    c1.m_rotFrame = c.m_rotFrame ∧
      ∀ j : Nat, (c1.m_result[j]?).map (fun p => p.rotation) =
        (c.m_result[j]?).map (fun p => p.rotation) := by
  unfold trackStep at h
  rw [ha] at h
  simp only at h
  cases hp : c.m_result[a.jointInd]? with
  | none => simp [hp] at h
  | some pose =>
    simp only [hp] at h
    have hlt : a.jointInd < c.m_result.length := by
      by_contra hge
      rw [List.getElem?_eq_none (by omega)] at hp
      exact absurd hp (by simp)
    cases hq : trackPos a pose with
    | none => simp [hq] at h
    | some pose1 =>
      have hrot : pose1.rotation = pose.rotation := by
        unfold trackPos at hq
        split at hq
        · cases hk : a.posKeys[0]? with
          | none => simp [hk] at hq
          | some k =>
            simp only [hk, Option.some.injEq] at hq
            rw [← hq]
        · simp only [Option.some.injEq] at hq
          rw [hq]
      have hR : trackRot mix c.m_timer a i c.m_rotFrame pose1 = some (c.m_rotFrame, pose1) := by
        unfold trackRot
        simp [h0]
      simp only [hq, hR, Option.some.injEq] at h
      subst h
      refine ⟨rfl, fun j => ?_⟩
      show ((c.m_result.set a.jointInd pose1)[j]?).map _ = _
      by_cases hj : a.jointInd = j
      · subst hj
        rw [List.getElem?_set_self hlt, hp]
        simp [hrot]
      · rw [List.getElem?_set_ne hj]

/-- C21. Zero rotation keys: for a track with `rotFrames = 0`, the loop body
for that track, from any state of a player of the clip, leaves the cursor list
and the rotation of every buffer entry (so that of the track's joint) as they
were; and when no other track targets the track's joint, the rotation of the
joint's buffer entry is the joint's base rotation after any run of `Update`s
from construction. -/
theorem zero_rotation_keys (mix : Q → Q → ℚ → Q) (anim : SkeletalAnim V Q)
    (skeleton : Skeleton V Q) (i0 : Nat) (a : JointAnim V Q)
    (ha : anim.data[i0]? = some a) (h0 : a.rotFrames = 0) :
    (∀ c c1 : SkeletalAnimClip V Q, c.m_anim = anim → trackStep mix c i0 = some c1 →
      c1.m_rotFrame = c.m_rotFrame ∧
      ∀ j : Nat, (c1.m_result[j]?).map (fun p => p.rotation) =
        (c.m_result[j]?).map (fun p => p.rotation)) ∧
    ((∀ (i : Nat) (b : JointAnim V Q), anim.data[i]? = some b → b.jointInd = a.jointInd →
        i = i0) →
      ∀ (dts : List ℚ) (c : SkeletalAnimClip V Q),
        updates mix (SkeletalAnimClip.create anim skeleton) dts = some c →
        (c.m_result[a.jointInd]?).map (fun p => p.rotation) =
          (skeleton.m_joints[a.jointInd]?).map (fun x => x.m_baseRotation)) := by
  refine ⟨fun c c1 hc h => trackStep_rotZero (hc ▸ ha) h0 h, fun honly dts c h => ?_⟩
  refine Inv_rot_untargeted (Inv_updates dts (Inv_create anim skeleton) h) ?_
  rintro ⟨i, b, -, hb, hj, hpos⟩
  have := honly i b hb hj
  subst this
  rw [ha] at hb
  cases hb
  omega

theorem posAnim_only_track (i : Nat) (b : JointAnim ℚ ℚ) (hb : posAnim.data[i]? = some b) :
    i = 0 := by
  cases i with
  | zero => rfl
  | succ k => simp [posAnim] at hb

theorem posAnim_updates :
    updates lerp (SkeletalAnimClip.create posAnim exampleSkeleton) [1/2] =
      some ⟨posAnim, 1/2, [0], [0], [⟨5, 20⟩, ⟨11, 21⟩]⟩ := by
  rw [updates_cons, posAnim_run]
  rfl

theorem zero_rotation_keys_witness :
    updates lerp (SkeletalAnimClip.create posAnim exampleSkeleton) [1/2] =
      some ⟨posAnim, 1/2, [0], [0], [⟨5, 20⟩, ⟨11, 21⟩]⟩ ∧
    (([⟨5, 20⟩, ⟨11, 21⟩] : List (JointPose ℚ ℚ))[0]?).map (fun p => p.rotation) =
      (exampleSkeleton.m_joints[0]?).map (fun x => x.m_baseRotation) :=
  ⟨posAnim_updates,
    (zero_rotation_keys lerp posAnim exampleSkeleton 0
      { jointInd := 0, rotFrames := 0, posFrames := 2, posKeys := [5, 6],
        posTimes := [0, 1], rotKeys := [], rotTimes := [] } (by simp [posAnim]) rfl).2
      (fun i b hb _ => posAnim_only_track i b hb) [1/2] _ posAnim_updates⟩

/-! ## A fraction above 1 (C22) -/

theorem hold_run_mix (mix : ℚ → ℚ → ℚ → ℚ) (e : ℚ) (h2 : e ≤ 2) :
    Update mix (SkeletalAnimClip.create holdAnim exampleSkeleton) e =
      some ⟨holdAnim, e, [0], [0], [⟨10, mix 3 5 ((e - 0) / (1 - 0))⟩, ⟨11, 21⟩]⟩ := by
  have hs : scanRot e holdTrack 2 0 = some 0 :=
    scanRot_stop 2 1 rfl (by intro h; exact absurd h.2 (by decide))
  have hb : rotBlend mix e holdTrack 0 = some (mix 3 5 ((e - 0) / (1 - 0))) := by
    simp [rotBlend, holdTrack]
  unfold Update
  rw [advanceTimer_noWrap (by simp [SkeletalAnimClip.create, holdAnim]; exact h2)]
  show tracksLoop mix 1 ⟨holdAnim, 0 + e, [0], [0], [⟨10, 20⟩, ⟨11, 21⟩]⟩ = _
  rw [zero_add, tracksLoop_one,
    trackStep_rotMany mix ⟨holdAnim, e, [0], [0], [⟨10, 20⟩, ⟨11, 21⟩]⟩ 0
      holdTrack ⟨10, 20⟩ ⟨10, 20⟩ 0 0 (mix 3 5 ((e - 0) / (1 - 0)))
      (by simp [holdAnim]) (by simp [holdTrack]) (by simp [trackPos, holdTrack])
      (by simp [holdTrack]) (by simp) hs hb]
  rfl

/-- C22. Unclamped fraction: the clip `holdAnim` meets the data-model
invariants (duration 2 > 0, one track whose rotation key times 0, 1 are
strictly increasing from 0 and below the duration), `deltaTime = 3/2` is
non-negative, and `Update` from the fresh player stops its scan at segment 0,
whose fraction is `(3/2 - 0) / (1 - 0) > 1`; that fraction is the third
argument of the blend, whatever the blend function is. -/
theorem unclamped_fraction :
    0 < holdAnim.duration ∧ holdAnim.data = [holdTrack] ∧
    holdTrack.rotTimes.Pairwise (· < ·) ∧ holdTrack.rotTimes[0]? = some 0 ∧
    (∀ t ∈ holdTrack.rotTimes, t < holdAnim.duration) ∧
    holdTrack.rotFrames = holdTrack.rotTimes.length ∧
    holdTrack.rotFrames = holdTrack.rotKeys.length ∧
    (0 : ℚ) ≤ 3/2 ∧ (1 : ℚ) < (3/2 - 0) / (1 - 0) ∧
    ∀ mix : ℚ → ℚ → ℚ → ℚ,
      scanRot (3/2) holdTrack holdTrack.rotFrames 0 = some 0 ∧
      rotBlend mix (3/2) holdTrack 0 = some (mix 3 5 ((3/2 - 0) / (1 - 0))) ∧
      Update mix (SkeletalAnimClip.create holdAnim exampleSkeleton) (3/2) =
        some ⟨holdAnim, 3/2, [0], [0], [⟨10, mix 3 5 ((3/2 - 0) / (1 - 0))⟩, ⟨11, 21⟩]⟩ := by
  refine ⟨by norm_num [holdAnim], rfl, by norm_num [holdTrack], rfl, ?_, rfl, rfl, by norm_num,
    by norm_num, fun mix => ⟨?_, ?_, hold_run_mix mix (3/2) (by norm_num)⟩⟩
  · intro t ht
    simp only [holdTrack, List.mem_cons, List.mem_singleton, List.not_mem_nil, or_false] at ht
    rcases ht with rfl | rfl <;> norm_num [holdAnim]
  · exact scanRot_stop 2 1 rfl (by intro h; exact absurd h.2 (by decide))
  · simp [rotBlend, holdTrack]

/-! ## Index safety (C24) -/

theorem posW_total {a : JointAnim V Q} (h : 0 < a.posFrames → 0 < a.posKeys.length) :
    ∃ pw, posW a = some pw := by
  unfold posW
  by_cases hp : a.posFrames > 0
  · rw [if_pos hp, List.getElem?_eq_getElem (h hp)]
    exact ⟨_, rfl⟩
  · rw [if_neg hp]
    exact ⟨_, rfl⟩

theorem rotW_total (mix : Q → Q → ℚ → Q) (timer : ℚ) {a : JointAnim V Q} {i : Nat}
    {rf : List Nat} (hK : a.rotKeys.length = a.rotFrames) (hT : a.rotTimes.length = a.rotFrames)
    (hc : 2 ≤ a.rotFrames → ∃ c0, rf[i]? = some c0 ∧ c0 + 1 < a.rotFrames) :
    ∃ r, rotW mix timer a i rf = some r := by
  unfold rotW
  by_cases h1 : a.rotFrames = 1
  · rw [if_pos h1, List.getElem?_eq_getElem (by omega)]
    exact ⟨_, rfl⟩
  · rw [if_neg h1]
    by_cases h2 : a.rotFrames > 1
    · rw [if_pos h2]
      obtain ⟨c0, hc0, hv⟩ := hc h2
      obtain ⟨cur, hs, -, hcur⟩ :=
        @scanRot_isSome V Q timer a (by omega) a.rotFrames c0 hv (by omega)
      have hb : ∃ r, rotBlend mix timer a cur = some r := by
        unfold rotBlend
        rw [List.getElem?_eq_getElem (show cur < a.rotTimes.length by omega),
          List.getElem?_eq_getElem (show cur + 1 < a.rotTimes.length by omega),
          List.getElem?_eq_getElem (show cur < a.rotKeys.length by omega),
          List.getElem?_eq_getElem (show cur + 1 < a.rotKeys.length by omega)]
        exact ⟨_, rfl⟩
      obtain ⟨r, hr⟩ := hb
      simp only [hc0, hs, hr, Option.map_some']
      exact ⟨_, rfl⟩
    · rw [if_neg h2]
      exact ⟨_, rfl⟩

theorem loopW_total (mix : Q → Q → ℚ → Q) (anim : SkeletalAnim V Q) (timer : ℚ) (L : Nat)
    (rf : List Nat) (n : Nat) (hn : n ≤ anim.data.length)
    (hwf : ∀ (i : Nat) (a : JointAnim V Q), i < n → anim.data[i]? = some a →
      a.rotKeys.length = a.rotFrames ∧ a.rotTimes.length = a.rotFrames ∧
      (0 < a.posFrames → 0 < a.posKeys.length) ∧ a.jointInd < L ∧
      (2 ≤ a.rotFrames → ∃ c0, rf[i]? = some c0 ∧ c0 + 1 < a.rotFrames)) :
    ∃ s, loopW mix anim timer L n rf = some s := by
  induction n with
  | zero => exact ⟨_, rfl⟩
  | succ n ih =>
    obtain ⟨s, hs⟩ := ih (by omega) (fun i a hi ha => hwf i a (by omega) ha)
    rw [loopW_succ, hs, Option.some_bind]
    have hlt : n < anim.data.length := by omega
    obtain ⟨hK, hT, hP, hJ, hC⟩ := hwf n anim.data[n] (by omega) (List.getElem?_eq_getElem hlt)
    obtain ⟨pw, hpw⟩ := posW_total hP
    have hsn : s.1[n]? = rf[n]? := (loopW_spec n hs).2.1 n (Nat.le_refl _)
    obtain ⟨r, hr⟩ := @rotW_total V Q mix timer anim.data[n] n s.1 hK hT (by rw [hsn]; exact hC)
    unfold stepW
    rw [List.getElem?_eq_getElem hlt]
    simp only [if_pos hJ, hpw, hr]
    exact ⟨_, rfl⟩

theorem Update_total (mix : Q → Q → ℚ → Q) {anim : SkeletalAnim V Q} {skeleton : Skeleton V Q}
    (hwf : WellFormed anim skeleton) {c : SkeletalAnimClip V Q} (hanim : c.m_anim = anim)
    (hlen : c.m_result.length = skeleton.m_joints.length)
    (hcur : ∀ (i : Nat) (a : JointAnim V Q), anim.data[i]? = some a → 2 ≤ a.rotFrames →
      CurValid i a c) (dt : ℚ) :
    ∃ c1, Update mix c dt = some c1 := by
  subst hanim
  rw [Update_eq]
  obtain ⟨s, hs⟩ := loopW_total mix c.m_anim (advanceTimer c dt).m_timer c.m_result.length
    (advanceTimer c dt).m_rotFrame c.m_anim.data.length (Nat.le_refl _) (by
      intro i a _ ha
      obtain ⟨hK, hT, hP, hJ⟩ := hwf a (List.mem_iff_getElem?.2 ⟨i, ha⟩)
      refine ⟨hK, hT, hP, by omega, fun h2 => ?_⟩
      obtain ⟨c0, hc0, hv⟩ := hcur i a ha h2
      rcases advanceTimer_cursor hc0 with h | h
      · exact ⟨0, h, by omega⟩
      · exact ⟨c0, h, hv⟩)
  rw [hs]
  exact ⟨_, rfl⟩

theorem CurValid_create {anim : SkeletalAnim V Q} (skeleton : Skeleton V Q) {i : Nat}
    {a : JointAnim V Q} (ha : anim.data[i]? = some a) (hn : 2 ≤ a.rotFrames) :
    CurValid i a (SkeletalAnimClip.create anim skeleton) := by
  have hi : i < anim.data.length := by
    by_contra hcon
    rw [List.getElem?_eq_none (by omega)] at ha
    cases ha
  exact ⟨0, by simp [SkeletalAnimClip.create, hi], by omega⟩

theorem updates_total_from (mix : Q → Q → ℚ → Q) {anim : SkeletalAnim V Q}
    {skeleton : Skeleton V Q} (hwf : WellFormed anim skeleton) (dts : List ℚ)
    (c : SkeletalAnimClip V Q) (hanim : c.m_anim = anim)
    (hlen : c.m_result.length = skeleton.m_joints.length)
    (hcur : ∀ (i : Nat) (a : JointAnim V Q), anim.data[i]? = some a → 2 ≤ a.rotFrames →
      CurValid i a c) :
    ∃ c1, updates mix c dts = some c1 := by
  induction dts generalizing c with
  | nil => exact ⟨c, rfl⟩
  | cons dt dts ih =>
    obtain ⟨c1, h1⟩ := Update_total mix hwf hanim hlen hcur dt
    rw [updates_cons, h1, Option.some_bind]
    obtain ⟨hA, -, -, hL, -⟩ := Update_frame h1
    refine ih c1 (hA.trans hanim) (hL.trans hlen) (fun i a ha h2 => ?_)
    exact Update_CurValid h1 (hanim ▸ ha) h2 (hcur i a ha h2)

theorem updates_total (mix : Q → Q → ℚ → Q) {anim : SkeletalAnim V Q}
    {skeleton : Skeleton V Q} (hwf : WellFormed anim skeleton) (dts : List ℚ) :
    ∃ c, updates mix (SkeletalAnimClip.create anim skeleton) dts = some c :=
  updates_total_from mix hwf dts _ rfl (by simp [SkeletalAnimClip.create])
    (fun _ _ ha h2 => CurValid_create skeleton ha h2)

theorem reachable_total (mix : Q → Q → ℚ → Q) {anim : SkeletalAnim V Q}
    {skeleton : Skeleton V Q} (hwf : WellFormed anim skeleton) (dts : List ℚ)
    {c : SkeletalAnimClip V Q}
    (h : updates mix (SkeletalAnimClip.create anim skeleton) dts = some c) (dt : ℚ) :
    ∃ c1, Update mix c dt = some c1 := by
  obtain ⟨c2, h2⟩ := updates_total mix hwf (dts ++ [dt])
  rw [updates_append_one, h] at h2
  exact ⟨c2, h2⟩

theorem exampleAnim_wellFormed : WellFormed exampleAnim exampleSkeleton := by
  intro a ha
  simp only [exampleAnim, scenarioAnim, List.mem_singleton] at ha
  subst ha
  simp [scenarioTrack, exampleSkeleton]

/-- C24. Index safety: for a clip that is well formed for the skeleton (every
track has `rotFrames` rotation keys and key times, a position key when
`posFrames > 0`, a joint index below the joint count), every run of `Update`s
from construction is defined, and in every state it reaches the cursor of each
track with two or more rotation keys satisfies `cursor + 1 ≤ rotFrames - 1`,
and a further `Update` with any `deltaTime` is defined again: no read or write
of `Update` is out of bounds. -/
theorem index_safety (mix : Q → Q → ℚ → Q) (anim : SkeletalAnim V Q) (skeleton : Skeleton V Q)
    (hwf : WellFormed anim skeleton) :
    (∀ dts : List ℚ, ∃ c, updates mix (SkeletalAnimClip.create anim skeleton) dts = some c) ∧
    ∀ (dts : List ℚ) (c : SkeletalAnimClip V Q),
      updates mix (SkeletalAnimClip.create anim skeleton) dts = some c →
      (∀ (i : Nat) (a : JointAnim V Q), anim.data[i]? = some a → 2 ≤ a.rotFrames →
        ∃ c0, c.m_rotFrame[i]? = some c0 ∧ c0 + 1 ≤ a.rotFrames - 1) ∧
      ∀ dt : ℚ, ∃ c1, Update mix c dt = some c1 := by
  refine ⟨updates_total mix hwf, fun dts c h => ⟨fun i a ha h2 => ?_,
    reachable_total mix hwf dts h⟩⟩
  obtain ⟨-, c0, hc0, hv⟩ := CurValid_updates ha h2 dts h
  exact ⟨c0, hc0, by omega⟩

theorem index_safety_witness :
    WellFormed exampleAnim exampleSkeleton ∧
    updates lerp (SkeletalAnimClip.create exampleAnim exampleSkeleton) [1/2, 6/10] =
      some examplePlayer ∧
    (∃ c0, examplePlayer.m_rotFrame[0]? = some c0 ∧ c0 + 1 ≤ 3 - 1) ∧
    ∀ dt : ℚ, ∃ c1, Update lerp examplePlayer dt = some c1 :=
  ⟨exampleAnim_wellFormed, examplePlayer_reached,
    ((index_safety lerp exampleAnim exampleSkeleton exampleAnim_wellFormed).2 [1/2, 6/10]
      examplePlayer examplePlayer_reached).1 0 (scenarioTrack 0 1 0) rfl (by decide),
    ((index_safety lerp exampleAnim exampleSkeleton exampleAnim_wellFormed).2 [1/2, 6/10]
      examplePlayer examplePlayer_reached).2⟩

/-! ## The timer at the duration; cursor monotonicity (C27) -/

theorem advanceTimer_create_duration (anim : SkeletalAnim V Q) (skeleton : Skeleton V Q) :
    advanceTimer (SkeletalAnimClip.create anim skeleton) anim.duration =
      { SkeletalAnimClip.create anim skeleton with m_timer := anim.duration } := by
  have h := @advanceTimer_noWrap V Q (SkeletalAnimClip.create anim skeleton) anim.duration
    (by simp [SkeletalAnimClip.create])
  rw [h]
  simp [SkeletalAnimClip.create]

theorem Update_cursor_some {mix : Q → Q → ℚ → Q} {c c1 : SkeletalAnimClip V Q} {dt : ℚ}
    (hU : Update mix c dt = some c1) {i c0 : Nat} (hc0 : c.m_rotFrame[i]? = some c0) :
    ∃ cur, c1.m_rotFrame[i]? = some cur := by
  have hi : i < c.m_rotFrame.length := by
    by_contra hcon
    rw [List.getElem?_eq_none (by omega)] at hc0
    cases hc0
  have hlen := (Update_frame hU).2.2.2.2
  exact ⟨_, List.getElem?_eq_getElem (by omega)⟩

theorem Update_cursor_noWrap {mix : Q → Q → ℚ → Q} {c c1 : SkeletalAnimClip V Q} {dt : ℚ}
    (hU : Update mix c dt = some c1) {i : Nat} {a : JointAnim V Q}
    (ha : c.m_anim.data[i]? = some a) {c0 cur : Nat} (hc0 : c.m_rotFrame[i]? = some c0)
    (hcur : c1.m_rotFrame[i]? = some cur) (hnw : c.m_timer + dt ≤ c.m_anim.duration) :
    c0 ≤ cur := by
  have h := Update_cursor hU ha
  rw [advanceTimer_noWrap hnw] at h
  simp only [hc0, hcur, curValue] at h
  split at h
  · simp only [Option.some_bind] at h
    exact (scanRot_spec _ h.symm).1
  · cases h
    exact Nat.le_refl _

theorem Update_cursor_few {mix : Q → Q → ℚ → Q} {c c1 : SkeletalAnimClip V Q} {dt : ℚ}
    (hU : Update mix c dt = some c1) {i : Nat} {a : JointAnim V Q}
    (ha : c.m_anim.data[i]? = some a) (hfew : a.rotFrames < 2)
    (hc0 : c.m_rotFrame[i]? = some 0) : c1.m_rotFrame[i]? = some 0 := by
  have h := Update_cursor hU ha
  rw [h, curValue, if_neg (by omega)]
  rcases advanceTimer_cursor hc0 with h1 | h1 <;> exact h1

/-- C27. Cursor monotonicity between wraps: in a defined `Update` from any
state of a player of the clip, the cursor of every track is defined after the
call when it was before; when no wrap occurs (`timer + deltaTime ≤ duration`)
it is at least its value before; so it is smaller than before only when the
call wrapped, in which case the cursor had been reset to 0 before the scan.
In every state reached from construction, the cursor of a track with fewer
than two rotation keys is 0. -/
theorem cursor_monotone_between_wraps (mix : Q → Q → ℚ → Q) (anim : SkeletalAnim V Q)
    (skeleton : Skeleton V Q) :
    (∀ (c c1 : SkeletalAnimClip V Q) (dt : ℚ) (i : Nat) (a : JointAnim V Q) (c0 : Nat),
      c.m_anim = anim → Update mix c dt = some c1 → anim.data[i]? = some a →
      c.m_rotFrame[i]? = some c0 →
      ∃ cur, c1.m_rotFrame[i]? = some cur ∧
        (c.m_timer + dt ≤ anim.duration → c0 ≤ cur) ∧
        (cur < c0 → anim.duration < c.m_timer + dt ∧
          (advanceTimer c dt).m_rotFrame[i]? = some 0)) ∧
    (∀ (dts : List ℚ) (c : SkeletalAnimClip V Q) (i : Nat) (a : JointAnim V Q),
      updates mix (SkeletalAnimClip.create anim skeleton) dts = some c →
      anim.data[i]? = some a → a.rotFrames < 2 → c.m_rotFrame[i]? = some 0) := by
  constructor
  · intro c c1 dt i a c0 hanim hU ha hc0
    subst hanim
    obtain ⟨cur, hcur⟩ := Update_cursor_some hU hc0
    refine ⟨cur, hcur, fun hnw => Update_cursor_noWrap hU ha hc0 hcur hnw, fun hlt => ?_⟩
    have hw : c.m_anim.duration < c.m_timer + dt := by
      by_contra hcon
      have := Update_cursor_noWrap hU ha hc0 hcur (not_lt.mp hcon)
      omega
    refine ⟨hw, ?_⟩
    have hi : i < c.m_rotFrame.length := by
      by_contra hcon
      rw [List.getElem?_eq_none (by omega)] at hc0
      cases hc0
    rw [advanceTimer_wrap hw]
    simp [hi]
  · intro dts c i a h ha hfew
    have hP := @updates_induction V Q mix
      (fun c => c.m_anim = anim ∧ c.m_rotFrame[i]? = some 0) (fun _ => True)
      (fun c dt c1 hc _ hU =>
        ⟨(Update_frame hU).1.trans hc.1, Update_cursor_few hU (hc.1 ▸ ha) hfew hc.2⟩)
      dts (SkeletalAnimClip.create anim skeleton) c
      ⟨rfl, by
        have hi : i < anim.data.length := by
          by_contra hcon
          rw [List.getElem?_eq_none (by omega)] at ha
          cases ha
        simp [SkeletalAnimClip.create, hi]⟩
      (fun _ _ => trivial) h
    exact hP.2

theorem cursor_monotone_between_wraps_witness :
    ∃ cur, (⟨exampleAnim, 1/10, [0], [0], [⟨10, lerp 0 1 (1/10)⟩, ⟨11, 21⟩]⟩ :
        SkeletalAnimClip ℚ ℚ).m_rotFrame[0]? = some cur ∧
      (examplePlayer.m_timer + 1 ≤ exampleAnim.duration → 1 ≤ cur) ∧
      (cur < 1 → exampleAnim.duration < examplePlayer.m_timer + 1 ∧
        (advanceTimer examplePlayer 1).m_rotFrame[0]? = some 0) :=
  (cursor_monotone_between_wraps lerp exampleAnim exampleSkeleton).1 examplePlayer _ 1 0
    (scenarioTrack 0 1 0) 1 rfl (scn3 lerp 0 1 0 ⟨10, lerp 1 0 (1/10)⟩ [⟨11, 21⟩]) rfl rfl

/-! ## The division guard (C23) and the fraction before the last key (C25) -/

theorem flat_run (mix : ℚ → ℚ → ℚ → ℚ) (e : ℚ) (h2 : e ≤ 2) :
    Update mix (SkeletalAnimClip.create flatAnim exampleSkeleton) e =
      some ⟨flatAnim, e, [0], [0], [⟨10, mix 3 5 ((e - 0) / (0 - 0))⟩, ⟨11, 21⟩]⟩ := by
  have hs : scanRot e flatTrack 2 0 = some 0 :=
    scanRot_stop 2 0 rfl (by intro h; exact absurd h.2 (by decide))
  have hb : rotBlend mix e flatTrack 0 = some (mix 3 5 ((e - 0) / (0 - 0))) := by
    simp [rotBlend, flatTrack]
  unfold Update
  rw [advanceTimer_noWrap (by simp [SkeletalAnimClip.create, flatAnim]; exact h2)]
  show tracksLoop mix 1 ⟨flatAnim, 0 + e, [0], [0], [⟨10, 20⟩, ⟨11, 21⟩]⟩ = _
  rw [zero_add, tracksLoop_one,
    trackStep_rotMany mix ⟨flatAnim, e, [0], [0], [⟨10, 20⟩, ⟨11, 21⟩]⟩ 0
      flatTrack ⟨10, 20⟩ ⟨10, 20⟩ 0 0 (mix 3 5 ((e - 0) / (0 - 0)))
      (by simp [flatAnim]) (by simp [flatTrack]) (by simp [trackPos, flatTrack])
      (by simp [flatTrack]) (by simp) hs hb]
  rfl

theorem Update_segment {mix : Q → Q → ℚ → Q} {c c1 : SkeletalAnimClip V Q} {dt : ℚ}
    (hU : Update mix c dt = some c1) {i : Nat} {a : JointAnim V Q}
    (ha : c.m_anim.data[i]? = some a) (hn : 2 ≤ a.rotFrames) :
    ∃ c0 cur tc tn kc kn, (advanceTimer c dt).m_rotFrame[i]? = some c0 ∧
      scanRot c1.m_timer a a.rotFrames c0 = some cur ∧ c1.m_rotFrame[i]? = some cur ∧
      a.rotTimes[cur]? = some tc ∧ a.rotTimes[cur + 1]? = some tn ∧
      a.rotKeys[cur]? = some kc ∧ a.rotKeys[cur + 1]? = some kn ∧
      rotBlend mix c1.m_timer a cur = some (mix kc kn ((c1.m_timer - tc) / (tn - tc))) := by
  obtain ⟨c0, cur, r, h0, hs, hb, hcur, -⟩ := Update_rotMany hU ha hn
  obtain ⟨tc, tn, kc, kn, htc, htn, hkc, hkn, hr⟩ := rotBlend_some hb
  exact ⟨c0, cur, tc, tn, kc, kn, h0, hs, hcur, htc, htn, hkc, hkn, hr ▸ hb⟩

/-- C23. Division guard: in a defined `Update` from any state, for a track
with two or more rotation keys whose key times are strictly increasing, the
segment `cur`, `cur + 1` the call blends over (`cur` is the cursor it leaves)
has `rotTimes[cur + 1] - rotTimes[cur] > 0`, so the fraction is not a division
by zero.  Strictness is needed: on `flatAnim`, whose key times 0, 0 are
non-decreasing, `Update (1/2)` from the fresh player is defined and blends
over segment 0, whose denominator is `0 - 0 = 0`. -/
theorem division_guard (mix : Q → Q → ℚ → Q) :
    (∀ (c c1 : SkeletalAnimClip V Q) (dt : ℚ) (i : Nat) (a : JointAnim V Q),
      Update mix c dt = some c1 → c.m_anim.data[i]? = some a → 2 ≤ a.rotFrames →
      a.rotTimes.Pairwise (· < ·) →
      ∃ cur tc tn kc kn, c1.m_rotFrame[i]? = some cur ∧
        a.rotTimes[cur]? = some tc ∧ a.rotTimes[cur + 1]? = some tn ∧
        a.rotKeys[cur]? = some kc ∧ a.rotKeys[cur + 1]? = some kn ∧
        rotBlend mix c1.m_timer a cur = some (mix kc kn ((c1.m_timer - tc) / (tn - tc))) ∧
        0 < tn - tc) ∧
    (flatTrack.rotTimes.Pairwise (· ≤ ·) ∧ flatAnim.data = [flatTrack] ∧
      ∀ mix1 : ℚ → ℚ → ℚ → ℚ,
        Update mix1 (SkeletalAnimClip.create flatAnim exampleSkeleton) (1/2) =
          some ⟨flatAnim, 1/2, [0], [0],
            [⟨10, mix1 3 5 ((1/2 - 0) / (0 - 0))⟩, ⟨11, 21⟩]⟩ ∧
        flatTrack.rotTimes[0]? = some 0 ∧ flatTrack.rotTimes[0 + 1]? = some 0 ∧
        rotBlend mix1 (1/2) flatTrack 0 = some (mix1 3 5 ((1/2 - 0) / (0 - 0))) ∧
        (0 : ℚ) - 0 = 0) := by
  refine ⟨fun c c1 dt i a hU ha hn hinc => ?_, by simp [flatTrack], rfl, fun mix1 =>
    ⟨flat_run mix1 (1/2) (by norm_num), rfl, rfl, by simp [rotBlend, flatTrack], by norm_num⟩⟩
  obtain ⟨c0, cur, tc, tn, kc, kn, -, -, hcur, htc, htn, hkc, hkn, hb⟩ := Update_segment hU ha hn
  refine ⟨cur, tc, tn, kc, kn, hcur, htc, htn, hkc, hkn, hb, ?_⟩
  have := pairwise_getElem?_lt hinc (Nat.lt_succ_self cur) htc htn
  linarith

theorem division_guard_witness :
    ∃ cur tc tn kc kn, examplePlayer.m_rotFrame[0]? = some cur ∧
      (scenarioTrack 0 1 0 : JointAnim ℚ ℚ).rotTimes[cur]? = some tc ∧
      (scenarioTrack 0 1 0 : JointAnim ℚ ℚ).rotTimes[cur + 1]? = some tn ∧
      (scenarioTrack 0 1 0 : JointAnim ℚ ℚ).rotKeys[cur]? = some kc ∧
      (scenarioTrack 0 1 0 : JointAnim ℚ ℚ).rotKeys[cur + 1]? = some kn ∧
      rotBlend lerp examplePlayer.m_timer (scenarioTrack 0 1 0 : JointAnim ℚ ℚ) cur =
        some (lerp kc kn ((examplePlayer.m_timer - tc) / (tn - tc))) ∧
      0 < tn - tc :=
  (division_guard lerp).1 examplePlayerHalf examplePlayer (6/10) 0 (scenarioTrack 0 1 0)
    examplePlayer_step rfl (by decide) (by norm_num [scenarioTrack])

theorem CurInv_updates {mix : Q → Q → ℚ → Q} {anim : SkeletalAnim V Q}
    {skeleton : Skeleton V Q} {i : Nat} {a : JointAnim V Q}
    (ha : anim.data[i]? = some a) (dts : List ℚ) (hdts : ∀ dt ∈ dts, 0 ≤ dt)
    {c : SkeletalAnimClip V Q}
    (h : updates mix (SkeletalAnimClip.create anim skeleton) dts = some c) :
    c.m_anim = anim ∧ CurInv i a c := by
  refine @updates_induction V Q mix (fun c => c.m_anim = anim ∧ CurInv i a c) (fun dt => 0 ≤ dt)
    (fun c dt c1 hc hdt hU =>
      ⟨(Update_frame hU).1.trans hc.1, Update_CurInv hU (hc.1 ▸ ha) hdt hc.2⟩)
    dts (SkeletalAnimClip.create anim skeleton) c ⟨rfl, 0, ?_, Or.inl rfl⟩ hdts h
  have hi : i < anim.data.length := by
    by_contra hcon
    rw [List.getElem?_eq_none (by omega)] at ha
    cases ha
  simp [SkeletalAnimClip.create, hi]

/-- C25. Fraction in range before the last key: for a clip with positive
duration and a track with two or more rotation keys whose times are strictly
increasing with `rotTimes[0] = 0`, take a state reached from construction by
`Update`s with non-negative `deltaTime`, the last of them being the call that
computed the fraction.  If the timer `e` is at most the time of the last key,
then the fraction `t = (e - rotTimes[cur]) / (rotTimes[cur + 1] - rotTimes[cur])`
that call blended with (`cur` is the cursor it left) satisfies `0 ≤ t ≤ 1`. -/
theorem fraction_in_range (mix : Q → Q → ℚ → Q) (anim : SkeletalAnim V Q)
    (skeleton : Skeleton V Q) (dts : List ℚ) (dt : ℚ) (c1 c : SkeletalAnimClip V Q) (i : Nat)
    (a : JointAnim V Q) (tlast : ℚ) (hd : 0 < anim.duration) (hdts : ∀ x ∈ dts, 0 ≤ x)
    (hdt : 0 ≤ dt)
    (h1 : updates mix (SkeletalAnimClip.create anim skeleton) dts = some c1)
    (hU : Update mix c1 dt = some c) (ha : anim.data[i]? = some a) (hn : 2 ≤ a.rotFrames)
    (hinc : a.rotTimes.Pairwise (· < ·)) (h0 : a.rotTimes[0]? = some 0)
    (hlast : a.rotTimes[a.rotFrames - 1]? = some tlast) (he : c.m_timer ≤ tlast) :
    ∃ cur tc tn kc kn, c.m_rotFrame[i]? = some cur ∧
      a.rotTimes[cur]? = some tc ∧ a.rotTimes[cur + 1]? = some tn ∧
      a.rotKeys[cur]? = some kc ∧ a.rotKeys[cur + 1]? = some kn ∧
      rotBlend mix c.m_timer a cur = some (mix kc kn ((c.m_timer - tc) / (tn - tc))) ∧
      0 ≤ (c.m_timer - tc) / (tn - tc) ∧ (c.m_timer - tc) / (tn - tc) ≤ 1 := by
  have hrun : updates mix (SkeletalAnimClip.create anim skeleton) (dts ++ [dt]) = some c := by
    rw [updates_append_one, h1]
    exact hU
  have hnn : ∀ x ∈ dts ++ [dt], 0 ≤ x := by
    intro x hx
    rcases List.mem_append.1 hx with hx | hx
    · exact hdts x hx
    · rw [List.mem_singleton.1 hx]
      exact hdt
  obtain ⟨-, he0, -⟩ := timer_bounds hd _ hnn hrun
  obtain ⟨hA, -⟩ := CurInv_updates ha dts hdts h1
  obtain ⟨-, cI, hcI, hpast⟩ := CurInv_updates ha _ hnn hrun
  obtain ⟨-, cV, hcV, hvalid⟩ := CurValid_updates ha hn _ hrun
  obtain ⟨c0, cur, tc, tn, kc, kn, -, hs, hcur, htc, htn, hkc, hkn, hb⟩ :=
    Update_segment hU (hA ▸ ha) hn
  have eI : cur = cI := by
    rw [hcur] at hcI
    exact Option.some.inj hcI
  have eV : cur = cV := by
    rw [hcur] at hcV
    exact Option.some.inj hcV
  subst eI
  subst eV
  have hlt : tc < tn := pairwise_getElem?_lt hinc (Nat.lt_succ_self cur) htc htn
  have hlow : tc ≤ c.m_timer := by
    rcases hpast with h | ⟨tc1, h, hlt1⟩
    · subst h
      rw [h0] at htc
      cases htc
      exact he0
    · rw [htc] at h
      cases h
      exact le_of_lt hlt1
  have hup : c.m_timer ≤ tn := by
    obtain ⟨-, ⟨tn1, htn1, hstop⟩, -⟩ := scanRot_spec _ hs
    rw [htn] at htn1
    cases htn1
    by_contra hcon
    have hgt : c.m_timer > tn := not_le.mp hcon
    have hend : ¬ cur + 1 < a.rotFrames - 1 := fun h => hstop ⟨hgt, h⟩
    have heq : cur + 1 = a.rotFrames - 1 := by omega
    rw [← heq, htn] at hlast
    cases hlast
    exact absurd he hcon
  refine ⟨cur, tc, tn, kc, kn, hcur, htc, htn, hkc, hkn, hb, ?_, ?_⟩
  · exact div_nonneg (by linarith) (by linarith)
  · rw [div_le_one (by linarith)]
    linarith

theorem fraction_in_range_witness :
    ∃ cur tc tn kc kn, examplePlayer.m_rotFrame[0]? = some cur ∧
      (scenarioTrack 0 1 0 : JointAnim ℚ ℚ).rotTimes[cur]? = some tc ∧
      (scenarioTrack 0 1 0 : JointAnim ℚ ℚ).rotTimes[cur + 1]? = some tn ∧
      (scenarioTrack 0 1 0 : JointAnim ℚ ℚ).rotKeys[cur]? = some kc ∧
      (scenarioTrack 0 1 0 : JointAnim ℚ ℚ).rotKeys[cur + 1]? = some kn ∧
      rotBlend lerp examplePlayer.m_timer (scenarioTrack 0 1 0 : JointAnim ℚ ℚ) cur =
        some (lerp kc kn ((examplePlayer.m_timer - tc) / (tn - tc))) ∧
      0 ≤ (examplePlayer.m_timer - tc) / (tn - tc) ∧
      (examplePlayer.m_timer - tc) / (tn - tc) ≤ 1 :=
  fraction_in_range lerp exampleAnim exampleSkeleton [1/2] (6/10) examplePlayerHalf
    examplePlayer 0 (scenarioTrack 0 1 0) 2 (by norm_num [exampleAnim, scenarioAnim])
    (by simp) (by norm_num)
    (scenario_run1 lerp 0 1 0 ⟨10, 20, 30, 40⟩ [⟨11, 21, 31, 41⟩]) examplePlayer_step rfl
    (by decide) (by norm_num [scenarioTrack]) rfl rfl (by norm_num [examplePlayer])

/-! ## Two tracks on one joint (C28) -/

theorem tracksLoop_succ (mix : Q → Q → ℚ → Q) (n : Nat) (c : SkeletalAnimClip V Q) :
    tracksLoop mix (n + 1) c = (tracksLoop mix n c).bind (fun c1 => trackStep mix c1 n) := by
  unfold tracksLoop
  exact foldlM_range_succ _ _ _

theorem dup_run (mix : ℚ → ℚ → ℚ → ℚ) :
    Update mix (SkeletalAnimClip.create dupAnim exampleSkeleton) (1/2) =
      some ⟨dupAnim, 1/2, [0, 0], [0, 0], [⟨5, 9⟩, ⟨11, 21⟩]⟩ := by
  unfold Update
  rw [advanceTimer_noWrap (by norm_num [SkeletalAnimClip.create, dupAnim])]
  show tracksLoop mix (1 + 1) ⟨dupAnim, 0 + 1/2, [0, 0], [0, 0], [⟨10, 20⟩, ⟨11, 21⟩]⟩ = _
  rw [zero_add, tracksLoop_succ, tracksLoop_one]
  simp [trackStep, trackPos, trackRot, dupAnim, dupTrackA, dupTrackB]

theorem Update_rot_written {mix : Q → Q → ℚ → Q} {c c1 : SkeletalAnimClip V Q} {dt : ℚ}
    (hU : Update mix c dt = some c1) {i : Nat} {a : JointAnim V Q}
    (ha : c.m_anim.data[i]? = some a)
    (hlast : ∀ i' b, i < i' → c.m_anim.data[i']? = some b → b.jointInd = a.jointInd →
      b.rotFrames = 0) :
    (a.rotFrames = 1 →
      (c1.m_result[a.jointInd]?).map (fun p => p.rotation) = a.rotKeys[0]? ∧
      (a.rotKeys[0]?).isSome = true) ∧
    (2 ≤ a.rotFrames → ∃ cur r, c1.m_rotFrame[i]? = some cur ∧
      rotBlend mix c1.m_timer a cur = some r ∧
      (c1.m_result[a.jointInd]?).map (fun p => p.rotation) = some r) := by
  constructor
  · intro h1
    obtain ⟨hv, hs, -⟩ := Update_lastRot hU ha (by omega) hlast
    rw [rotValue, if_pos h1] at hv
    exact ⟨hv, hv ▸ hs⟩
  · intro h2
    obtain ⟨hv, -, -⟩ := Update_lastRot hU ha (by omega) hlast
    obtain ⟨c0, cur, r, -, -, hb, hcur, hr⟩ := Update_rotMany hU ha h2
    exact ⟨cur, r, hcur, hb, hv.trans hr⟩

/-- C28. Duplicate joint targets, last writer wins: let tracks `a`, `b` at
clip positions `ia < ib` target the same joint `j`, no other track after `ia`
targeting `j`.  After a defined `Update` from any state, the position of
buffer entry `j` is `b`'s position key 0 when `b` has a position key, and
`a`'s position key 0 when only `a` has one; the rotation is what `b` wrote
when `b` has a rotation key (its key 0 for one key, the blend over the segment
at `b`'s new cursor for two or more), and what `a` wrote when `b` has none and
`a` has one.  The loop processes the tracks in clip order: its first `n + 1`
iterations are its first `n` followed by the body for track `n`. -/
theorem last_writer_wins (mix : Q → Q → ℚ → Q) (c c1 : SkeletalAnimClip V Q) (dt : ℚ)
    (ia ib : Nat) (a b : JointAnim V Q) (hU : Update mix c dt = some c1)
    (ha : c.m_anim.data[ia]? = some a) (hb : c.m_anim.data[ib]? = some b) (hab : ia < ib)
    (hj : a.jointInd = b.jointInd)
    (honly : ∀ (k : Nat) (x : JointAnim V Q), ia < k → c.m_anim.data[k]? = some x →
      x.jointInd = b.jointInd → k = ib) :
    (0 < b.posFrames →
      (c1.m_result[b.jointInd]?).map (fun p => p.pos) = b.posKeys[0]?) ∧
    (b.posFrames = 0 → 0 < a.posFrames →
      (c1.m_result[b.jointInd]?).map (fun p => p.pos) = a.posKeys[0]?) ∧
    (b.rotFrames = 1 →
      (c1.m_result[b.jointInd]?).map (fun p => p.rotation) = b.rotKeys[0]?) ∧
    (2 ≤ b.rotFrames → ∃ cur r, c1.m_rotFrame[ib]? = some cur ∧
      rotBlend mix c1.m_timer b cur = some r ∧
      (c1.m_result[b.jointInd]?).map (fun p => p.rotation) = some r) ∧
    (b.rotFrames = 0 → a.rotFrames = 1 →
      (c1.m_result[b.jointInd]?).map (fun p => p.rotation) = a.rotKeys[0]?) ∧
    (b.rotFrames = 0 → 2 ≤ a.rotFrames → ∃ cur r, c1.m_rotFrame[ia]? = some cur ∧
      rotBlend mix c1.m_timer a cur = some r ∧
      (c1.m_result[b.jointInd]?).map (fun p => p.rotation) = some r) ∧
    (∀ (n : Nat) (c2 : SkeletalAnimClip V Q),
      tracksLoop mix (n + 1) c2 =
        (tracksLoop mix n c2).bind (fun c3 => trackStep mix c3 n)) := by
  have hafterB : ∀ (k : Nat) (x : JointAnim V Q), ib < k → c.m_anim.data[k]? = some x →
      x.jointInd = b.jointInd → False := by
    intro k x hk hx hxj
    have := honly k x (by omega) hx hxj
    omega
  have hafterA : ∀ (k : Nat) (x : JointAnim V Q), ia < k → c.m_anim.data[k]? = some x →
      x.jointInd = a.jointInd → x = b := by
    intro k x hk hx hxj
    have := honly k x hk hx (hxj.trans hj)
    subst this
    rw [hb] at hx
    exact (Option.some.inj hx).symm
  refine ⟨fun hp => ?_, fun hp0 hpa => ?_, fun h1 => ?_, fun h2 => ?_, fun h0 h1 => ?_,
    fun h0 h2 => ?_, fun n c2 => tracksLoop_succ mix n c2⟩
  · exact (Update_lastPos hU hb hp (fun k x hk hx hxj => (hafterB k x hk hx hxj).elim)).1
  · rw [← hj]
    refine (Update_lastPos hU ha hpa (fun k x hk hx hxj => ?_)).1
    rw [hafterA k x hk hx hxj]
    exact hp0
  · exact ((Update_rot_written hU hb
      (fun k x hk hx hxj => (hafterB k x hk hx hxj).elim)).1 h1).1
  · exact (Update_rot_written hU hb (fun k x hk hx hxj => (hafterB k x hk hx hxj).elim)).2 h2
  · rw [← hj]
    refine ((Update_rot_written hU ha (fun k x hk hx hxj => ?_)).1 h1).1
    rw [hafterA k x hk hx hxj]
    exact h0
  · rw [← hj]
    refine (Update_rot_written hU ha (fun k x hk hx hxj => ?_)).2 h2
    rw [hafterA k x hk hx hxj]
    exact h0

theorem last_writer_wins_witness :
    Update lerp (SkeletalAnimClip.create dupAnim exampleSkeleton) (1/2) =
      some ⟨dupAnim, 1/2, [0, 0], [0, 0], [⟨5, 9⟩, ⟨11, 21⟩]⟩ ∧
    (([⟨5, 9⟩, ⟨11, 21⟩] : List (JointPose ℚ ℚ))[0]?).map (fun p => p.pos) =
      dupTrackA.posKeys[0]? ∧
    (([⟨5, 9⟩, ⟨11, 21⟩] : List (JointPose ℚ ℚ))[0]?).map (fun p => p.rotation) =
      dupTrackB.rotKeys[0]? :=
  ⟨dup_run lerp,
    (last_writer_wins lerp _ _ (1/2) 0 1 dupTrackA dupTrackB (dup_run lerp) rfl rfl
      (by decide) rfl (fun k x hk hx _ => by
        match k, hk, hx with
        | 1, _, _ => rfl
        | k + 2, _, hx => simp [SkeletalAnimClip.create, dupAnim] at hx)).2.1 rfl (by decide),
    (last_writer_wins lerp _ _ (1/2) 0 1 dupTrackA dupTrackB (dup_run lerp) rfl rfl
      (by decide) rfl (fun k x hk hx _ => by
        match k, hk, hx with
        | 1, _, _ => rfl
        | k + 2, _, hx => simp [SkeletalAnimClip.create, dupAnim] at hx)).2.2.1 rfl⟩

/-! ## Update with deltaTime 0 (C29) -/

theorem scanRot_idem {timer : ℚ} {a : JointAnim V Q} (fuel fuel1 : Nat) {c0 cur : Nat}
    (h : scanRot timer a fuel c0 = some cur) : scanRot timer a fuel1 cur = some cur := by
  obtain ⟨-, ⟨tn, htn, hstop⟩, -⟩ := scanRot_spec fuel h
  exact scanRot_stop fuel1 tn htn hstop

theorem scanRot_bind_idem (timer : ℚ) (a : JointAnim V Q) (x : Option Nat) :
    (x.bind (scanRot timer a a.rotFrames)).bind (scanRot timer a a.rotFrames) =
      x.bind (scanRot timer a a.rotFrames) := by
  cases x with
  | none => rfl
  | some c0 =>
    simp only [Option.some_bind]
    cases h : scanRot timer a a.rotFrames c0 with
    | none => rfl
    | some cur =>
      simp only [Option.some_bind]
      exact scanRot_idem _ _ h

theorem curValue_idem (timer : ℚ) (a : JointAnim V Q) (x : Option Nat) :
    curValue timer a (curValue timer a x) = curValue timer a x := by
  unfold curValue
  split
  · exact scanRot_bind_idem timer a x
  · rfl

theorem overlay_idem (wp : Nat → Option V) (wr : Nat → Option Q) (b : List (JointPose V Q)) :
    overlay wp wr (overlay wp wr b) = overlay wp wr b :=
  overlay_absorb wp wp wr wr b (fun _ h => h) (fun _ h => h)

theorem loopW_idem {mix : Q → Q → ℚ → Q} {anim : SkeletalAnim V Q} {timer : ℚ} {L : Nat}
    {rf : List Nat} {s : List Nat × (Nat → Option V) × (Nat → Option Q)}
    (h : loopW mix anim timer L anim.data.length rf = some s) :
    loopW mix anim timer L anim.data.length s.1 = some s := by
  have hlen : rf.length = s.1.length := (loopW_spec _ h).1.symm
  have hcong := loopW_congr mix anim timer L anim.data.length hlen (by
    intro i a hi ha hn
    have hc := loopW_cursor _ h hi ha
    rw [hc, curValue, if_pos hn, scanRot_bind_idem])
  rw [h] at hcong
  cases h2 : loopW mix anim timer L anim.data.length s.1 with
  | none => simp [h2] at hcong
  | some s2 =>
    simp only [h2, Option.map_some', Option.some.injEq] at hcong
    have h1 : s2.1 = s.1 := by
      apply List.ext_getElem?
      intro k
      by_cases hk : k < anim.data.length
      · have ha : anim.data[k]? = some anim.data[k] := List.getElem?_eq_getElem hk
        rw [loopW_cursor _ h2 hk ha, loopW_cursor _ h hk ha, curValue_idem]
      · exact (loopW_spec _ h2).2.1 k (by omega)
    exact congrArg some (Prod.ext h1 hcong.symm)

theorem Update_timer_le {mix : Q → Q → ℚ → Q} {c c1 : SkeletalAnimClip V Q} {dt : ℚ}
    (hd : 0 < c.m_anim.duration) (hU : Update mix c dt = some c1) :
    c1.m_timer ≤ c.m_anim.duration := by
  rw [(Update_frame hU).2.1]
  by_cases hw : c.m_timer + dt > c.m_anim.duration
  · rw [advanceTimer_wrap hw]
    exact le_of_lt (fmod_nonneg_lt hd (le_of_lt (lt_trans hd hw))).2.1
  · rw [advanceTimer_noWrap (not_lt.mp hw)]
    exact not_lt.mp hw

theorem Update_zero_after {mix : Q → Q → ℚ → Q} {c c1 : SkeletalAnimClip V Q} {dt : ℚ}
    (hd : 0 < c.m_anim.duration) (hU : Update mix c dt = some c1) :
    Update mix c1 0 = some c1 := by
  have hle := Update_timer_le hd hU
  obtain ⟨s, hl, hc1⟩ := Update_some hU
  have hadv : advanceTimer c1 0 = c1 := by
    rw [advanceTimer_noWrap (by rw [add_zero, (Update_frame hU).1]; exact hle)]
    simp
  rw [Update_eq, hadv]
  subst hc1
  simp only [overlay_length]
  rw [loopW_idem hl]
  simp only [Option.map_some', overlay_idem]

/-- C29. An `Update` with `deltaTime` 0 is a no-op on an already-updated
player: for a clip with positive duration and a state reached from
construction by at least one `Update` (with `deltaTime`s of any sign, so in
particular non-negative ones), a further `Update 0` is defined and returns the
same state: the timer, every cursor and every pose buffer entry are
unchanged. -/
theorem update_zero_noop (mix : Q → Q → ℚ → Q) (anim : SkeletalAnim V Q)
    (skeleton : Skeleton V Q) (dts : List ℚ) (c : SkeletalAnimClip V Q)
    (hd : 0 < anim.duration) (hne : dts ≠ [])
    (h : updates mix (SkeletalAnimClip.create anim skeleton) dts = some c) :
    Update mix c 0 = some c := by
  obtain ⟨dts1, dt, c1, hdts, h1, hU⟩ := updates_last hne h
  have hA : c1.m_anim = anim := (Inv_updates dts1 (Inv_create anim skeleton) h1).1
  exact Update_zero_after (hA ▸ hd) hU

theorem update_zero_noop_witness :
    0 < exampleAnim.duration ∧ ([1/2, 6/10] : List ℚ) ≠ [] ∧
    updates lerp (SkeletalAnimClip.create exampleAnim exampleSkeleton) [1/2, 6/10] =
      some examplePlayer ∧
    Update lerp examplePlayer 0 = some examplePlayer :=
  ⟨by norm_num [exampleAnim, scenarioAnim], by simp, examplePlayer_reached,
    update_zero_noop lerp exampleAnim exampleSkeleton [1/2, 6/10] examplePlayer
      (by norm_num [exampleAnim, scenarioAnim]) (by simp) examplePlayer_reached⟩

/-! ## The timer in the range of `float` -/

theorem FLT_MAX_pos : 0 < FLT_MAX := by
  norm_num [FLT_MAX]

theorem FloatVal.ofRounded_num {s q : ℚ} (h : FloatVal.ofRounded s = .num q) :
    q = s ∧ -FLT_MAX ≤ s ∧ s ≤ FLT_MAX := by
  unfold FloatVal.ofRounded at h
  split at h
  · cases h
  · split at h
    · cases h
    · cases h
      exact ⟨rfl, by linarith, by linarith⟩

theorem FloatVal.ofRounded_inRange {s : ℚ} (h1 : -FLT_MAX ≤ s) (h2 : s ≤ FLT_MAX) :
    FloatVal.ofRounded s = .num s := by
  unfold FloatVal.ofRounded
  rw [if_neg (not_lt.mpr h2), if_neg (not_lt.mpr h1)]

theorem FloatVal.add_num_inv {rnd : ℚ → ℚ} {e q : ℚ} {dt : FloatVal}
    (h : FloatVal.add rnd (.num e) dt = .num q) :
    ∃ b, dt = .num b ∧ q = rnd (e + b) ∧ -FLT_MAX ≤ q ∧ q ≤ FLT_MAX := by
  cases dt with
  | num b =>
    obtain ⟨hq, h1, h2⟩ := FloatVal.ofRounded_num (show FloatVal.ofRounded (rnd (e + b)) = _ from h)
    exact ⟨b, rfl, hq, hq ▸ h1, hq ▸ h2⟩
  | posInf => cases h
  | negInf => cases h
  | nan => cases h

theorem advanceTimerF_TimerOK {rnd : ℚ → ℚ} (hrnd : Monotone rnd) (hrnd0 : rnd 0 = 0)
    {duration : FloatVal} (hd : FloatVal.lt (.num 0) duration = true) {dt : FloatVal} {e : ℚ}
    (he : 0 ≤ e) (hdt : FloatVal.le (.num 0) dt = true)
    (hfin : ∃ q, FloatVal.add rnd (.num e) dt = .num q) :
    TimerOK duration (advanceTimerF rnd duration (.num e) dt).1 := by
  obtain ⟨q, hq⟩ := hfin
  obtain ⟨b, rfl, hqv, -, -⟩ := FloatVal.add_num_inv hq
  have hb : 0 ≤ b := by simpa [FloatVal.le] using hdt
  have hq0 : 0 ≤ q := by
    rw [hqv, ← hrnd0]
    exact hrnd (by linarith)
  unfold advanceTimerF
  simp only [hq]
  cases duration with
  | num dq =>
    have hdq : 0 < dq := by simpa [FloatVal.lt] using hd
    by_cases hw : dq < q
    · rw [if_pos (by simpa [FloatVal.lt] using hw)]
      obtain ⟨h0, hlt, -⟩ := fmod_nonneg_lt hdq hq0
      refine ⟨fmod q dq, ?_, h0, ?_⟩
      · simp [FloatVal.fmod, ne_of_gt hdq]
      · simpa [FloatVal.le] using le_of_lt hlt
    · rw [if_neg (by simpa [FloatVal.lt] using hw)]
      exact ⟨q, rfl, hq0, by simpa [FloatVal.le] using hw⟩
  | posInf =>
    rw [if_neg (by simp [FloatVal.lt])]
    exact ⟨q, rfl, hq0, rfl⟩
  | negInf => simp [FloatVal.lt] at hd
  | nan => simp [FloatVal.lt] at hd

theorem timerRun_TimerOK {rnd : ℚ → ℚ} (hrnd : Monotone rnd) (hrnd0 : rnd 0 = 0)
    {duration : FloatVal} (hd : FloatVal.lt (.num 0) duration = true) (dts : List FloatVal)
    (t : FloatVal) (ht : TimerOK duration t)
    (hdts : ∀ dt ∈ dts, FloatVal.le (.num 0) dt = true)
    (hfin : sumsFinite rnd duration t dts) :
    TimerOK duration (dts.foldl (fun t dt => (advanceTimerF rnd duration t dt).1) t) := by
  induction dts generalizing t with
  | nil => exact ht
  | cons dt dts ih =>
    obtain ⟨e, rfl, he0, -⟩ := ht
    rw [List.foldl_cons]
    exact ih _ (advanceTimerF_TimerOK hrnd hrnd0 hd he0 (hdts dt (by simp)) hfin.1)
      (fun x hx => hdts x (by simp [hx])) hfin.2

theorem zero_TimerOK {duration : FloatVal} (hd : FloatVal.lt (.num 0) duration = true) :
    TimerOK duration (.num 0) := by
  refine ⟨0, rfl, le_refl _, ?_⟩
  cases duration with
  | num dq =>
    have hdq : (0 : ℚ) < dq := by simpa [FloatVal.lt] using hd
    simpa [FloatVal.le] using le_of_lt hdq
  | posInf => rfl
  | negInf => simp [FloatVal.lt] at hd
  | nan => simp [FloatVal.lt] at hd

theorem timerRunF_bounds {rnd : ℚ → ℚ} (hrnd : Monotone rnd) (hrnd0 : rnd 0 = 0)
    {duration : FloatVal} (hd : FloatVal.lt (.num 0) duration = true) (dts : List FloatVal)
    (hdts : ∀ dt ∈ dts, FloatVal.le (.num 0) dt = true)
    (hfin : sumsFinite rnd duration (.num 0) dts) :
    TimerOK duration (timerRunF rnd duration dts) :=
  timerRun_TimerOK hrnd hrnd0 hd dts _ (zero_TimerOK hd) hdts hfin

theorem FloatVal.add_id_num {a b : ℚ} (h1 : -FLT_MAX ≤ a + b) (h2 : a + b ≤ FLT_MAX) :
    FloatVal.add id (.num a) (.num b) = .num (a + b) :=
  FloatVal.ofRounded_inRange h1 h2

theorem advanceTimerF_exact (c : SkeletalAnimClip V Q) (dt : ℚ) (hd : 0 < c.m_anim.duration)
    (h1 : -FLT_MAX ≤ c.m_timer + dt) (h2 : c.m_timer + dt ≤ FLT_MAX) :
    advanceTimerF id (.num c.m_anim.duration) (.num c.m_timer) (.num dt) =
      (.num (advanceTimer c dt).m_timer, decide (c.m_timer + dt > c.m_anim.duration)) := by
  unfold advanceTimerF
  simp only [FloatVal.add_id_num h1 h2]
  by_cases hw : c.m_timer + dt > c.m_anim.duration
  · rw [advanceTimer_wrap hw, if_pos (by simpa [FloatVal.lt] using hw)]
    simp [FloatVal.fmod, ne_of_gt hd, hw]
  · rw [advanceTimer_noWrap (not_lt.mp hw), if_neg (by simpa [FloatVal.lt] using hw)]
    simp [hw]

theorem timerRunF_eq_updates_from (mix : Q → Q → ℚ → Q) (dts : List ℚ)
    (c c1 : SkeletalAnimClip V Q) (hd : 0 < c.m_anim.duration)
    (h : updates mix c dts = some c1)
    (hfin : sumsFinite id (.num c.m_anim.duration) (.num c.m_timer) (dts.map FloatVal.num)) :
    (dts.map FloatVal.num).foldl
      (fun t dt => (advanceTimerF id (.num c.m_anim.duration) t dt).1) (.num c.m_timer) =
        .num c1.m_timer := by
  induction dts generalizing c with
  | nil =>
    simp [updates] at h
    rw [h]
    rfl
  | cons dt dts ih =>
    rw [updates_cons] at h
    cases hU : Update mix c dt with
    | none => simp [hU] at h
    | some c2 =>
      simp only [hU, Option.some_bind] at h
      obtain ⟨hA, hT, -⟩ := Update_frame hU
      obtain ⟨⟨q, hq⟩, hrest⟩ := hfin
      obtain ⟨b, hb, hqv, hr1, hr2⟩ := FloatVal.add_num_inv hq
      cases hb
      have hstep := advanceTimerF_exact c dt hd (by simpa [hqv] using hr1)
        (by simpa [hqv] using hr2)
      rw [List.map_cons, List.foldl_cons, hstep]
      rw [hstep] at hrest
      simp only at hrest ⊢
      rw [← hT, ← hA] at hrest ⊢
      exact ih c2 (hA ▸ hd) h hrest

theorem timerRunF_eq_updates (mix : Q → Q → ℚ → Q) (anim : SkeletalAnim V Q)
    (skeleton : Skeleton V Q) (dts : List ℚ) (c : SkeletalAnimClip V Q)
    (hd : 0 < anim.duration)
    (h : updates mix (SkeletalAnimClip.create anim skeleton) dts = some c)
    (hfin : sumsFinite id (.num anim.duration) (.num 0) (dts.map FloatVal.num)) :
    timerRunF id (.num anim.duration) (dts.map FloatVal.num) = .num c.m_timer :=
  timerRunF_eq_updates_from mix dts (SkeletalAnimClip.create anim skeleton) c hd h hfin

/-! ## The closed timer bound in the range of `float` (C8, C26) -/

theorem FLT_MAX_run :
    FloatVal.add id (.num 0) (.num FLT_MAX) = .num FLT_MAX ∧
    advanceTimerF id (.num FLT_MAX) (.num 0) (.num FLT_MAX) = (.num FLT_MAX, false) ∧
    FloatVal.add id (.num FLT_MAX) (.num FLT_MAX) = .posInf ∧
    advanceTimerF id (.num FLT_MAX) (.num FLT_MAX) (.num FLT_MAX) = (.nan, true) ∧
    timerRunF id (.num FLT_MAX) [.num FLT_MAX, .num FLT_MAX] = .nan := by
  have h1 : FloatVal.add id (.num 0) (.num FLT_MAX) = .num FLT_MAX := by
    have := @FloatVal.add_id_num 0 FLT_MAX (by norm_num [FLT_MAX]) (by norm_num)
    rwa [zero_add] at this
  have h2 : FloatVal.add id (.num FLT_MAX) (.num FLT_MAX) = .posInf := by
    show FloatVal.ofRounded (FLT_MAX + FLT_MAX) = _
    unfold FloatVal.ofRounded
    rw [if_pos (by norm_num [FLT_MAX])]
  have h3 : advanceTimerF id (.num FLT_MAX) (.num 0) (.num FLT_MAX) = (.num FLT_MAX, false) := by
    unfold advanceTimerF
    simp [h1, FloatVal.lt]
  have h4 : advanceTimerF id (.num FLT_MAX) (.num FLT_MAX) (.num FLT_MAX) = (.nan, true) := by
    unfold advanceTimerF
    simp [h2, FloatVal.lt, FloatVal.fmod]
  refine ⟨h1, h3, h2, h4, ?_⟩
  unfold timerRunF
  simp [h3, h4]

/-- C8 (amended). Elapsed-time invariant: for a duration `> 0` (as `float`s
compare) and a run of `Update` calls from construction with non-negative
`deltaTime`s in which no sum `m_timer + deltaTime` is an infinity or a NaN, the
timer `e` after the run satisfies `0 <= e` and `e <= duration` (closed
interval).  The rounding `rnd` of the sum is any monotone function that keeps
0. -/
theorem timer_in_closed_interval (rnd : ℚ → ℚ) (duration : FloatVal) (dts : List FloatVal)
    (hrnd : Monotone rnd) (hrnd0 : rnd 0 = 0)
    (hd : FloatVal.lt (.num 0) duration = true)
    (hdts : ∀ dt ∈ dts, FloatVal.le (.num 0) dt = true)
    (hfin : sumsFinite rnd duration (.num 0) dts) :
    FloatVal.le (.num 0) (timerRunF rnd duration dts) = true ∧
      FloatVal.le (timerRunF rnd duration dts) duration = true := by
  obtain ⟨e, he, he0, hed⟩ := timerRunF_bounds hrnd hrnd0 hd dts hdts hfin
  rw [he]
  exact ⟨by simpa [FloatVal.le] using he0, hed⟩

theorem timer_in_closed_interval_witness :
    FloatVal.lt (.num 0) (.num 2) = true ∧
    sumsFinite id (.num 2) (.num 0) [.num (1/2), .num (3/2), .num 1] ∧
    timerRunF id (.num 2) [.num (1/2), .num (3/2), .num 1] = .num 1 ∧
    FloatVal.le (.num 0) (timerRunF id (.num 2) [.num (1/2), .num (3/2), .num 1]) = true ∧
    FloatVal.le (timerRunF id (.num 2) [.num (1/2), .num (3/2), .num 1]) (.num 2) = true := by
  have a1 : FloatVal.add id (.num 0) (.num (1/2)) = .num (1/2) := by
    have := @FloatVal.add_id_num 0 (1/2) (by norm_num [FLT_MAX]) (by norm_num [FLT_MAX])
    rwa [zero_add] at this
  have a2 : FloatVal.add id (.num (1/2)) (.num (3/2)) = .num 2 := by
    have := @FloatVal.add_id_num (1/2) (3/2) (by norm_num [FLT_MAX]) (by norm_num [FLT_MAX])
    rwa [show (1/2 : ℚ) + 3/2 = 2 by norm_num] at this
  have a3 : FloatVal.add id (.num 2) (.num 1) = .num 3 := by
    have := @FloatVal.add_id_num 2 1 (by norm_num [FLT_MAX]) (by norm_num [FLT_MAX])
    rwa [show (2 : ℚ) + 1 = 3 by norm_num] at this
  have s1 : advanceTimerF id (.num 2) (.num 0) (.num (1/2)) = (.num (1/2), false) := by
    unfold advanceTimerF
    simp only [a1, FloatVal.lt]
    norm_num
  have s2 : advanceTimerF id (.num 2) (.num (1/2)) (.num (3/2)) = (.num 2, false) := by
    unfold advanceTimerF
    simp only [a2, FloatVal.lt]
    norm_num
  have s3 : advanceTimerF id (.num 2) (.num 2) (.num 1) = (.num 1, true) := by
    unfold advanceTimerF
    have hf : fmod 3 2 = 1 := by
      have := fmod_three_two
      rwa [zero_add] at this
    simp only [a3, FloatVal.lt, FloatVal.fmod, hf]
    norm_num
  have hfin : sumsFinite id (.num 2) (.num 0) [.num (1/2), .num (3/2), .num 1] := by
    refine ⟨⟨_, a1⟩, ?_⟩
    rw [s1]
    refine ⟨⟨_, a2⟩, ?_⟩
    rw [s2]
    exact ⟨⟨_, a3⟩, trivial⟩
  have hrun : timerRunF id (.num 2) [.num (1/2), .num (3/2), .num 1] = .num 1 := by
    unfold timerRunF
    rw [List.foldl_cons, s1, List.foldl_cons, s2, List.foldl_cons, s3]
    rfl
  exact ⟨by simp [FloatVal.lt], hfin, hrun,
    timer_in_closed_interval id (.num 2) [.num (1/2), .num (3/2), .num 1] monotone_id rfl
      (by simp [FloatVal.lt]) (by simp [FloatVal.le]; norm_num) hfin⟩

/-- C26 (as stated, refuted). With duration `FLT_MAX` (`> 0`) and the
non-negative `deltaTime` `FLT_MAX` twice, the first `Update` leaves the timer
at `FLT_MAX` without wrapping, the sum of the second overflows to `+inf`, the
wrap test is true and `fmod (+inf, FLT_MAX)` is a NaN: after the run the
timer is a NaN, for which both `0 <= e` and `e <= duration` are false. -/
theorem timer_overflow_breaks_bound :
    FloatVal.lt (.num 0) (.num FLT_MAX) = true ∧
    (∀ dt ∈ [FloatVal.num FLT_MAX, FloatVal.num FLT_MAX], FloatVal.le (.num 0) dt = true) ∧
    advanceTimerF id (.num FLT_MAX) (.num 0) (.num FLT_MAX) = (.num FLT_MAX, false) ∧
    FloatVal.add id (.num FLT_MAX) (.num FLT_MAX) = .posInf ∧
    advanceTimerF id (.num FLT_MAX) (.num FLT_MAX) (.num FLT_MAX) = (.nan, true) ∧
    timerRunF id (.num FLT_MAX) [.num FLT_MAX, .num FLT_MAX] = .nan ∧
    FloatVal.le (.num 0) (timerRunF id (.num FLT_MAX) [.num FLT_MAX, .num FLT_MAX]) = false ∧
    FloatVal.le (timerRunF id (.num FLT_MAX) [.num FLT_MAX, .num FLT_MAX]) (.num FLT_MAX)
      = false := by
  obtain ⟨-, h3, h2, h4, hrun⟩ := FLT_MAX_run
  refine ⟨by simpa [FloatVal.lt] using FLT_MAX_pos, ?_, h3, h2, h4, hrun, ?_, ?_⟩
  · intro dt hdt
    simp only [List.mem_cons, List.mem_singleton, List.not_mem_nil, or_false, or_self] at hdt
    rw [hdt]
    simpa [FloatVal.le] using le_of_lt FLT_MAX_pos
  · rw [hrun]
    rfl
  · rw [hrun]
    rfl

/-- C26 (amended). Elapsed time is bounded by the duration inclusively as long
as no sum overflows: for a clip with duration `d > 0` and a run of `Update`s
from a fresh player with non-negative `deltaTime`s in which no sum
`m_timer + deltaTime` is an infinity or a NaN, the timer after the run is a
number `e` with `0 ≤ e ≤ d` (the rounding `rnd` of the sum is any monotone
function that keeps 0).  And `e = d` is reached: when `d` is a finite `float`
(`rnd d = d`, `d ≤ FLT_MAX`), the block on a fresh player with
`deltaTime = d` gives timer `d` and does not take the wrap branch; in the
player itself `Update d` on a fresh player, whenever defined, and always for a
well-formed clip, ends with timer `d`. -/
theorem elapsed_time_closed_bound (mix : Q → Q → ℚ → Q) (anim : SkeletalAnim V Q)
    (skeleton : Skeleton V Q) (rnd : ℚ → ℚ) (hrnd : Monotone rnd) (hrnd0 : rnd 0 = 0)
    (hd : 0 < anim.duration) :
    (∀ dts : List FloatVal, (∀ dt ∈ dts, FloatVal.le (.num 0) dt = true) →
      sumsFinite rnd (.num anim.duration) (.num 0) dts →
      ∃ e, timerRunF rnd (.num anim.duration) dts = .num e ∧ 0 ≤ e ∧ e ≤ anim.duration) ∧
    (rnd anim.duration = anim.duration → anim.duration ≤ FLT_MAX →
      advanceTimerF rnd (.num anim.duration) (.num 0) (.num anim.duration) =
        (.num anim.duration, false) ∧
      timerRunF rnd (.num anim.duration) [.num anim.duration] = .num anim.duration ∧
      sumsFinite rnd (.num anim.duration) (.num 0) [.num anim.duration]) ∧
    (∀ c : SkeletalAnimClip V Q,
      Update mix (SkeletalAnimClip.create anim skeleton) anim.duration = some c →
      c.m_timer = anim.duration) ∧
    (WellFormed anim skeleton → ∃ c : SkeletalAnimClip V Q,
      updates mix (SkeletalAnimClip.create anim skeleton) [anim.duration] = some c ∧
      c.m_timer = anim.duration) := by
  have hU : ∀ c : SkeletalAnimClip V Q,
      Update mix (SkeletalAnimClip.create anim skeleton) anim.duration = some c →
      c.m_timer = anim.duration := by
    intro c h
    rw [(Update_frame h).2.1, advanceTimer_create_duration]
  have hdF : FloatVal.lt (.num 0) (.num anim.duration) = true := by
    simpa [FloatVal.lt] using hd
  refine ⟨fun dts hdts hfin => ?_, fun hrd hmax => ?_, hU, fun hwf => ?_⟩
  · obtain ⟨e, he, he0, hed⟩ := timerRunF_bounds hrnd hrnd0 hdF dts hdts hfin
    exact ⟨e, he, he0, by simpa [FloatVal.le] using hed⟩
  · have hadd : FloatVal.add rnd (.num 0) (.num anim.duration) = .num anim.duration := by
      show FloatVal.ofRounded (rnd (0 + anim.duration)) = _
      rw [zero_add, hrd]
      exact FloatVal.ofRounded_inRange (by linarith [FLT_MAX_pos]) hmax
    have hstep : advanceTimerF rnd (.num anim.duration) (.num 0) (.num anim.duration) =
        (.num anim.duration, false) := by
      unfold advanceTimerF
      simp [hadd, FloatVal.lt]
    refine ⟨hstep, ?_, ⟨_, hadd⟩, trivial⟩
    unfold timerRunF
    rw [List.foldl_cons, hstep]
    rfl
  · obtain ⟨c, hc⟩ := updates_total mix hwf [anim.duration]
    refine ⟨c, hc, hU c ?_⟩
    rw [updates_cons] at hc
    cases h1 : Update mix (SkeletalAnimClip.create anim skeleton) anim.duration with
    | none => simp [h1] at hc
    | some c1 =>
      simp only [h1, Option.some_bind] at hc
      have : c1 = c := by simpa [updates] using hc
      rw [this]

theorem elapsed_time_closed_bound_witness :
    0 < exampleAnim.duration ∧ exampleAnim.duration ≤ FLT_MAX ∧
    timerRunF id (.num exampleAnim.duration) [.num exampleAnim.duration] =
      .num exampleAnim.duration ∧
    ∃ c : SkeletalAnimClip ℚ ℚ,
      updates lerp (SkeletalAnimClip.create exampleAnim exampleSkeleton) [exampleAnim.duration]
        = some c ∧ c.m_timer = exampleAnim.duration :=
  ⟨by norm_num [exampleAnim, scenarioAnim], by norm_num [exampleAnim, scenarioAnim, FLT_MAX],
    ((elapsed_time_closed_bound lerp exampleAnim exampleSkeleton id monotone_id rfl
      (by norm_num [exampleAnim, scenarioAnim])).2.1 rfl
      (by norm_num [exampleAnim, scenarioAnim, FLT_MAX])).2.1,
    (elapsed_time_closed_bound lerp exampleAnim exampleSkeleton id monotone_id rfl
      (by norm_num [exampleAnim, scenarioAnim])).2.2.2 exampleAnim_wellFormed⟩

end nou
